import Mathlib

/-! # woinc: multi-host controller core

A shallow embedding of `libui/src/controller.cc` (the controller facade) and of
`libui/src/periodic_tasks_scheduler.cc` (the periodic tasks scheduler), with the
properties of the host registry and of the scheduler proved about it.

Conventions of the embedding:

* a `std::map<std::string, V>` is a key-sorted association list (`HostMap V`);
* a member function becomes a function from the state before the call to a record
  holding the outcome (returned / raised), the state after the call (for a raised
  exception: the state at the `throw`) and the mutating calls and callbacks it made
  on its collaborators, in program order;
* `std::chrono::steady_clock::time_point` is its tick count, a 64 bit signed integer,
  embedded in `Int` with the wrap-around written out.
-/

namespace Woinc

/-! ## Key-sorted association lists -/

/-- A `std::map<std::string, V>`: the entries in iteration order. -/
abbrev HostMap (α : Type) := List (String × α)

namespace HostMap

/-- The mapped value of `k` when there is one (`find` / `at`). -/
def find {α : Type} : HostMap α → String → Option α
  | [], _ => none
  | (k', v) :: rest, k => if k' = k then some v else find rest k

/-- Lexicographic comparison of two sequences of character codes. -/
def lex_lt : List Nat → List Nat → Bool
  | _, [] => false
  | [], _ :: _ => true
  | a :: as, b :: bs => if a < b then true else if b < a then false else lex_lt as bs

/-- The order `operator<` of `std::string`, the key order of the map. -/
def key_lt (a b : String) : Bool :=
  lex_lt (a.toList.map Char.toNat) (b.toList.map Char.toNat)

/-- Insertion of a key at its place in the key order. -/
def insertSorted {α : Type} (k : String) (v : α) : HostMap α → HostMap α
  | [] => [(k, v)]
  | (k', v') :: rest =>
    if key_lt k k' then (k, v) :: (k', v') :: rest else (k', v') :: insertSorted k v rest

/-- The call `emplace(k, v)`: nothing is changed when the key is present. -/
def emplace {α : Type} (m : HostMap α) (k : String) (v : α) : HostMap α :=
  match find m k with
  | some _ => m
  | none => insertSorted k v m

/-- The call `erase(k)`. -/
def erase {α : Type} (m : HostMap α) (k : String) : HostMap α :=
  m.filter (fun e => decide (e.1 ≠ k))

/-- A write through the reference returned by `at(k)`. -/
def assign {α : Type} (m : HostMap α) (k : String) (v : α) : HostMap α :=
  m.map (fun e => if e.1 = k then (e.1, v) else e)

/-- The keys in iteration order. -/
def keys {α : Type} (m : HostMap α) : List String := m.map Prod.fst

end HostMap

/-! ## Data model -/

/-- The enumeration `PeriodicTask`, in the order of the slots built by `add_host`. -/
inductive PeriodicTask
  | GET_CCSTATUS
  | GET_CLIENT_STATE
  | GET_DISK_USAGE
  | GET_FILE_TRANSFERS
  | GET_MESSAGES
  | GET_NOTICES
  | GET_PROJECT_STATUS
  | GET_STATISTICS
  | GET_TASKS
  deriving DecidableEq, Repr

/-- The nine kinds, in the order of the array built by `add_host`. -/
def PeriodicTask.all : List PeriodicTask :=
  [.GET_CCSTATUS, .GET_CLIENT_STATE, .GET_DISK_USAGE, .GET_FILE_TRANSFERS, .GET_MESSAGES,
   .GET_NOTICES, .GET_PROJECT_STATUS, .GET_STATISTICS, .GET_TASKS]

/-- The value `std::chrono::steady_clock::time_point::min()`, in ticks. -/
def time_point_min : Int := -(2 ^ 63)

/-- Two's complement wrap-around of a 64 bit signed tick count. -/
def wrap64 (x : Int) : Int := (x + 2 ^ 63) % 2 ^ 64 - 2 ^ 63

/-- Ticks (nanoseconds) per second. -/
def ticks_per_second : Int := 1000000000

/-- The struct `PeriodicTasksSchedulerContext::Task`. -/
structure Task where
  type : PeriodicTask
  last_execution : Int
  pending : Bool
  deriving DecidableEq, Repr

/-- Modelled from the spec: the constructor `Task(PeriodicTask)` of the header
`periodic_tasks_scheduler.h`, which is not part of the sources: a slot starts with
`last_execution = −∞` and `pending = false`. -/
def Task.new (t : PeriodicTask) : Task :=
  { type := t, last_execution := time_point_min, pending := false }

/-- The struct `PeriodicTasksSchedulerContext::State`, the poll state of a host. -/
structure State where
  messages_seqno : Nat
  notices_seqno : Nat
  deriving DecidableEq, Repr

/-- Modelled from the spec: the constructor `State()` of the header
`periodic_tasks_scheduler.h`, which is not part of the sources: a zeroed poll state. -/
def State.new : State := { messages_seqno := 0, notices_seqno := 0 }

/-- Modelled from the spec: `PeriodicJob::Payload` (header `jobs.h`, not part of the
sources): the sequence number for message and notice polling, the active-only flag for
task polling. -/
structure Payload where
  seqno : Nat
  active_only : Bool
  deriving DecidableEq, Repr

/-- Modelled from the spec: a default constructed `PeriodicJob::Payload`. -/
def Payload.new : Payload := { seqno := 0, active_only := false }

/-- Modelled from the spec: a `PeriodicJob` (header `jobs.h`, not part of the sources). -/
structure PeriodicJob where
  task : PeriodicTask
  payload : Payload
  deriving DecidableEq, Repr

/-- The RPC commands wrapped by the command operations of the facade; the operation
codes, modes and preferences are plain numbers here. -/
inductive Command
  | FileTransferOpCommand (op : Nat) (master_url : String) (filename : String)
  | ProjectOpCommand (op : Nat) (master_url : String)
  | TaskOpCommand (op : Nat) (master_url : String) (task_name : String)
  | GetGlobalPreferencesCommand (mode : Nat)
  | SetGlobalPreferencesCommand (prefs : Nat) (mask : Nat)
  | ReadGlobalPreferencesOverrideCommand
  | SetRunModeCommand (mode : Nat)
  | SetGpuModeCommand (mode : Nat)
  | SetNetworkModeCommand (mode : Nat)
  deriving DecidableEq, Repr

/-- A job of a host worker: a periodic job or a `PromisedResultJob` around a command. -/
inductive Job
  | periodic (j : PeriodicJob)
  | promised (c : Command)
  deriving DecidableEq, Repr

/-- Modelled from the spec: the host worker `HostController` (`host_controller.cc` is
not part of the sources): its FIFO job queue. The job at the head of the queue is the one
in execution; a job leaves the queue when it completes. -/
structure HostController where
  queue : List Job
  deriving DecidableEq, Repr

/-- Modelled from the spec: `new HostController(host)`, a worker with an empty queue. -/
def HostController.new : HostController := { queue := [] }

/-- Modelled from the spec: `HostController::schedule(job)` and
`HostController::schedule_now(job)` both enqueue the job for FIFO execution. -/
def HostController.schedule (w : HostController) (job : Job) : HostController :=
  { queue := w.queue ++ [job] }

/-- The `Configuration::Intervals`, a `std::array<int, 9>` indexed by the task kind. -/
structure Intervals where
  get_ccstatus : Int
  get_client_state : Int
  get_disk_usage : Int
  get_file_transfers : Int
  get_messages : Int
  get_notices : Int
  get_project_status : Int
  get_statistics : Int
  get_tasks : Int
  deriving DecidableEq, Repr

/-- The access `intervals.at(static_cast<size_t>(task))`. -/
def Intervals.at (i : Intervals) : PeriodicTask → Int
  | .GET_CCSTATUS => i.get_ccstatus
  | .GET_CLIENT_STATE => i.get_client_state
  | .GET_DISK_USAGE => i.get_disk_usage
  | .GET_FILE_TRANSFERS => i.get_file_transfers
  | .GET_MESSAGES => i.get_messages
  | .GET_NOTICES => i.get_notices
  | .GET_PROJECT_STATUS => i.get_project_status
  | .GET_STATISTICS => i.get_statistics
  | .GET_TASKS => i.get_tasks

/-- Modelled from the spec: the default interval table of `Configuration`. -/
def Intervals.default : Intervals :=
  { get_ccstatus := 1, get_client_state := 1, get_disk_usage := 60, get_file_transfers := 1,
    get_messages := 1, get_notices := 60, get_project_status := 1, get_statistics := 60,
    get_tasks := 1 }

/-- Modelled from the spec: the per-host flag row of `Configuration`. -/
structure HostConfiguration where
  schedule_periodic_tasks : Bool
  active_only_tasks : Bool
  deriving DecidableEq, Repr

/-- Modelled from the spec: the class `Configuration` (`configuration.cc` is not part of
the sources): the interval table and one flag row per host. -/
structure Configuration where
  intervals_ : Intervals
  host_configurations_ : HostMap HostConfiguration
  deriving DecidableEq, Repr

/-- Modelled from the spec: the class `HandlerRegistry` (`handler_registry.cc` is not
part of the sources): the registered `HostHandler` observers, a set. -/
structure HandlerRegistry where
  host_handlers_ : List Nat
  deriving DecidableEq, Repr

/-- The exceptions raised by the controller and by the containers it uses. -/
inductive Exn
  | invalid_argument (msg : String)
  | ShutdownException
  | UnknownHostException (host : String)
  | out_of_range
  | dangling_reference
  deriving DecidableEq, Repr

/-- The state of `PeriodicTasksSchedulerContext`. The table `host_controllers_` holds
references to the workers owned by the facade; a reference is the key of the worker in
the map of the facade. -/
structure PeriodicTasksSchedulerContext where
  tasks_ : HostMap (List Task)
  host_controllers_ : HostMap String
  states_ : HostMap State
  shutdown_triggered_ : Bool
  deriving DecidableEq, Repr

/-- The state of `Controller::Impl`. -/
structure Controller where
  shutdown_ : Bool
  handler_registry_ : HandlerRegistry
  configuration_ : Configuration
  periodic_tasks_scheduler_context_ : PeriodicTasksSchedulerContext
  periodic_tasks_scheduler_thread_joinable_ : Bool
  host_controllers_ : HostMap HostController
  deriving DecidableEq, Repr

/-- The mutating calls and callbacks made on the collaborators of the facade and of the
scheduler. -/
inductive Call
  | config_add_host (host : String)
  | config_remove_host (host : String)
  | config_schedule_periodic_tasks (host : String) (value : Bool)
  | config_active_only_tasks (host : String) (value : Bool)
  | config_interval (task : PeriodicTask) (value : Int)
  | scheduler_add_host (host : String)
  | scheduler_remove_host (host : String)
  | scheduler_reschedule_now (host : String) (task : PeriodicTask)
  | scheduler_trigger_shutdown
  | scheduler_thread_join
  | hosts_emplace (host : String)
  | hosts_erase (host : String)
  | worker_connect_thread (host : String) (url : String) (port : Nat)
  | worker_authorize (host : String) (password : String)
  | worker_schedule_now (host : String) (job : Job)
  | worker_schedule (host : String) (job : Job)
  | worker_shutdown (host : String)
  | remove_thread (host : String)
  | on_host_added (handler : Nat) (host : String)
  | on_host_removed (handler : Nat) (host : String)
  deriving DecidableEq, Repr

/-- The state of a returned `std::future`. -/
inductive Future
  | pending
  | failed (e : Exn)
  deriving DecidableEq, Repr

/-- How a call ends. -/
inductive Outcome
  | returned
  | returned_future (f : Future)
  | raised (e : Exn)
  deriving DecidableEq, Repr

/-- The result of a call on a state of type `σ`. -/
structure Ran (σ : Type) where
  out : Outcome
  st : σ
  calls : List Call

/-- A call that raises `e` in state `s`, having made no call on a collaborator. -/
def Ran.raise {σ : Type} (e : Exn) (s : σ) : Ran σ := { out := .raised e, st := s, calls := [] }

/-- A call that returns in state `s` after the calls `cs`. -/
def Ran.ret {σ : Type} (s : σ) (cs : List Call) : Ran σ := { out := .returned, st := s, calls := cs }

/-- Sequencing of two calls: the second call is made when the first did not raise. -/
def Ran.bind {σ : Type} (r : Ran σ) (f : σ → Ran σ) : Ran σ :=
  match r.out with
  | .raised _ => r
  | _ => { out := (f r.st).out, st := (f r.st).st, calls := r.calls ++ (f r.st).calls }

/-- The end of a command operation: `return future`, the future being unresolved. -/
def Ran.with_future {σ : Type} (r : Ran σ) : Ran σ :=
  match r.out with
  | .raised _ => r
  | _ => { r with out := .returned_future .pending }

/-! ## Configuration and handler registry (modelled from the spec) -/

namespace Configuration

/-- Modelled from the spec: `Configuration::add_host` (not part of the sources) creates
the flag row of a host, `schedule_enabled = false` and `active_only_tasks = false`. -/
def add_host (cfg : Configuration) (host : String) : Configuration :=
  { cfg with host_configurations_ :=
      (HostMap.emplace cfg.host_configurations_ host
        { schedule_periodic_tasks := false, active_only_tasks := false }) }

/-- Modelled from the spec: `Configuration::remove_host` (not part of the sources)
destroys the flag row of a host. -/
def remove_host (cfg : Configuration) (host : String) : Configuration :=
  { cfg with host_configurations_ := HostMap.erase cfg.host_configurations_ host }

/-- Modelled from the spec: the getter `Configuration::schedule_periodic_tasks(host)`
(not part of the sources); a host without a row is an `out_of_range` failure. -/
def schedule_periodic_tasks (cfg : Configuration) (host : String) : Except Exn Bool :=
  match HostMap.find cfg.host_configurations_ host with
  | none => .error .out_of_range
  | some row => .ok row.schedule_periodic_tasks

/-- Modelled from the spec: the getter `Configuration::active_only_tasks(host)` (not part
of the sources); a host without a row is an `out_of_range` failure. -/
def active_only_tasks (cfg : Configuration) (host : String) : Except Exn Bool :=
  match HostMap.find cfg.host_configurations_ host with
  | none => .error .out_of_range
  | some row => .ok row.active_only_tasks

/-- Modelled from the spec: the setter `Configuration::schedule_periodic_tasks(host, value)`
(not part of the sources); a host without a row is an `out_of_range` failure. -/
def set_schedule_periodic_tasks (cfg : Configuration) (host : String) (value : Bool) :
    Ran Configuration :=
  match HostMap.find cfg.host_configurations_ host with
  | none => Ran.raise .out_of_range cfg
  | some row =>
    Ran.ret { cfg with host_configurations_ :=
                (HostMap.assign cfg.host_configurations_ host
                  { row with schedule_periodic_tasks := value }) }
      [.config_schedule_periodic_tasks host value]

/-- Modelled from the spec: the setter `Configuration::active_only_tasks(host, value)`
(not part of the sources); a host without a row is an `out_of_range` failure. -/
def set_active_only_tasks (cfg : Configuration) (host : String) (value : Bool) :
    Ran Configuration :=
  match HostMap.find cfg.host_configurations_ host with
  | none => Ran.raise .out_of_range cfg
  | some row =>
    Ran.ret { cfg with host_configurations_ :=
                (HostMap.assign cfg.host_configurations_ host
                  { row with active_only_tasks := value }) }
      [.config_active_only_tasks host value]

/-- Modelled from the spec: the setter `Configuration::interval(task, value)` (not part of
the sources). -/
def set_interval (cfg : Configuration) (task : PeriodicTask) (value : Int) : Configuration :=
  { cfg with intervals_ :=
      match task with
      | .GET_CCSTATUS => { cfg.intervals_ with get_ccstatus := value }
      | .GET_CLIENT_STATE => { cfg.intervals_ with get_client_state := value }
      | .GET_DISK_USAGE => { cfg.intervals_ with get_disk_usage := value }
      | .GET_FILE_TRANSFERS => { cfg.intervals_ with get_file_transfers := value }
      | .GET_MESSAGES => { cfg.intervals_ with get_messages := value }
      | .GET_NOTICES => { cfg.intervals_ with get_notices := value }
      | .GET_PROJECT_STATUS => { cfg.intervals_ with get_project_status := value }
      | .GET_STATISTICS => { cfg.intervals_ with get_statistics := value }
      | .GET_TASKS => { cfg.intervals_ with get_tasks := value } }

end Configuration

namespace HandlerRegistry

/-- Modelled from the spec: `register_handler(HostHandler *)` (not part of the sources);
registering an observer twice is a no-op. -/
def register_handler (r : HandlerRegistry) (handler : Nat) : HandlerRegistry :=
  if handler ∈ r.host_handlers_ then r else { host_handlers_ := r.host_handlers_ ++ [handler] }

/-- Modelled from the spec: `deregister_handler(HostHandler *)` (not part of the sources);
deregistering an unknown observer is a no-op. -/
def deregister_handler (r : HandlerRegistry) (handler : Nat) : HandlerRegistry :=
  { host_handlers_ := r.host_handlers_.filter (fun g => decide (g ≠ handler)) }

/-- Modelled from the spec: `for_host_handler(fn)` (not part of the sources) invokes `fn`
once for each registered host handler. -/
def for_host_handler (r : HandlerRegistry) (fn : Nat → Call) : List Call :=
  r.host_handlers_.map fn

end HandlerRegistry

/-! ## The scheduler context: `PeriodicTasksSchedulerContext` -/

namespace PeriodicTasksSchedulerContext

/-- The member `add_host(host, controller)`: three `emplace` calls. -/
def add_host (ctx : PeriodicTasksSchedulerContext) (host : String) (controller : String) :
    PeriodicTasksSchedulerContext :=
  { ctx with
    tasks_ := HostMap.emplace ctx.tasks_ host
      [Task.new .GET_CCSTATUS, Task.new .GET_CLIENT_STATE, Task.new .GET_DISK_USAGE,
       Task.new .GET_FILE_TRANSFERS, Task.new .GET_MESSAGES, Task.new .GET_NOTICES,
       Task.new .GET_PROJECT_STATUS, Task.new .GET_STATISTICS, Task.new .GET_TASKS]
    host_controllers_ := HostMap.emplace ctx.host_controllers_ host controller
    states_ := HostMap.emplace ctx.states_ host State.new }

/-- The member `remove_host(host)`: three `erase` calls. -/
def remove_host (ctx : PeriodicTasksSchedulerContext) (host : String) :
    PeriodicTasksSchedulerContext :=
  { ctx with
    tasks_ := HostMap.erase ctx.tasks_ host
    host_controllers_ := HostMap.erase ctx.host_controllers_ host
    states_ := HostMap.erase ctx.states_ host }

/-- The loop of `reschedule_now` over the slots of one host: the first slot of the kind
gets `last_execution = time_point::min()`, then `break`. -/
def reschedule_tasks (to_reschedule : PeriodicTask) : List Task → List Task
  | [] => []
  | task :: rest =>
    if task.type = to_reschedule then
      { task with last_execution := time_point_min } :: rest
    else task :: reschedule_tasks to_reschedule rest

/-- The member `reschedule_now(host, to_reschedule)`; `tasks_.at(host)` raises
`std::out_of_range` for a host without slots. -/
def reschedule_now (ctx : PeriodicTasksSchedulerContext) (host : String)
    (to_reschedule : PeriodicTask) : Ran PeriodicTasksSchedulerContext :=
  match HostMap.find ctx.tasks_ host with
  | none => Ran.raise .out_of_range ctx
  | some tasks =>
    Ran.ret { ctx with tasks_ := HostMap.assign ctx.tasks_ host (reschedule_tasks to_reschedule tasks) }
      [.scheduler_reschedule_now host to_reschedule]

/-- The member `trigger_shutdown()`. -/
def trigger_shutdown (ctx : PeriodicTasksSchedulerContext) : PeriodicTasksSchedulerContext :=
  { ctx with shutdown_triggered_ := true }

end PeriodicTasksSchedulerContext

/-! ## The scheduler: `PeriodicTasksScheduler` -/

/-- The result of a part of a scheduler pass: the exception raised, if any, the slots as
left by the part, the state of the rest of the system and the calls made. -/
structure Swept (α : Type) where
  exn : Option Exn
  val : α
  st : Controller
  calls : List Call

/-- The locals of the thread function `PeriodicTasksScheduler::operator()`. -/
structure SchedulerLocals where
  cache_counter : Nat
  intervals : Intervals
  deriving DecidableEq, Repr

namespace PeriodicTasksScheduler

/-- Whether `std::find_if` finds a slot of the kind (`task != tasks.end()`). -/
def has_task (kind : PeriodicTask) (tasks : List Task) : Bool :=
  tasks.any (fun t => decide (t.type = kind))

/-- The writes of `handle_post_execution` through the iterator returned by
`std::find_if`: the first slot of the kind gets `last_execution = now` and
`pending = false`. -/
def complete_tasks (kind : PeriodicTask) (now : Int) : List Task → List Task
  | [] => []
  | task :: rest =>
    if task.type = kind then
      { task with last_execution := now, pending := false } :: rest
    else task :: complete_tasks kind now rest

/-- The member `handle_post_execution(host, job)` at the time `now` read from the steady
clock; `tasks_.at(host)` and `states_.at(host)` raise `std::out_of_range` for a host
without entry. -/
def handle_post_execution (ctx : PeriodicTasksSchedulerContext) (host : String)
    (job : PeriodicJob) (now : Int) : Ran PeriodicTasksSchedulerContext :=
  match HostMap.find ctx.tasks_ host with
  | none => Ran.raise .out_of_range ctx
  | some tasks =>
    if has_task job.task tasks then
      let ctx1 := { ctx with tasks_ := HostMap.assign ctx.tasks_ host (complete_tasks job.task now tasks) }
      if job.task = .GET_MESSAGES then
        match HostMap.find ctx1.states_ host with
        | none => Ran.raise .out_of_range ctx1
        | some s =>
          Ran.ret { ctx1 with states_ :=
                      HostMap.assign ctx1.states_ host { s with messages_seqno := job.payload.seqno } } []
      else if job.task = .GET_NOTICES then
        match HostMap.find ctx1.states_ host with
        | none => Ran.raise .out_of_range ctx1
        | some s =>
          Ran.ret { ctx1 with states_ :=
                      HostMap.assign ctx1.states_ host { s with notices_seqno := job.payload.seqno } } []
      else Ran.ret ctx1 []
    else Ran.ret ctx []

/-- The member `should_be_scheduled_(task, intervals, now)`:
`now >= task.last_execution + std::chrono::seconds(intervals.at(task.type))`, the sum in
64 bit ticks. -/
def should_be_scheduled_ (task : Task) (intervals : Intervals) (now : Int) : Bool :=
  decide (now ≥ wrap64 (task.last_execution + wrap64 (intervals.at task.type * ticks_per_second)))

/-- The payload built by `schedule_` for a slot of kind `type` of `host`. -/
def payload_ (c : Controller) (host : String) (type : PeriodicTask) : Except Exn Payload :=
  if type = .GET_MESSAGES then
    match HostMap.find c.periodic_tasks_scheduler_context_.states_ host with
    | none => .error .out_of_range
    | some s => .ok { Payload.new with seqno := s.messages_seqno }
  else if type = .GET_NOTICES then
    match HostMap.find c.periodic_tasks_scheduler_context_.states_ host with
    | none => .error .out_of_range
    | some s => .ok { Payload.new with seqno := s.notices_seqno }
  else if type = .GET_TASKS then
    match c.configuration_.active_only_tasks host with
    | .error e => .error e
    | .ok b => .ok { Payload.new with active_only := b }
  else .ok Payload.new

/-- The member `schedule_(host, task)`: the slot is marked pending, the job is built and
handed to the worker the scheduler holds a reference to. A reference to a worker that the
facade no longer owns is reported as `dangling_reference`. -/
def schedule_ (c : Controller) (host : String) (task : Task) : Swept Task :=
  match payload_ c host task.type with
  | .error e => { exn := some e, val := { task with pending := true }, st := c, calls := [] }
  | .ok payload =>
    match HostMap.find c.periodic_tasks_scheduler_context_.host_controllers_ host with
    | none => { exn := some .out_of_range, val := { task with pending := true }, st := c, calls := [] }
    | some ref =>
      match HostMap.find c.host_controllers_ ref with
      | none =>
        { exn := some .dangling_reference, val := { task with pending := true }, st := c, calls := [] }
      | some w =>
        { exn := none
          val := { task with pending := true }
          st := { c with host_controllers_ :=
                    (HostMap.assign c.host_controllers_ ref
                      (w.schedule (.periodic { task := task.type, payload := payload }))) }
          calls := [.worker_schedule host (.periodic { task := task.type, payload := payload })] }

/-- The inner loop of a pass, over the slots of one host. -/
def schedule_tasks (intervals : Intervals) (now : Int) (host : String) :
    List Task → Controller → Swept (List Task)
  | [], c => { exn := none, val := [], st := c, calls := [] }
  | task :: rest, c =>
    if !task.pending && should_be_scheduled_ task intervals now then
      match (schedule_ c host task).exn with
      | some e =>
        { exn := some e, val := (schedule_ c host task).val :: rest,
          st := (schedule_ c host task).st, calls := (schedule_ c host task).calls }
      | none =>
        { exn := (schedule_tasks intervals now host rest (schedule_ c host task).st).exn
          val := (schedule_ c host task).val ::
            (schedule_tasks intervals now host rest (schedule_ c host task).st).val
          st := (schedule_tasks intervals now host rest (schedule_ c host task).st).st
          calls := (schedule_ c host task).calls ++
            (schedule_tasks intervals now host rest (schedule_ c host task).st).calls }
    else
      { exn := (schedule_tasks intervals now host rest c).exn
        val := task :: (schedule_tasks intervals now host rest c).val
        st := (schedule_tasks intervals now host rest c).st
        calls := (schedule_tasks intervals now host rest c).calls }

/-- The outer loop of a pass, over the hosts of `tasks_`; a host whose
`schedule_periodic_tasks` flag is false is skipped. -/
def schedule_hosts (intervals : Intervals) (now : Int) :
    HostMap (List Task) → Controller → Swept (HostMap (List Task))
  | [], c => { exn := none, val := [], st := c, calls := [] }
  | (host, tasks) :: rest, c =>
    match c.configuration_.schedule_periodic_tasks host with
    | .error e => { exn := some e, val := (host, tasks) :: rest, st := c, calls := [] }
    | .ok false =>
      { exn := (schedule_hosts intervals now rest c).exn
        val := (host, tasks) :: (schedule_hosts intervals now rest c).val
        st := (schedule_hosts intervals now rest c).st
        calls := (schedule_hosts intervals now rest c).calls }
    | .ok true =>
      match (schedule_tasks intervals now host tasks c).exn with
      | some e =>
        { exn := some e, val := (host, (schedule_tasks intervals now host tasks c).val) :: rest,
          st := (schedule_tasks intervals now host tasks c).st,
          calls := (schedule_tasks intervals now host tasks c).calls }
      | none =>
        { exn := (schedule_hosts intervals now rest (schedule_tasks intervals now host tasks c).st).exn
          val := (host, (schedule_tasks intervals now host tasks c).val) ::
            (schedule_hosts intervals now rest (schedule_tasks intervals now host tasks c).st).val
          st := (schedule_hosts intervals now rest (schedule_tasks intervals now host tasks c).st).st
          calls := (schedule_tasks intervals now host tasks c).calls ++
            (schedule_hosts intervals now rest (schedule_tasks intervals now host tasks c).st).calls }

/-- One scheduler pass at time `now` with the cached `intervals`: the two nested loops of
`operator()`, the slots being written back to `tasks_`. -/
def pass (intervals : Intervals) (now : Int) (c : Controller) : Ran Controller :=
  { out := match (schedule_hosts intervals now c.periodic_tasks_scheduler_context_.tasks_ c).exn with
      | none => .returned
      | some e => .raised e
    st := { (schedule_hosts intervals now c.periodic_tasks_scheduler_context_.tasks_ c).st with
      periodic_tasks_scheduler_context_ :=
        { c.periodic_tasks_scheduler_context_ with
          tasks_ := (schedule_hosts intervals now c.periodic_tasks_scheduler_context_.tasks_ c).val } }
    calls := (schedule_hosts intervals now c.periodic_tasks_scheduler_context_.tasks_ c).calls }

/-- The interval cache of an iteration of `operator()`: refreshed when the counter is 0. -/
def refresh (loc : SchedulerLocals) (c : Controller) : SchedulerLocals :=
  { cache_counter := (loc.cache_counter + 1) % 5
    intervals := if loc.cache_counter = 0 then c.configuration_.intervals_ else loc.intervals }

/-- One iteration of the loop of `operator()` at time `now`; nothing is done once the
shutdown has been triggered (the loop is left). -/
def iteration (loc : SchedulerLocals) (now : Int) (c : Controller) : Ran Controller :=
  if c.periodic_tasks_scheduler_context_.shutdown_triggered_ then Ran.ret c []
  else pass (refresh loc c).intervals now c

/-- The loop of `operator()` run for the readings `nows` of the steady clock, one iteration
per reading; an iteration that raises ends the thread function. -/
def run : SchedulerLocals → List Int → Controller → Controller
  | _, [], c => c
  | loc, now :: rest, c =>
    match (iteration loc now c).out with
    | .raised _ => (iteration loc now c).st
    | _ => run (refresh loc c) rest (iteration loc now c).st

end PeriodicTasksScheduler

/-! ## The facade: `Controller::Impl` -/

/-- The function `check_not_empty__(str, msg)` of the anonymous namespace. -/
def check_not_empty__ {σ : Type} (str : String) (msg : String) (s : σ) : Ran σ :=
  if str = "" then Ran.raise (.invalid_argument msg) s else Ran.ret s []

/-- The function `check_not_empty_host_name__(host)` of the anonymous namespace. -/
def check_not_empty_host_name__ {σ : Type} (host : String) (s : σ) : Ran σ :=
  check_not_empty__ host "Missing host name" s

namespace Controller

/-- The constructor `Impl()`: no host, no handler, the scheduler thread started. -/
def init : Controller :=
  { shutdown_ := false
    handler_registry_ := { host_handlers_ := [] }
    configuration_ := { intervals_ := Intervals.default, host_configurations_ := [] }
    periodic_tasks_scheduler_context_ :=
      { tasks_ := [], host_controllers_ := [], states_ := [], shutdown_triggered_ := false }
    periodic_tasks_scheduler_thread_joinable_ := true
    host_controllers_ := [] }

/-- A call on the member `periodic_tasks_scheduler_context_`. -/
def on_scheduler (c : Controller) (r : Ran PeriodicTasksSchedulerContext) : Ran Controller :=
  { out := r.out, st := { c with periodic_tasks_scheduler_context_ := r.st }, calls := r.calls }

/-- A call on the member `configuration_`. -/
def on_configuration (c : Controller) (r : Ran Configuration) : Ran Controller :=
  { out := r.out, st := { c with configuration_ := r.st }, calls := r.calls }

/-- The member `has_host_(name)`. -/
def has_host_ (c : Controller) (name : String) : Bool :=
  (HostMap.find c.host_controllers_ name).isSome

/-- The member `verify_not_shutdown_()`. -/
def verify_not_shutdown_ (c : Controller) : Ran Controller :=
  if c.shutdown_ then Ran.raise .ShutdownException c else Ran.ret c []

/-- The member `verify_known_host_(host, func)`. -/
def verify_known_host_ (c : Controller) (host : String) : Ran Controller :=
  if !c.has_host_ host then Ran.raise (.UnknownHostException host) c else Ran.ret c []

/-- The member `schedule_now_(host, job, func)`: on a shut down controller or an unknown
host the job is deleted and the exception is thrown on to the caller. -/
def schedule_now_ (c : Controller) (host : String) (job : Job) : Ran Controller :=
  if c.shutdown_ then Ran.raise .ShutdownException c
  else
    match HostMap.find c.host_controllers_ host with
    | none => Ran.raise (.UnknownHostException host) c
    | some w =>
      Ran.ret { c with host_controllers_ := HostMap.assign c.host_controllers_ host (w.schedule job) }
        [.worker_schedule_now host job]

/-- The member `remove_host_(host)`; `host_controllers_.at(host)` raises
`std::out_of_range` for a host without record. -/
def remove_host_ (c : Controller) (host : String) : Ran Controller :=
  (Ran.ret { c with periodic_tasks_scheduler_context_ :=
               c.periodic_tasks_scheduler_context_.remove_host host }
     [.scheduler_remove_host host]).bind fun c =>
  (match HostMap.find c.host_controllers_ host with
   | none => Ran.raise .out_of_range c
   | some _ => Ran.ret c [.worker_shutdown host]).bind fun c =>
  (Ran.ret { c with host_controllers_ := HostMap.erase c.host_controllers_ host }
     [.hosts_erase host]).bind fun c =>
  (Ran.ret c (c.handler_registry_.for_host_handler fun g => .on_host_removed g host)).bind fun c =>
  Ran.ret { c with configuration_ := c.configuration_.remove_host host } [.config_remove_host host]

/-- The member `async_remove_host_(host)`, run by the thread of `async_remove_host`. -/
def async_remove_host_ (c : Controller) (host : String) : Ran Controller :=
  c.verify_not_shutdown_.bind fun c =>
  c.remove_host_ host

/-- The loop `while (!host_controllers_.empty()) remove_host_(host_controllers_.cbegin()->first)`
of `shutdown`, run for at most `fuel` rounds; `none` when the fuel does not suffice. -/
def remove_all_ : Nat → Controller → Option (Ran Controller)
  | 0, c =>
    match c.host_controllers_ with
    | [] => some (Ran.ret c [])
    | _ :: _ => none
  | fuel + 1, c =>
    match c.host_controllers_ with
    | [] => some (Ran.ret c [])
    | (host, _) :: _ =>
      match (c.remove_host_ host).out with
      | .raised _ => some (c.remove_host_ host)
      | _ =>
        (remove_all_ fuel (c.remove_host_ host).st).map fun r =>
          { r with calls := (c.remove_host_ host).calls ++ r.calls }

/-- The statements of `shutdown` before its loop: the flag, the trigger of the scheduler
shutdown and the join of the scheduler thread. -/
def shutdown_begin_ (c : Controller) : Ran Controller :=
  (Ran.ret { c with shutdown_ := true } []).bind fun c =>
  (Ran.ret { c with periodic_tasks_scheduler_context_ :=
               c.periodic_tasks_scheduler_context_.trigger_shutdown }
     [.scheduler_trigger_shutdown]).bind fun c =>
  if c.periodic_tasks_scheduler_thread_joinable_ then
    Ran.ret { c with periodic_tasks_scheduler_thread_joinable_ := false } [.scheduler_thread_join]
  else Ran.ret c []

/-- The member `shutdown()`, its loop run for at most `fuel` rounds. -/
def shutdown (fuel : Nat) (c : Controller) : Option (Ran Controller) :=
  (remove_all_ fuel c.shutdown_begin_.st).map fun r =>
    { r with calls := c.shutdown_begin_.calls ++ r.calls }

/-- The member `register_handler(HostHandler *)`. -/
def register_handler (c : Controller) (handler : Nat) : Ran Controller :=
  Ran.ret { c with handler_registry_ := c.handler_registry_.register_handler handler } []

/-- The member `deregister_handler(HostHandler *)`. -/
def deregister_handler (c : Controller) (handler : Nat) : Ran Controller :=
  Ran.ret { c with handler_registry_ := c.handler_registry_.deregister_handler handler } []

/-- The member `add_host(host, url, port)`. The connect runs on a detached thread. -/
def add_host (c : Controller) (host : String) (url : String) (port : Nat) : Ran Controller :=
  (check_not_empty_host_name__ host c).bind fun c =>
  (check_not_empty__ url "Missing url to host" c).bind fun c =>
  c.verify_not_shutdown_.bind fun c =>
  (if c.has_host_ host then
     Ran.raise (.invalid_argument ("Host \"" ++ host ++ "\" already registered.")) c
   else Ran.ret c []).bind fun c =>
  (Ran.ret { c with configuration_ := c.configuration_.add_host host }
     [.config_add_host host]).bind fun c =>
  (Ran.ret { c with host_controllers_ := HostMap.emplace c.host_controllers_ host HostController.new }
     [.hosts_emplace host]).bind fun c =>
  (match HostMap.find c.host_controllers_ host with
   | none => Ran.raise .out_of_range c
   | some _ =>
     Ran.ret { c with periodic_tasks_scheduler_context_ :=
                 c.periodic_tasks_scheduler_context_.add_host host host }
       [.scheduler_add_host host]).bind fun c =>
  (Ran.ret c (c.handler_registry_.for_host_handler fun g => .on_host_added g host)).bind fun c =>
  Ran.ret c [.worker_connect_thread host url port]

/-- The member `authorize_host(host, password)`. -/
def authorize_host (c : Controller) (host : String) (password : String) : Ran Controller :=
  (check_not_empty_host_name__ host c).bind fun c =>
  (check_not_empty__ password "Missing password" c).bind fun c =>
  c.verify_not_shutdown_.bind fun c =>
  (c.verify_known_host_ host).bind fun c =>
  Ran.ret c [.worker_authorize host password]

/-- The member `remove_host(host)`. -/
def remove_host (c : Controller) (host : String) : Ran Controller :=
  (check_not_empty_host_name__ host c).bind fun c =>
  c.verify_not_shutdown_.bind fun c =>
  (c.verify_known_host_ host).bind fun c =>
  c.remove_host_ host

/-- The member `async_remove_host(host)`: the removal runs on a detached thread. -/
def async_remove_host (c : Controller) (host : String) : Ran Controller :=
  (check_not_empty_host_name__ host c).bind fun c =>
  Ran.ret c [.remove_thread host]

/-- The member `periodic_task_interval(task, interval)`. -/
def periodic_task_interval (c : Controller) (task : PeriodicTask) (interval : Int) :
    Ran Controller :=
  Ran.ret { c with configuration_ := c.configuration_.set_interval task interval }
    [.config_interval task interval]

/-- The member `schedule_periodic_tasks(host, value)`. -/
def schedule_periodic_tasks (c : Controller) (host : String) (value : Bool) : Ran Controller :=
  (check_not_empty_host_name__ host c).bind fun c =>
  c.verify_not_shutdown_.bind fun c =>
  (c.verify_known_host_ host).bind fun c =>
  c.on_configuration (c.configuration_.set_schedule_periodic_tasks host value)

/-- The member `reschedule_now(host, task)`. -/
def reschedule_now (c : Controller) (host : String) (task : PeriodicTask) : Ran Controller :=
  (check_not_empty_host_name__ host c).bind fun c =>
  c.verify_not_shutdown_.bind fun c =>
  (c.verify_known_host_ host).bind fun c =>
  c.on_scheduler (c.periodic_tasks_scheduler_context_.reschedule_now host task)

/-- The member `active_only_tasks(host, value)`. -/
def active_only_tasks (c : Controller) (host : String) (value : Bool) : Ran Controller :=
  (check_not_empty_host_name__ host c).bind fun c =>
  c.verify_not_shutdown_.bind fun c =>
  (c.verify_known_host_ host).bind fun c =>
  (c.on_configuration (c.configuration_.set_active_only_tasks host value)).bind fun c =>
  c.on_scheduler (c.periodic_tasks_scheduler_context_.reschedule_now host .GET_TASKS)

/-- The member `file_transfer_op(host, op, master_url, filename)`. -/
def file_transfer_op (c : Controller) (host : String) (op : Nat) (master_url : String)
    (filename : String) : Ran Controller :=
  (check_not_empty_host_name__ host c).bind fun c =>
  (check_not_empty__ master_url "Missing master url" c).bind fun c =>
  (check_not_empty__ filename "Missing filename" c).bind fun c =>
  ((c.schedule_now_ host (.promised (.FileTransferOpCommand op master_url filename))).bind fun c =>
    c.on_scheduler
      (c.periodic_tasks_scheduler_context_.reschedule_now host .GET_FILE_TRANSFERS)).with_future

/-- The member `project_op(host, op, master_url)`. -/
def project_op (c : Controller) (host : String) (op : Nat) (master_url : String) :
    Ran Controller :=
  (check_not_empty_host_name__ host c).bind fun c =>
  (check_not_empty__ master_url "Missing master url" c).bind fun c =>
  ((c.schedule_now_ host (.promised (.ProjectOpCommand op master_url))).bind fun c =>
    c.on_scheduler
      (c.periodic_tasks_scheduler_context_.reschedule_now host .GET_PROJECT_STATUS)).with_future

/-- The member `task_op(host, op, master_url, task_name)`. -/
def task_op (c : Controller) (host : String) (op : Nat) (master_url : String)
    (task_name : String) : Ran Controller :=
  (check_not_empty_host_name__ host c).bind fun c =>
  (check_not_empty__ master_url "Missing master url" c).bind fun c =>
  (check_not_empty__ task_name "Missing task name" c).bind fun c =>
  ((c.schedule_now_ host (.promised (.TaskOpCommand op master_url task_name))).bind fun c =>
    c.on_scheduler
      (c.periodic_tasks_scheduler_context_.reschedule_now host .GET_TASKS)).with_future

/-- The member `load_global_preferences(host, mode)`. -/
def load_global_preferences (c : Controller) (host : String) (mode : Nat) : Ran Controller :=
  (check_not_empty_host_name__ host c).bind fun c =>
  (c.schedule_now_ host (.promised (.GetGlobalPreferencesCommand mode))).with_future

/-- The member `save_global_preferences(host, prefs, mask)`. -/
def save_global_preferences (c : Controller) (host : String) (prefs : Nat) (mask : Nat) :
    Ran Controller :=
  (check_not_empty_host_name__ host c).bind fun c =>
  (c.schedule_now_ host (.promised (.SetGlobalPreferencesCommand prefs mask))).with_future

/-- The member `read_global_prefs_override(host)`. -/
def read_global_prefs_override (c : Controller) (host : String) : Ran Controller :=
  (check_not_empty_host_name__ host c).bind fun c =>
  (c.schedule_now_ host (.promised .ReadGlobalPreferencesOverrideCommand)).with_future

/-- The member `run_mode(host, mode)`. -/
def run_mode (c : Controller) (host : String) (mode : Nat) : Ran Controller :=
  (check_not_empty_host_name__ host c).bind fun c =>
  (c.schedule_now_ host (.promised (.SetRunModeCommand mode))).with_future

/-- The member `gpu_mode(host, mode)`. -/
def gpu_mode (c : Controller) (host : String) (mode : Nat) : Ran Controller :=
  (check_not_empty_host_name__ host c).bind fun c =>
  (c.schedule_now_ host (.promised (.SetGpuModeCommand mode))).with_future

/-- The member `network_mode(host, mode)`. -/
def network_mode (c : Controller) (host : String) (mode : Nat) : Ran Controller :=
  (check_not_empty_host_name__ host c).bind fun c =>
  (c.schedule_now_ host (.promised (.SetNetworkModeCommand mode))).with_future

/-- Modelled from the spec: one round of the worker loop of `HostController`
(`host_controller.cc` is not part of the sources) on `host`: the job at the head of the
queue completes and leaves the queue; a periodic job, its payload now holding the
response, notifies the scheduler through `handle_post_execution` at time `now`. -/
def worker_complete (c : Controller) (host : String) (payload : Payload) (now : Int) :
    Ran Controller :=
  match HostMap.find c.host_controllers_ host with
  | none => Ran.ret c []
  | some w =>
    match w.queue with
    | [] => Ran.ret c []
    | .promised _ :: rest =>
      Ran.ret { c with host_controllers_ := HostMap.assign c.host_controllers_ host { queue := rest } } []
    | .periodic j :: rest =>
      on_scheduler
        { c with host_controllers_ := HostMap.assign c.host_controllers_ host { queue := rest } }
        (PeriodicTasksScheduler.handle_post_execution c.periodic_tasks_scheduler_context_ host
          { task := j.task, payload := payload } now)

end Controller

/-! ## Reachable states -/

/-- The states of the system reachable from a fresh controller: by the calls of the
facade, by the background removal of `async_remove_host`, by the iterations of the
scheduler loop and by the completions of jobs on the workers. A call that raises leaves
the state it had at the `throw`. -/
inductive Reachable : Controller → Prop
  | init : Reachable Controller.init
  | register_handler {c : Controller} (g : Nat) :
      Reachable c → Reachable (c.register_handler g).st
  | deregister_handler {c : Controller} (g : Nat) :
      Reachable c → Reachable (c.deregister_handler g).st
  | add_host {c : Controller} (host url : String) (port : Nat) :
      Reachable c → Reachable (c.add_host host url port).st
  | authorize_host {c : Controller} (host password : String) :
      Reachable c → Reachable (c.authorize_host host password).st
  | remove_host {c : Controller} (host : String) :
      Reachable c → Reachable (c.remove_host host).st
  | async_remove_host {c : Controller} (host : String) :
      Reachable c → Reachable (c.async_remove_host host).st
  | async_remove_host_ {c : Controller} (host : String) :
      Reachable c → Reachable (c.async_remove_host_ host).st
  | periodic_task_interval {c : Controller} (task : PeriodicTask) (interval : Int) :
      Reachable c → Reachable (c.periodic_task_interval task interval).st
  | schedule_periodic_tasks {c : Controller} (host : String) (value : Bool) :
      Reachable c → Reachable (c.schedule_periodic_tasks host value).st
  | reschedule_now {c : Controller} (host : String) (task : PeriodicTask) :
      Reachable c → Reachable (c.reschedule_now host task).st
  | active_only_tasks {c : Controller} (host : String) (value : Bool) :
      Reachable c → Reachable (c.active_only_tasks host value).st
  | file_transfer_op {c : Controller} (host : String) (op : Nat) (master_url filename : String) :
      Reachable c → Reachable (c.file_transfer_op host op master_url filename).st
  | project_op {c : Controller} (host : String) (op : Nat) (master_url : String) :
      Reachable c → Reachable (c.project_op host op master_url).st
  | task_op {c : Controller} (host : String) (op : Nat) (master_url task_name : String) :
      Reachable c → Reachable (c.task_op host op master_url task_name).st
  | load_global_preferences {c : Controller} (host : String) (mode : Nat) :
      Reachable c → Reachable (c.load_global_preferences host mode).st
  | save_global_preferences {c : Controller} (host : String) (prefs mask : Nat) :
      Reachable c → Reachable (c.save_global_preferences host prefs mask).st
  | read_global_prefs_override {c : Controller} (host : String) :
      Reachable c → Reachable (c.read_global_prefs_override host).st
  | run_mode {c : Controller} (host : String) (mode : Nat) :
      Reachable c → Reachable (c.run_mode host mode).st
  | gpu_mode {c : Controller} (host : String) (mode : Nat) :
      Reachable c → Reachable (c.gpu_mode host mode).st
  | network_mode {c : Controller} (host : String) (mode : Nat) :
      Reachable c → Reachable (c.network_mode host mode).st
  | shutdown {c : Controller} (fuel : Nat) (r : Ran Controller) :
      Reachable c → c.shutdown fuel = some r → Reachable r.st
  | iteration {c : Controller} (loc : SchedulerLocals) (now : Int) :
      Reachable c → Reachable (PeriodicTasksScheduler.iteration loc now c).st
  | worker_complete {c : Controller} (host : String) (payload : Payload) (now : Int) :
      Reachable c → Reachable (c.worker_complete host payload now).st

/-- The periodic jobs of kind `k` in a queue: the jobs of that kind queued or in flight. -/
def periodic_count (k : PeriodicTask) (q : List Job) : Nat :=
  q.countP fun job =>
    match job with
    | .periodic j => decide (j.task = k)
    | .promised _ => false

/-- The slot of kind `k` of `host` in the scheduler tables, when there is one. -/
def PeriodicTasksSchedulerContext.slot (ctx : PeriodicTasksSchedulerContext) (host : String)
    (k : PeriodicTask) : Option Task :=
  match HostMap.find ctx.tasks_ host with
  | none => none
  | some tasks => tasks.find? fun t => decide (t.type = k)

/-- The queue `q` of a worker against the slots `tasks` of its host: at most one periodic
job for a pending slot, none for a slot that is not pending. -/
def Bounded (q : List Job) (tasks : List Task) : Prop :=
  ∀ t ∈ tasks, periodic_count t.type q ≤ if t.pending = true then 1 else 0

/-- The invariant of the reachable states: the host map of the facade, the three tables
of the scheduler and the rows of the configuration hold the same hosts, a reference of
the scheduler is the key of the worker, every host has its nine slots, one per kind, the
queues are bounded by the slots, and no handler is registered twice. -/
structure Inv (c : Controller) : Prop where
  tasks_dom : ∀ h, (HostMap.find c.periodic_tasks_scheduler_context_.tasks_ h).isSome =
    (HostMap.find c.host_controllers_ h).isSome
  refs : ∀ h, HostMap.find c.periodic_tasks_scheduler_context_.host_controllers_ h =
    (HostMap.find c.host_controllers_ h).map fun _ => h
  states_dom : ∀ h, (HostMap.find c.periodic_tasks_scheduler_context_.states_ h).isSome =
    (HostMap.find c.host_controllers_ h).isSome
  config_dom : ∀ h, (HostMap.find c.configuration_.host_configurations_ h).isSome =
    (HostMap.find c.host_controllers_ h).isSome
  tasks_nodup : (HostMap.keys c.periodic_tasks_scheduler_context_.tasks_).Nodup
  kinds : ∀ h tasks, HostMap.find c.periodic_tasks_scheduler_context_.tasks_ h = some tasks →
    tasks.map Task.type = PeriodicTask.all
  bounded : ∀ h w tasks, HostMap.find c.host_controllers_ h = some w →
    HostMap.find c.periodic_tasks_scheduler_context_.tasks_ h = some tasks → Bounded w.queue tasks
  handlers_nodup : c.handler_registry_.host_handlers_.Nodup

/-! ## The scheduler as the spec words it -/

namespace Spec

/-- The nudge as the spec words it: the slot of kind `k` gets `last_execution = −∞`, every
other slot is as before. -/
def nudge (k : PeriodicTask) (t : Task) : Task :=
  if t.type = k then { t with last_execution := time_point_min } else t

/-- The post-execution update as the spec words it: the slot of kind `k` gets
`last_execution = now` and `pending = false`, every other slot is as before. -/
def complete (k : PeriodicTask) (now : Int) (t : Task) : Task :=
  if t.type = k then { t with last_execution := now, pending := false } else t

/-- The firing condition as the spec words it: `!pending` and
`now ≥ last_execution + interval(kind)`, in exact arithmetic. -/
def fires (intervals : Intervals) (now : Int) (t : Task) : Bool :=
  !t.pending && decide (now ≥ t.last_execution + intervals.at t.type * ticks_per_second)

/-- The sum `last_execution + interval(kind)` of a slot stays within the 64 bit ticks. -/
def in_range (intervals : Intervals) (t : Task) : Prop :=
  -(2 ^ 63) ≤ intervals.at t.type * ticks_per_second ∧
  intervals.at t.type * ticks_per_second < 2 ^ 63 ∧
  -(2 ^ 63) ≤ t.last_execution + intervals.at t.type * ticks_per_second ∧
  t.last_execution + intervals.at t.type * ticks_per_second < 2 ^ 63

instance in_range_decidable (intervals : Intervals) (t : Task) :
    Decidable (in_range intervals t) :=
  inferInstanceAs (Decidable
    (-(2 ^ 63) ≤ intervals.at t.type * ticks_per_second ∧
     intervals.at t.type * ticks_per_second < 2 ^ 63 ∧
     -(2 ^ 63) ≤ t.last_execution + intervals.at t.type * ticks_per_second ∧
     t.last_execution + intervals.at t.type * ticks_per_second < 2 ^ 63))

/-- The payload of a periodic job as the spec words it: `messages_seqno` for
`GET_MESSAGES`, `notices_seqno` for `GET_NOTICES`, the active-only flag for `GET_TASKS`. -/
def payload (s : State) (active_only : Bool) (k : PeriodicTask) : Payload :=
  { seqno :=
      if k = .GET_MESSAGES then s.messages_seqno
      else if k = .GET_NOTICES then s.notices_seqno else 0
    active_only := if k = .GET_TASKS then active_only else false }

/-- The slots of a host after a pass: a slot that fires is marked pending. -/
def pass_slots (fire : Task → Bool) (tasks : List Task) : List Task :=
  tasks.map fun t => if fire t then { t with pending := true } else t

/-- The jobs a pass appends to the queue of a host: one per slot that fires, in the order
of the slots. -/
def pass_jobs (fire : Task → Bool) (s : State) (active_only : Bool) (tasks : List Task) :
    List Job :=
  (tasks.filter fire).map fun t =>
    Job.periodic { task := t.type, payload := payload s active_only t.type }

/-- The slots of host `h` after a pass: swept when `schedule_enabled` is true. -/
def host_slots (fire : Task → Bool) (cfg : Configuration) (h : String) (tasks : List Task) :
    List Task :=
  match HostMap.find cfg.host_configurations_ h with
  | some row => if row.schedule_periodic_tasks then pass_slots fire tasks else tasks
  | none => tasks

/-- The jobs a pass appends to the queue of host `h`: none when `schedule_enabled` is
false. -/
def host_jobs (fire : Task → Bool) (states : HostMap State) (cfg : Configuration) (h : String)
    (tasks : List Task) : List Job :=
  match HostMap.find states h, HostMap.find cfg.host_configurations_ h with
  | some s, some row =>
    if row.schedule_periodic_tasks then pass_jobs fire s row.active_only_tasks tasks else []
  | _, _ => []

/-- The jobs a pass over the slot table `m` appends to the queue of host `h`. -/
def added_jobs (fire : Task → Bool) (states : HostMap State) (cfg : Configuration)
    (m : HostMap (List Task)) (h : String) : List Job :=
  match HostMap.find m h with
  | some ts => host_jobs fire states cfg h ts
  | none => []

end Spec

/-- The condition of the inner loop of `operator()`:
`!task.pending && should_be_scheduled_(task, intervals, now)`. -/
def PeriodicTasksScheduler.due_ (intervals : Intervals) (now : Int) (task : Task) : Bool :=
  !task.pending && PeriodicTasksScheduler.should_be_scheduled_ task intervals now

/-- Every host of the scheduler tables has a configuration row and a host record. -/
def SchedulerCovered (c : Controller) : Prop :=
  ∀ h, ((HostMap.find c.periodic_tasks_scheduler_context_.tasks_ h).isSome = true ∨
      (HostMap.find c.periodic_tasks_scheduler_context_.host_controllers_ h).isSome = true ∨
      (HostMap.find c.periodic_tasks_scheduler_context_.states_ h).isSome = true) →
    (HostMap.find c.configuration_.host_configurations_ h).isSome = true ∧
    (HostMap.find c.host_controllers_ h).isSome = true

/-- What a pass of the scheduler looks up: every host with slots has a poll state, a
reference to its worker, the worker itself and a configuration row. -/
def PassReady (c : Controller) : Prop :=
  (HostMap.keys c.periodic_tasks_scheduler_context_.tasks_).Nodup ∧
  ∀ h, (HostMap.find c.periodic_tasks_scheduler_context_.tasks_ h).isSome = true →
    HostMap.find c.periodic_tasks_scheduler_context_.host_controllers_ h = some h ∧
    (HostMap.find c.periodic_tasks_scheduler_context_.states_ h).isSome = true ∧
    (HostMap.find c.configuration_.host_configurations_ h).isSome = true ∧
    (HostMap.find c.host_controllers_ h).isSome = true

/-- The states between the statements of `add_host(host, …)`, once its checks have
passed: after `configuration_.add_host`, after `host_controllers_.emplace` and after the
scheduler's `add_host`. -/
def Controller.add_host_points (c : Controller) (host : String) : List Controller :=
  [{ c with configuration_ := c.configuration_.add_host host },
   { c with
     configuration_ := c.configuration_.add_host host
     host_controllers_ := HostMap.emplace c.host_controllers_ host HostController.new },
   { c with
     configuration_ := c.configuration_.add_host host
     host_controllers_ := HostMap.emplace c.host_controllers_ host HostController.new
     periodic_tasks_scheduler_context_ := c.periodic_tasks_scheduler_context_.add_host host host }]

/-- The states between the statements of `remove_host_(host)`: after the scheduler's
`remove_host`, after `host_controllers_.erase` and after `configuration_.remove_host`. -/
def Controller.remove_host_points (c : Controller) (host : String) : List Controller :=
  [{ c with periodic_tasks_scheduler_context_ := c.periodic_tasks_scheduler_context_.remove_host host },
   { c with
     periodic_tasks_scheduler_context_ := c.periodic_tasks_scheduler_context_.remove_host host
     host_controllers_ := HostMap.erase c.host_controllers_ host },
   { c with
     periodic_tasks_scheduler_context_ := c.periodic_tasks_scheduler_context_.remove_host host
     host_controllers_ := HostMap.erase c.host_controllers_ host
     configuration_ := c.configuration_.remove_host host }]

end Woinc

/-! ## Lemmas on maps -/

namespace Woinc

namespace HostMap

theorem find_nil {α : Type} (h : String) : find ([] : HostMap α) h = none := rfl

theorem find_cons {α : Type} (k : String) (v : α) (m : HostMap α) (h : String) :
    find ((k, v) :: m) h = if k = h then some v else find m h := rfl

theorem find_insertSorted {α : Type} (k : String) (v : α) (m : HostMap α) (h : String)
    (hk : find m k = none) :
    find (insertSorted k v m) h = if k = h then some v else find m h := by
  induction m with
  | nil => simp [insertSorted, find_cons]
  | cons e rest ih =>
    obtain ⟨k', v'⟩ := e
    rw [find_cons] at hk
    by_cases hkk : k' = k
    · simp [hkk] at hk
    · simp only [hkk, if_false] at hk
      simp only [insertSorted]
      split
      · simp [find_cons]
      · rw [find_cons, ih hk, find_cons]
        by_cases h1 : k' = h
        · have h2 : ¬ k = h := fun h2 => hkk (h1.trans h2.symm)
          simp [h1, h2]
        · simp [h1]

theorem find_emplace {α : Type} (m : HostMap α) (k : String) (v : α) (h : String) :
    find (emplace m k v) h = if k = h then some ((find m k).getD v) else find m h := by
  unfold emplace
  cases hk : find m k with
  | none => simp [find_insertSorted k v m h hk]
  | some x =>
    by_cases hkh : k = h
    · subst hkh; simp [hk]
    · simp [hkh]

theorem find_erase {α : Type} (m : HostMap α) (k : String) (h : String) :
    find (erase m k) h = if k = h then none else find m h := by
  induction m with
  | nil => simp [erase, find_nil]
  | cons e rest ih =>
    obtain ⟨k', v'⟩ := e
    unfold erase at ih ⊢
    by_cases hkk : k' = k
    · subst hkk
      simp only [List.filter, ne_eq, not_true_eq_false, decide_False, find_cons]
      rw [ih]
      by_cases h1 : k' = h <;> simp [h1]
    · simp only [List.filter, ne_eq, hkk, not_false_eq_true, decide_True, find_cons]
      rw [ih]
      by_cases h1 : k' = h
      · have h2 : ¬ k = h := fun h2 => hkk (h1.trans h2.symm)
        simp [h1, h2]
      · simp [h1]

theorem find_assign {α : Type} (m : HostMap α) (k : String) (v : α) (h : String) :
    find (assign m k v) h = if k = h then (find m k).map (fun _ => v) else find m h := by
  induction m with
  | nil => simp [assign, find_nil]
  | cons e rest ih =>
    obtain ⟨k', v'⟩ := e
    unfold assign at ih ⊢
    simp only [List.map]
    by_cases hkk : k' = k
    · subst hkk
      simp only [if_true, find_cons]
      by_cases h1 : k' = h
      · simp [h1]
      · simp only [h1, if_false]
        rw [ih]; simp [h1]
    · simp only [hkk, if_false, find_cons]
      rw [ih]
      by_cases h1 : k' = h
      · have h2 : ¬ k = h := fun h2 => hkk (h1.trans h2.symm)
        simp [h1, h2]
      · by_cases h2 : k = h
        · simp [h1, h2]
        · simp [h1, h2]

theorem find_eq_none_iff {α : Type} (m : HostMap α) (h : String) :
    find m h = none ↔ h ∉ keys m := by
  induction m with
  | nil => simp [find_nil, keys]
  | cons e rest ih =>
    obtain ⟨k', v'⟩ := e
    rw [find_cons]
    by_cases h1 : k' = h
    · simp [h1, keys]
    · have h2 : ¬ h = k' := fun h2 => h1 h2.symm
      simp only [h1, if_false, ih]
      simp [keys, h2]

theorem mem_of_find {α : Type} (m : HostMap α) (h : String) (v : α) (hf : find m h = some v) :
    (h, v) ∈ m := by
  induction m with
  | nil => simp [find_nil] at hf
  | cons e rest ih =>
    obtain ⟨k', v'⟩ := e
    rw [find_cons] at hf
    by_cases h1 : k' = h
    · simp only [h1, if_true, Option.some.injEq] at hf
      simp [h1, hf]
    · simp only [h1, if_false] at hf
      exact List.mem_cons_of_mem _ (ih hf)

theorem find_of_mem {α : Type} (m : HostMap α) (h : String) (v : α) (hn : (keys m).Nodup)
    (hm : (h, v) ∈ m) : find m h = some v := by
  induction m with
  | nil => simp at hm
  | cons e rest ih =>
    obtain ⟨k', v'⟩ := e
    simp only [keys, List.map, List.nodup_cons] at hn
    rw [find_cons]
    rcases List.mem_cons.mp hm with heq | hin
    · simp only [Prod.mk.injEq] at heq
      simp [heq.1, heq.2]
    · have h1 : ¬ k' = h := by
        intro h1
        apply hn.1
        rw [h1]
        exact List.mem_map.mpr ⟨(h, v), hin, rfl⟩
      simp only [h1, if_false]
      exact ih hn.2 hin

theorem keys_assign {α : Type} (m : HostMap α) (k : String) (v : α) :
    keys (assign m k v) = keys m := by
  induction m with
  | nil => rfl
  | cons e rest ih =>
    unfold keys assign at ih ⊢
    simp only [List.map, List.cons.injEq]
    refine ⟨?_, ih⟩
    split <;> rfl

theorem keys_erase {α : Type} (m : HostMap α) (k : String) :
    keys (erase m k) = (keys m).filter (fun x => decide (x ≠ k)) := by
  induction m with
  | nil => rfl
  | cons e rest ih =>
    unfold keys erase at ih ⊢
    by_cases h1 : e.1 = k
    · simp only [List.filter, ne_eq, h1, not_true_eq_false, decide_False, List.map]
      exact ih
    · simp only [List.filter, ne_eq, h1, not_false_eq_true, decide_True, List.map, List.cons.injEq,
        true_and]
      exact ih

theorem keys_insertSorted {α : Type} (k : String) (v : α) (m : HostMap α) :
    (keys (insertSorted k v m)).Perm (k :: keys m) := by
  induction m with
  | nil => simp [insertSorted, keys]
  | cons e rest ih =>
    obtain ⟨k', v'⟩ := e
    simp only [insertSorted]
    split
    · simp [keys]
    · simp only [keys, List.map] at ih ⊢
      exact (List.Perm.cons k' ih).trans (List.Perm.swap k k' _)

theorem nodup_keys_emplace {α : Type} (m : HostMap α) (k : String) (v : α)
    (hn : (keys m).Nodup) : (keys (emplace m k v)).Nodup := by
  unfold emplace
  cases hk : find m k with
  | some x => simpa using hn
  | none =>
    simp only
    rw [(keys_insertSorted k v m).nodup_iff, List.nodup_cons]
    exact ⟨(find_eq_none_iff m k).mp hk, hn⟩

theorem nodup_keys_erase {α : Type} (m : HostMap α) (k : String)
    (hn : (keys m).Nodup) : (keys (erase m k)).Nodup := by
  rw [keys_erase]
  exact hn.filter _

theorem eq_nil_of_find {α : Type} (m : HostMap α) (hf : ∀ h, find m h = none) : m = [] := by
  cases m with
  | nil => rfl
  | cons e rest =>
    obtain ⟨k', v'⟩ := e
    have := hf k'
    simp [find_cons] at this

theorem erase_length_lt {α : Type} (k : String) (v : α) (m : HostMap α) :
    (erase ((k, v) :: m) k).length < ((k, v) :: m).length := by
  unfold erase
  simp only [List.filter, ne_eq, not_true_eq_false, decide_False, List.length_cons]
  exact Nat.lt_succ_of_le (List.length_filter_le _ _)

end HostMap

end Woinc

namespace Woinc

/-! ## Lemmas on the sequencing of calls -/

theorem Ran.bind_ret {σ : Type} (s : σ) (cs : List Call) (f : σ → Ran σ) :
    (Ran.ret s cs).bind f = { out := (f s).out, st := (f s).st, calls := cs ++ (f s).calls } := rfl

theorem Ran.bind_raise {σ : Type} (e : Exn) (s : σ) (f : σ → Ran σ) :
    (Ran.raise e s).bind f = Ran.raise e s := rfl

theorem Ran.bind_mk_returned {σ : Type} (s : σ) (cs : List Call) (f : σ → Ran σ) :
    ({ out := .returned, st := s, calls := cs } : Ran σ).bind f =
      { out := (f s).out, st := (f s).st, calls := cs ++ (f s).calls } := rfl

theorem Ran.bind_mk_raised {σ : Type} (e : Exn) (s : σ) (cs : List Call) (f : σ → Ran σ) :
    ({ out := .raised e, st := s, calls := cs } : Ran σ).bind f =
      { out := .raised e, st := s, calls := cs } := rfl

theorem Ran.bind_st_cases {σ : Type} (r : Ran σ) (f : σ → Ran σ) :
    (r.bind f).st = r.st ∨ (r.bind f).st = (f r.st).st := by
  unfold Ran.bind
  split
  · exact Or.inl rfl
  · exact Or.inr rfl

theorem Ran.with_future_st {σ : Type} (r : Ran σ) : r.with_future.st = r.st := by
  unfold Ran.with_future
  split <;> rfl

theorem Ran.with_future_calls {σ : Type} (r : Ran σ) : r.with_future.calls = r.calls := by
  unfold Ran.with_future
  split <;> rfl

theorem check_not_empty_st {σ : Type} (str msg : String) (s : σ) :
    (check_not_empty__ str msg s).st = s := by
  unfold check_not_empty__
  split <;> rfl

theorem check_not_empty_host_name_st {σ : Type} (host : String) (s : σ) :
    (check_not_empty_host_name__ host s).st = s := check_not_empty_st _ _ _

theorem Controller.verify_not_shutdown_st (c : Controller) : c.verify_not_shutdown_.st = c := by
  unfold Controller.verify_not_shutdown_
  split <;> rfl

theorem Controller.verify_known_host_st (c : Controller) (host : String) :
    (c.verify_known_host_ host).st = c := by
  unfold Controller.verify_known_host_
  split <;> rfl

/-- A property of states that holds after `r` and is kept by `f` holds after `r.bind f`. -/
theorem Ran.bind_keeps {σ : Type} (P : σ → Prop) (r : Ran σ) (f : σ → Ran σ)
    (h1 : P r.st) (h2 : ∀ s, P s → P (f s).st) : P (r.bind f).st := by
  rcases Ran.bind_st_cases r f with h | h
  · rw [h]; exact h1
  · rw [h]; exact h2 _ h1

/-! ## The invariant is kept by every step -/

theorem periodic_count_append (k : PeriodicTask) (q q2 : List Job) :
    periodic_count k (q ++ q2) = periodic_count k q + periodic_count k q2 := by
  unfold periodic_count
  exact List.countP_append _ _ _

theorem periodic_count_promised (k : PeriodicTask) (cmd : Command) :
    periodic_count k [.promised cmd] = 0 := by
  simp [periodic_count]

theorem periodic_count_periodic (k : PeriodicTask) (j : PeriodicJob) :
    periodic_count k [.periodic j] = if j.task = k then 1 else 0 := by
  by_cases h : j.task = k <;> simp [periodic_count, h]

theorem periodic_count_cons (k : PeriodicTask) (job : Job) (q : List Job) :
    periodic_count k (job :: q) = periodic_count k [job] + periodic_count k q := by
  have := periodic_count_append k [job] q
  simpa using this

theorem Inv.init : Inv Controller.init := by
  constructor <;> simp [Controller.init, HostMap.find_nil, HostMap.keys]

/-- The invariant only reads the host tables and the handler set. -/
theorem Inv.of_eq {c c' : Controller} (hc : Inv c)
    (h1 : c'.host_controllers_ = c.host_controllers_)
    (h2 : c'.periodic_tasks_scheduler_context_.tasks_ = c.periodic_tasks_scheduler_context_.tasks_)
    (h3 : c'.periodic_tasks_scheduler_context_.host_controllers_ =
      c.periodic_tasks_scheduler_context_.host_controllers_)
    (h4 : c'.periodic_tasks_scheduler_context_.states_ = c.periodic_tasks_scheduler_context_.states_)
    (h5 : c'.configuration_.host_configurations_ = c.configuration_.host_configurations_)
    (h6 : c'.handler_registry_.host_handlers_.Nodup) : Inv c' := by
  constructor
  · rw [h1, h2]; exact hc.tasks_dom
  · rw [h1, h3]; exact hc.refs
  · rw [h1, h4]; exact hc.states_dom
  · rw [h1, h5]; exact hc.config_dom
  · rw [h2]; exact hc.tasks_nodup
  · rw [h2]; exact hc.kinds
  · rw [h1, h2]; exact hc.bounded
  · exact h6

/-- The invariant after a change of the queue and of the slots of one host. -/
theorem Inv.update {c c' : Controller} (hc : Inv c) (host : String)
    (w w' : HostController) (tasks tasks' : List Task)
    (hw : HostMap.find c.host_controllers_ host = some w)
    (ht : HostMap.find c.periodic_tasks_scheduler_context_.tasks_ host = some tasks)
    (hH : ∀ h, HostMap.find c'.host_controllers_ h =
      if host = h then some w' else HostMap.find c.host_controllers_ h)
    (hT : ∀ h, HostMap.find c'.periodic_tasks_scheduler_context_.tasks_ h =
      if host = h then some tasks' else HostMap.find c.periodic_tasks_scheduler_context_.tasks_ h)
    (hK : (HostMap.keys c'.periodic_tasks_scheduler_context_.tasks_).Nodup)
    (hR : c'.periodic_tasks_scheduler_context_.host_controllers_ =
      c.periodic_tasks_scheduler_context_.host_controllers_)
    (hS : ∀ h, (HostMap.find c'.periodic_tasks_scheduler_context_.states_ h).isSome =
      (HostMap.find c.periodic_tasks_scheduler_context_.states_ h).isSome)
    (hC : ∀ h, (HostMap.find c'.configuration_.host_configurations_ h).isSome =
      (HostMap.find c.configuration_.host_configurations_ h).isSome)
    (hG : c'.handler_registry_ = c.handler_registry_)
    (hty : tasks'.map Task.type = tasks.map Task.type)
    (hb : Bounded w'.queue tasks') : Inv c' := by
  have hdom : ∀ h, (HostMap.find c'.host_controllers_ h).isSome =
      (HostMap.find c.host_controllers_ h).isSome := by
    intro h
    rw [hH]
    by_cases hh : host = h
    · subst hh; simp [hw]
    · simp [hh]
  constructor
  · intro h
    rw [hdom, ← hc.tasks_dom, hT]
    by_cases hh : host = h
    · subst hh; simp [ht]
    · simp [hh]
  · intro h
    rw [hR, hc.refs, hH]
    by_cases hh : host = h
    · subst hh; simp [hw]
    · simp [hh]
  · intro h; rw [hS, hdom]; exact hc.states_dom h
  · intro h; rw [hC, hdom]; exact hc.config_dom h
  · exact hK
  · intro h ts hts
    rw [hT] at hts
    by_cases hh : host = h
    · simp only [hh, if_true, Option.some.injEq] at hts
      rw [← hts, hty]
      exact hc.kinds host tasks ht
    · simp only [hh, if_false] at hts
      exact hc.kinds h ts hts
  · intro h w1 ts hw1 hts
    rw [hH] at hw1
    rw [hT] at hts
    by_cases hh : host = h
    · simp only [hh, if_true, Option.some.injEq] at hw1 hts
      rw [← hw1, ← hts]
      exact hb
    · simp only [hh, if_false] at hw1 hts
      exact hc.bounded h w1 ts hw1 hts
  · rw [hG]; exact hc.handlers_nodup

end Woinc

namespace Woinc

/-! ## Closed forms of `add_host` and `remove_host_` -/

/-- The state of the facade after a successful `add_host(host, …)`. -/
theorem Controller.add_host_ok (c : Controller) (host url : String) (port : Nat)
    (h1 : host ≠ "") (h2 : url ≠ "") (h3 : c.shutdown_ = false)
    (h4 : HostMap.find c.host_controllers_ host = none) :
    c.add_host host url port =
      { out := .returned
        st := { c with
          configuration_ := c.configuration_.add_host host
          host_controllers_ := HostMap.emplace c.host_controllers_ host HostController.new
          periodic_tasks_scheduler_context_ :=
            c.periodic_tasks_scheduler_context_.add_host host host }
        calls := [.config_add_host host, .hosts_emplace host, .scheduler_add_host host] ++
          (c.handler_registry_.host_handlers_.map fun g => Call.on_host_added g host) ++
          [.worker_connect_thread host url port] } := by
  have h5 : HostMap.find (HostMap.emplace c.host_controllers_ host HostController.new) host =
      some HostController.new := by
    rw [HostMap.find_emplace]; simp [h4]
  simp only [Controller.add_host, check_not_empty_host_name__, check_not_empty__, h1, h2, if_false,
    Ran.bind_ret, Controller.verify_not_shutdown_, h3, Controller.has_host_, h4, Option.isSome_none,
    Bool.false_eq_true, h5, HandlerRegistry.for_host_handler]
  simp only [Ran.ret, List.nil_append, List.cons_append, List.append_nil, List.append_assoc]

/-- A failing `add_host` leaves the state as it was. -/
theorem Controller.add_host_st_cases (c : Controller) (host url : String) (port : Nat) :
    (c.add_host host url port).st = c ∨
    (HostMap.find c.host_controllers_ host = none ∧ c.shutdown_ = false ∧
      (c.add_host host url port).st = { c with
          configuration_ := c.configuration_.add_host host
          host_controllers_ := HostMap.emplace c.host_controllers_ host HostController.new
          periodic_tasks_scheduler_context_ :=
            c.periodic_tasks_scheduler_context_.add_host host host }) := by
  by_cases h1 : host = ""
  · left; simp [Controller.add_host, check_not_empty_host_name__, check_not_empty__, h1, Ran.bind_raise,
      Ran.bind_mk_raised, Ran.raise]
  by_cases h2 : url = ""
  · left; simp [Controller.add_host, check_not_empty_host_name__, check_not_empty__, h1, h2,
      Ran.bind_raise, Ran.bind_ret, Ran.bind_mk_raised, Ran.bind_mk_returned, Ran.raise, Ran.ret]
  by_cases h3 : c.shutdown_ = true
  · left; simp [Controller.add_host, check_not_empty_host_name__, check_not_empty__, h1, h2,
      Ran.bind_raise, Ran.bind_ret, Ran.bind_mk_raised, Ran.bind_mk_returned, Ran.raise, Ran.ret, Controller.verify_not_shutdown_, h3]
  · rw [Bool.not_eq_true] at h3
    cases h4 : HostMap.find c.host_controllers_ host with
    | some w =>
      left; simp [Controller.add_host, check_not_empty_host_name__, check_not_empty__, h1, h2,
        Ran.bind_raise, Ran.bind_ret, Ran.bind_mk_raised, Ran.bind_mk_returned, Ran.raise, Ran.ret, Controller.verify_not_shutdown_, h3,
        Controller.has_host_, h4]
    | none =>
      right
      rw [Controller.add_host_ok c host url port h1 h2 h3 h4]
      exact ⟨rfl, h3, rfl⟩

/-- The result of `remove_host_(host)` for a host with a record. -/
theorem Controller.remove_host_ok (c : Controller) (host : String) (w : HostController)
    (h : HostMap.find c.host_controllers_ host = some w) :
    c.remove_host_ host =
      { out := .returned
        st := { c with
          periodic_tasks_scheduler_context_ := c.periodic_tasks_scheduler_context_.remove_host host
          host_controllers_ := HostMap.erase c.host_controllers_ host
          configuration_ := c.configuration_.remove_host host }
        calls := [.scheduler_remove_host host, .worker_shutdown host, .hosts_erase host] ++
          (c.handler_registry_.host_handlers_.map fun g => Call.on_host_removed g host) ++
          [.config_remove_host host] } := by
  simp only [Controller.remove_host_, Ran.bind_ret, h, HandlerRegistry.for_host_handler]
  simp only [Ran.ret, List.nil_append, List.cons_append, List.append_nil, List.append_assoc]

/-- The result of `remove_host_(host)` for a host without record: the scheduler tables
have been asked to remove the host when `host_controllers_.at(host)` raises. -/
theorem Controller.remove_host_missing (c : Controller) (host : String)
    (h : HostMap.find c.host_controllers_ host = none) :
    c.remove_host_ host =
      { out := .raised .out_of_range
        st := { c with
          periodic_tasks_scheduler_context_ := c.periodic_tasks_scheduler_context_.remove_host host }
        calls := [.scheduler_remove_host host] } := by
  simp only [Controller.remove_host_, Ran.bind_ret, h, Ran.bind_raise]
  simp only [Ran.raise, List.append_nil]

end Woinc

namespace Woinc

theorem Inv.absent {c : Controller} (hc : Inv c) (host : String)
    (h : HostMap.find c.host_controllers_ host = none) :
    HostMap.find c.periodic_tasks_scheduler_context_.tasks_ host = none ∧
    HostMap.find c.periodic_tasks_scheduler_context_.host_controllers_ host = none ∧
    HostMap.find c.periodic_tasks_scheduler_context_.states_ host = none ∧
    HostMap.find c.configuration_.host_configurations_ host = none := by
  have h1 := hc.tasks_dom host
  have h2 := hc.refs host
  have h3 := hc.states_dom host
  have h4 := hc.config_dom host
  rw [h] at h1 h2 h3 h4
  simp only [Option.isSome_none] at h1 h3 h4
  exact ⟨Option.not_isSome_iff_eq_none.mp (by simp [h1]), h2,
    Option.not_isSome_iff_eq_none.mp (by simp [h3]), Option.not_isSome_iff_eq_none.mp (by simp [h4])⟩

theorem Inv.present {c : Controller} (hc : Inv c) (host : String) (w : HostController)
    (h : HostMap.find c.host_controllers_ host = some w) :
    (∃ tasks, HostMap.find c.periodic_tasks_scheduler_context_.tasks_ host = some tasks) ∧
    HostMap.find c.periodic_tasks_scheduler_context_.host_controllers_ host = some host ∧
    (∃ s, HostMap.find c.periodic_tasks_scheduler_context_.states_ host = some s) ∧
    (∃ row, HostMap.find c.configuration_.host_configurations_ host = some row) := by
  have h1 := hc.tasks_dom host
  have h2 := hc.refs host
  have h3 := hc.states_dom host
  have h4 := hc.config_dom host
  rw [h] at h1 h2 h3 h4
  simp only [Option.isSome_some, Option.isSome_iff_exists] at h1 h3 h4
  exact ⟨h1, h2, h3, h4⟩

theorem Inv.add_host {c : Controller} (hc : Inv c) (host url : String) (port : Nat) :
    Inv (c.add_host host url port).st := by
  rcases Controller.add_host_st_cases c host url port with h | ⟨h4, -, h⟩
  · rw [h]; exact hc
  · rw [h]
    obtain ⟨a1, a2, a3, a4⟩ := hc.absent host h4
    constructor
    · intro h'
      simp only [PeriodicTasksSchedulerContext.add_host, HostMap.find_emplace]
      by_cases hh : host = h'
      · simp [hh]
      · simp [hh, hc.tasks_dom h']
    · intro h'
      simp only [PeriodicTasksSchedulerContext.add_host, HostMap.find_emplace]
      by_cases hh : host = h'
      · subst hh; simp [a2]
      · simp [hh, hc.refs h']
    · intro h'
      simp only [PeriodicTasksSchedulerContext.add_host, HostMap.find_emplace]
      by_cases hh : host = h'
      · simp [hh]
      · simp [hh, hc.states_dom h']
    · intro h'
      simp only [Configuration.add_host, HostMap.find_emplace]
      by_cases hh : host = h'
      · simp [hh]
      · simp [hh, hc.config_dom h']
    · exact HostMap.nodup_keys_emplace _ _ _ hc.tasks_nodup
    · intro h' ts
      simp only [PeriodicTasksSchedulerContext.add_host, HostMap.find_emplace]
      by_cases hh : host = h'
      · simp only [hh, if_true, Option.some.injEq]
        rw [← hh, a1]
        intro hts
        rw [← hts]
        rfl
      · simp only [hh, if_false]
        exact hc.kinds h' ts
    · intro h' w ts
      simp only [PeriodicTasksSchedulerContext.add_host, HostMap.find_emplace]
      by_cases hh : host = h'
      · simp only [hh, if_true, Option.some.injEq]
        rw [← hh, h4]
        intro hw _
        rw [← hw]
        intro t _
        simp [HostController.new, periodic_count]
      · simp only [hh, if_false]
        exact hc.bounded h' w ts
    · exact hc.handlers_nodup

theorem Inv.remove_host_ {c : Controller} (hc : Inv c) (host : String) :
    Inv (c.remove_host_ host).st := by
  cases h : HostMap.find c.host_controllers_ host with
  | none =>
    rw [Controller.remove_host_missing c host h]
    obtain ⟨a1, a2, a3, a4⟩ := hc.absent host h
    constructor
    · intro h'
      simp only [PeriodicTasksSchedulerContext.remove_host, HostMap.find_erase]
      by_cases hh : host = h'
      · subst hh; simp [h]
      · simp [hh, hc.tasks_dom h']
    · intro h'
      simp only [PeriodicTasksSchedulerContext.remove_host, HostMap.find_erase]
      by_cases hh : host = h'
      · subst hh; simp [h]
      · simp [hh, hc.refs h']
    · intro h'
      simp only [PeriodicTasksSchedulerContext.remove_host, HostMap.find_erase]
      by_cases hh : host = h'
      · subst hh; simp [h]
      · simp [hh, hc.states_dom h']
    · exact hc.config_dom
    · exact HostMap.nodup_keys_erase _ _ hc.tasks_nodup
    · intro h' ts
      simp only [PeriodicTasksSchedulerContext.remove_host, HostMap.find_erase]
      by_cases hh : host = h'
      · simp [hh]
      · simp only [hh, if_false]
        exact hc.kinds h' ts
    · intro h' w ts
      simp only [PeriodicTasksSchedulerContext.remove_host, HostMap.find_erase]
      by_cases hh : host = h'
      · simp [hh]
      · simp only [hh, if_false]
        exact hc.bounded h' w ts
    · exact hc.handlers_nodup
  | some w0 =>
    rw [Controller.remove_host_ok c host w0 h]
    constructor
    · intro h'
      simp only [PeriodicTasksSchedulerContext.remove_host, HostMap.find_erase]
      by_cases hh : host = h'
      · simp [hh]
      · simp [hh, hc.tasks_dom h']
    · intro h'
      simp only [PeriodicTasksSchedulerContext.remove_host, HostMap.find_erase]
      by_cases hh : host = h'
      · simp [hh]
      · simp [hh, hc.refs h']
    · intro h'
      simp only [PeriodicTasksSchedulerContext.remove_host, HostMap.find_erase]
      by_cases hh : host = h'
      · simp [hh]
      · simp [hh, hc.states_dom h']
    · intro h'
      simp only [Configuration.remove_host, HostMap.find_erase]
      by_cases hh : host = h'
      · simp [hh]
      · simp [hh, hc.config_dom h']
    · exact HostMap.nodup_keys_erase _ _ hc.tasks_nodup
    · intro h' ts
      simp only [PeriodicTasksSchedulerContext.remove_host, HostMap.find_erase]
      by_cases hh : host = h'
      · simp [hh]
      · simp only [hh, if_false]
        exact hc.kinds h' ts
    · intro h' w ts
      simp only [PeriodicTasksSchedulerContext.remove_host, HostMap.find_erase]
      by_cases hh : host = h'
      · simp [hh]
      · simp only [hh, if_false]
        exact hc.bounded h' w ts
    · exact hc.handlers_nodup

theorem Inv.check_not_empty {c : Controller} (hc : Inv c) (str msg : String) :
    Inv (check_not_empty__ str msg c).st := by
  rw [check_not_empty_st]; exact hc

theorem Inv.check_not_empty_host_name {c : Controller} (hc : Inv c) (host : String) :
    Inv (check_not_empty_host_name__ host c).st := by
  rw [check_not_empty_host_name_st]; exact hc

theorem Inv.verify_not_shutdown_ {c : Controller} (hc : Inv c) : Inv c.verify_not_shutdown_.st := by
  rw [Controller.verify_not_shutdown_st]; exact hc

theorem Inv.verify_known_host_ {c : Controller} (hc : Inv c) (host : String) :
    Inv (c.verify_known_host_ host).st := by
  rw [Controller.verify_known_host_st]; exact hc

theorem Inv.remove_host {c : Controller} (hc : Inv c) (host : String) :
    Inv (c.remove_host host).st := by
  unfold Controller.remove_host
  refine Ran.bind_keeps Inv _ _ (hc.check_not_empty_host_name host) fun s hs => ?_
  refine Ran.bind_keeps Inv _ _ hs.verify_not_shutdown_ fun s hs => ?_
  refine Ran.bind_keeps Inv _ _ (hs.verify_known_host_ host) fun s hs => ?_
  exact hs.remove_host_ host

theorem Inv.async_remove_host_ {c : Controller} (hc : Inv c) (host : String) :
    Inv (c.async_remove_host_ host).st := by
  unfold Controller.async_remove_host_
  refine Ran.bind_keeps Inv _ _ hc.verify_not_shutdown_ fun s hs => ?_
  exact hs.remove_host_ host

theorem Inv.async_remove_host {c : Controller} (hc : Inv c) (host : String) :
    Inv (c.async_remove_host host).st := by
  unfold Controller.async_remove_host
  refine Ran.bind_keeps Inv _ _ (hc.check_not_empty_host_name host) fun s hs => ?_
  exact hs

theorem Inv.authorize_host {c : Controller} (hc : Inv c) (host password : String) :
    Inv (c.authorize_host host password).st := by
  unfold Controller.authorize_host
  refine Ran.bind_keeps Inv _ _ (hc.check_not_empty_host_name host) fun s hs => ?_
  refine Ran.bind_keeps Inv _ _ (hs.check_not_empty _ _) fun s hs => ?_
  refine Ran.bind_keeps Inv _ _ hs.verify_not_shutdown_ fun s hs => ?_
  refine Ran.bind_keeps Inv _ _ (hs.verify_known_host_ host) fun s hs => ?_
  exact hs

theorem Inv.register_handler {c : Controller} (hc : Inv c) (g : Nat) :
    Inv (c.register_handler g).st := by
  refine hc.of_eq rfl rfl rfl rfl rfl ?_
  show (c.handler_registry_.register_handler g).host_handlers_.Nodup
  unfold HandlerRegistry.register_handler
  split
  · exact hc.handlers_nodup
  · rename_i hg
    show (c.handler_registry_.host_handlers_ ++ [g]).Nodup
    rw [List.nodup_append]
    refine ⟨hc.handlers_nodup, List.nodup_singleton g, ?_⟩
    intro a ha hb
    rw [List.mem_singleton] at hb
    exact hg (hb ▸ ha)

theorem Inv.deregister_handler {c : Controller} (hc : Inv c) (g : Nat) :
    Inv (c.deregister_handler g).st := by
  refine hc.of_eq rfl rfl rfl rfl rfl ?_
  exact hc.handlers_nodup.filter _

theorem Inv.periodic_task_interval {c : Controller} (hc : Inv c) (task : PeriodicTask)
    (interval : Int) : Inv (c.periodic_task_interval task interval).st :=
  hc.of_eq rfl rfl rfl rfl rfl hc.handlers_nodup

end Woinc

namespace Woinc

theorem PeriodicTasksSchedulerContext.reschedule_tasks_types (k : PeriodicTask) (tasks : List Task) :
    (reschedule_tasks k tasks).map Task.type = tasks.map Task.type := by
  induction tasks with
  | nil => rfl
  | cons t rest ih =>
    unfold reschedule_tasks
    split
    · rfl
    · simp [ih]

theorem PeriodicTasksSchedulerContext.reschedule_tasks_mem (k : PeriodicTask) (tasks : List Task)
    (t' : Task) (h : t' ∈ reschedule_tasks k tasks) :
    ∃ t ∈ tasks, t'.type = t.type ∧ t'.pending = t.pending := by
  induction tasks with
  | nil => simp [reschedule_tasks] at h
  | cons t rest ih =>
    unfold reschedule_tasks at h
    split at h
    · rcases List.mem_cons.mp h with h1 | h1
      · exact ⟨t, List.mem_cons_self _ _, by rw [h1], by rw [h1]⟩
      · exact ⟨t', List.mem_cons_of_mem _ h1, rfl, rfl⟩
    · rcases List.mem_cons.mp h with h1 | h1
      · exact ⟨t, List.mem_cons_self _ _, by rw [h1], by rw [h1]⟩
      · obtain ⟨t0, h2, h3⟩ := ih h1
        exact ⟨t0, List.mem_cons_of_mem _ h2, h3⟩

theorem PeriodicTasksScheduler.complete_tasks_types (k : PeriodicTask) (now : Int)
    (tasks : List Task) : (complete_tasks k now tasks).map Task.type = tasks.map Task.type := by
  induction tasks with
  | nil => rfl
  | cons t rest ih =>
    unfold complete_tasks
    split
    · rfl
    · simp [ih]

theorem PeriodicTasksScheduler.complete_tasks_mem (k : PeriodicTask) (now : Int)
    (tasks : List Task) (t' : Task) (h : t' ∈ complete_tasks k now tasks) :
    t'.type = k ∨ t' ∈ tasks := by
  induction tasks with
  | nil => simp [complete_tasks] at h
  | cons t rest ih =>
    unfold complete_tasks at h
    split at h
    · rename_i hk
      rcases List.mem_cons.mp h with h1 | h1
      · left; rw [h1]; exact hk
      · right; exact List.mem_cons_of_mem _ h1
    · rcases List.mem_cons.mp h with h1 | h1
      · right; rw [h1]; exact List.mem_cons_self _ _
      · rcases ih h1 with h2 | h2
        · exact Or.inl h2
        · exact Or.inr (List.mem_cons_of_mem _ h2)

theorem PeriodicTasksScheduler.has_task_iff (k : PeriodicTask) (tasks : List Task) :
    has_task k tasks = true ↔ ∃ t ∈ tasks, t.type = k := by
  simp [has_task]

/-- The invariant only reads the domains of the poll states and of the configuration rows. -/
theorem Inv.of_dom {c c' : Controller} (hc : Inv c)
    (h1 : c'.host_controllers_ = c.host_controllers_)
    (h2 : c'.periodic_tasks_scheduler_context_.tasks_ = c.periodic_tasks_scheduler_context_.tasks_)
    (h3 : c'.periodic_tasks_scheduler_context_.host_controllers_ =
      c.periodic_tasks_scheduler_context_.host_controllers_)
    (h4 : ∀ h, (HostMap.find c'.periodic_tasks_scheduler_context_.states_ h).isSome =
      (HostMap.find c.periodic_tasks_scheduler_context_.states_ h).isSome)
    (h5 : ∀ h, (HostMap.find c'.configuration_.host_configurations_ h).isSome =
      (HostMap.find c.configuration_.host_configurations_ h).isSome)
    (h6 : c'.handler_registry_.host_handlers_.Nodup) : Inv c' := by
  constructor
  · rw [h1, h2]; exact hc.tasks_dom
  · rw [h1, h3]; exact hc.refs
  · intro h; rw [h1, h4]; exact hc.states_dom h
  · intro h; rw [h1, h5]; exact hc.config_dom h
  · rw [h2]; exact hc.tasks_nodup
  · rw [h2]; exact hc.kinds
  · rw [h1, h2]; exact hc.bounded
  · exact h6

theorem HostMap.isSome_find_assign {α : Type} (m : HostMap α) (k : String) (v : α) (h : String) :
    (find (assign m k v) h).isSome = (find m h).isSome := by
  rw [find_assign]
  by_cases hh : k = h
  · subst hh; cases find m k <;> simp
  · simp [hh]

theorem HostMap.find_assign_of_find {α : Type} (m : HostMap α) (k : String) (v x : α)
    (hx : find m k = some x) (h : String) :
    find (assign m k v) h = if k = h then some v else find m h := by
  rw [find_assign, hx]; rfl

theorem Inv.schedule_now_ {c : Controller} (hc : Inv c) (host : String) (cmd : Command) :
    Inv (c.schedule_now_ host (.promised cmd)).st := by
  unfold Controller.schedule_now_
  split
  · exact hc
  · split
    · exact hc
    · rename_i w hw
      obtain ⟨⟨tasks, ht⟩, -, -, -⟩ := hc.present host w hw
      refine hc.update host w (w.schedule (.promised cmd)) tasks tasks hw ht
        (fun h => HostMap.find_assign_of_find _ _ _ _ hw h) ?_ hc.tasks_nodup rfl (fun _ => rfl)
        (fun _ => rfl) rfl rfl ?_
      · intro h
        by_cases hh : host = h
        · subst hh; simp [Ran.ret, ht]
        · simp [Ran.ret, hh]
      · intro t htm
        show periodic_count t.type (w.queue ++ [.promised cmd]) ≤ _
        rw [periodic_count_append, periodic_count_promised]
        exact hc.bounded host w tasks hw ht t htm

theorem Inv.scheduler_reschedule_now {c : Controller} (hc : Inv c) (host : String)
    (k : PeriodicTask) :
    Inv (c.on_scheduler (c.periodic_tasks_scheduler_context_.reschedule_now host k)).st := by
  unfold PeriodicTasksSchedulerContext.reschedule_now
  split
  · exact hc
  · rename_i tasks ht
    have hs : (HostMap.find c.host_controllers_ host).isSome = true := by
      rw [← hc.tasks_dom, ht]; rfl
    obtain ⟨w, hw⟩ := Option.isSome_iff_exists.mp hs
    refine hc.update host w w tasks (PeriodicTasksSchedulerContext.reschedule_tasks k tasks) hw ht
      ?_ (fun h => HostMap.find_assign_of_find _ _ _ _ ht h) ?_ rfl (fun _ => rfl)
      (fun _ => rfl) rfl (PeriodicTasksSchedulerContext.reschedule_tasks_types k tasks) ?_
    · intro h
      by_cases hh : host = h
      · subst hh; simp [Controller.on_scheduler, Ran.ret, hw]
      · simp [Controller.on_scheduler, Ran.ret, hh]
    · show (HostMap.keys (HostMap.assign _ _ _)).Nodup
      rw [HostMap.keys_assign]; exact hc.tasks_nodup
    · intro t' ht'
      obtain ⟨t, htm, e1, e2⟩ := PeriodicTasksSchedulerContext.reschedule_tasks_mem k tasks t' ht'
      rw [e1, e2]
      exact hc.bounded host w tasks hw ht t htm

theorem Inv.set_schedule_periodic_tasks {c : Controller} (hc : Inv c) (host : String)
    (value : Bool) :
    Inv (c.on_configuration (c.configuration_.set_schedule_periodic_tasks host value)).st := by
  unfold Configuration.set_schedule_periodic_tasks
  split
  · exact hc
  · exact hc.of_dom rfl rfl rfl (fun _ => rfl) (fun h => HostMap.isSome_find_assign _ _ _ h)
      hc.handlers_nodup

theorem Inv.set_active_only_tasks {c : Controller} (hc : Inv c) (host : String)
    (value : Bool) :
    Inv (c.on_configuration (c.configuration_.set_active_only_tasks host value)).st := by
  unfold Configuration.set_active_only_tasks
  split
  · exact hc
  · exact hc.of_dom rfl rfl rfl (fun _ => rfl) (fun h => HostMap.isSome_find_assign _ _ _ h)
      hc.handlers_nodup

theorem Inv.schedule_periodic_tasks {c : Controller} (hc : Inv c) (host : String) (value : Bool) :
    Inv (c.schedule_periodic_tasks host value).st := by
  unfold Controller.schedule_periodic_tasks
  refine Ran.bind_keeps Inv _ _ (hc.check_not_empty_host_name host) fun s hs => ?_
  refine Ran.bind_keeps Inv _ _ hs.verify_not_shutdown_ fun s hs => ?_
  refine Ran.bind_keeps Inv _ _ (hs.verify_known_host_ host) fun s hs => ?_
  exact hs.set_schedule_periodic_tasks host value

theorem Inv.reschedule_now {c : Controller} (hc : Inv c) (host : String) (task : PeriodicTask) :
    Inv (c.reschedule_now host task).st := by
  unfold Controller.reschedule_now
  refine Ran.bind_keeps Inv _ _ (hc.check_not_empty_host_name host) fun s hs => ?_
  refine Ran.bind_keeps Inv _ _ hs.verify_not_shutdown_ fun s hs => ?_
  refine Ran.bind_keeps Inv _ _ (hs.verify_known_host_ host) fun s hs => ?_
  exact hs.scheduler_reschedule_now host task

theorem Inv.active_only_tasks {c : Controller} (hc : Inv c) (host : String) (value : Bool) :
    Inv (c.active_only_tasks host value).st := by
  unfold Controller.active_only_tasks
  refine Ran.bind_keeps Inv _ _ (hc.check_not_empty_host_name host) fun s hs => ?_
  refine Ran.bind_keeps Inv _ _ hs.verify_not_shutdown_ fun s hs => ?_
  refine Ran.bind_keeps Inv _ _ (hs.verify_known_host_ host) fun s hs => ?_
  refine Ran.bind_keeps Inv _ _ (hs.set_active_only_tasks host value) fun s hs => ?_
  exact hs.scheduler_reschedule_now host .GET_TASKS

theorem Inv.file_transfer_op {c : Controller} (hc : Inv c) (host : String) (op : Nat)
    (master_url filename : String) : Inv (c.file_transfer_op host op master_url filename).st := by
  unfold Controller.file_transfer_op
  refine Ran.bind_keeps Inv _ _ (hc.check_not_empty_host_name host) fun s hs => ?_
  refine Ran.bind_keeps Inv _ _ (hs.check_not_empty _ _) fun s hs => ?_
  refine Ran.bind_keeps Inv _ _ (hs.check_not_empty _ _) fun s hs => ?_
  rw [Ran.with_future_st]
  refine Ran.bind_keeps Inv _ _ (hs.schedule_now_ host _) fun s hs => ?_
  exact hs.scheduler_reschedule_now host _

theorem Inv.project_op {c : Controller} (hc : Inv c) (host : String) (op : Nat)
    (master_url : String) : Inv (c.project_op host op master_url).st := by
  unfold Controller.project_op
  refine Ran.bind_keeps Inv _ _ (hc.check_not_empty_host_name host) fun s hs => ?_
  refine Ran.bind_keeps Inv _ _ (hs.check_not_empty _ _) fun s hs => ?_
  rw [Ran.with_future_st]
  refine Ran.bind_keeps Inv _ _ (hs.schedule_now_ host _) fun s hs => ?_
  exact hs.scheduler_reschedule_now host _

theorem Inv.task_op {c : Controller} (hc : Inv c) (host : String) (op : Nat)
    (master_url task_name : String) : Inv (c.task_op host op master_url task_name).st := by
  unfold Controller.task_op
  refine Ran.bind_keeps Inv _ _ (hc.check_not_empty_host_name host) fun s hs => ?_
  refine Ran.bind_keeps Inv _ _ (hs.check_not_empty _ _) fun s hs => ?_
  refine Ran.bind_keeps Inv _ _ (hs.check_not_empty _ _) fun s hs => ?_
  rw [Ran.with_future_st]
  refine Ran.bind_keeps Inv _ _ (hs.schedule_now_ host _) fun s hs => ?_
  exact hs.scheduler_reschedule_now host _

/-- The invariant after a command operation that only submits its job. -/
theorem Inv.submit {c : Controller} (hc : Inv c) (host : String) (cmd : Command) :
    Inv ((check_not_empty_host_name__ host c).bind fun c =>
      (c.schedule_now_ host (.promised cmd)).with_future).st := by
  refine Ran.bind_keeps Inv _ _ (hc.check_not_empty_host_name host) fun s hs => ?_
  rw [Ran.with_future_st]
  exact hs.schedule_now_ host _

end Woinc

namespace Woinc

/-- The state of the scheduler after `handle_post_execution` on a host with slots: as
before, or with the slots of the host completed and at most a sequence number changed. -/
theorem PeriodicTasksScheduler.handle_post_execution_st (ctx : PeriodicTasksSchedulerContext)
    (host : String) (job : PeriodicJob) (now : Int) (tasks : List Task)
    (ht : HostMap.find ctx.tasks_ host = some tasks) :
    (handle_post_execution ctx host job now).st = ctx ∨
    (has_task job.task tasks = true ∧
      (handle_post_execution ctx host job now).st.tasks_ =
        HostMap.assign ctx.tasks_ host (complete_tasks job.task now tasks) ∧
      (handle_post_execution ctx host job now).st.host_controllers_ = ctx.host_controllers_ ∧
      ∀ h, (HostMap.find (handle_post_execution ctx host job now).st.states_ h).isSome =
        (HostMap.find ctx.states_ h).isSome) := by
  unfold handle_post_execution
  simp only [ht]
  split
  · rename_i hh
    right
    refine ⟨hh, ?_⟩
    split
    · split
      · exact ⟨rfl, rfl, fun _ => rfl⟩
      · exact ⟨rfl, rfl, fun h => HostMap.isSome_find_assign _ _ _ h⟩
    · split
      · split
        · exact ⟨rfl, rfl, fun _ => rfl⟩
        · exact ⟨rfl, rfl, fun h => HostMap.isSome_find_assign _ _ _ h⟩
      · exact ⟨rfl, rfl, fun _ => rfl⟩
  · left; rfl

theorem Inv.worker_complete {c : Controller} (hc : Inv c) (host : String) (payload : Payload)
    (now : Int) : Inv (c.worker_complete host payload now).st := by
  unfold Controller.worker_complete
  split
  · exact hc
  · rename_i w hw
    obtain ⟨⟨tasks, ht⟩, -, -, -⟩ := hc.present host w hw
    have hb := hc.bounded host w tasks hw ht
    have hT0 : ∀ h, HostMap.find c.periodic_tasks_scheduler_context_.tasks_ h =
        if host = h then some tasks else HostMap.find c.periodic_tasks_scheduler_context_.tasks_ h := by
      intro h
      by_cases hh : host = h
      · subst hh; simp [ht]
      · simp [hh]
    split
    · exact hc
    · rename_i cmd rest hq
      refine hc.update host w { queue := rest } tasks tasks hw ht
        (fun h => HostMap.find_assign_of_find _ _ _ _ hw h) hT0 hc.tasks_nodup rfl (fun _ => rfl)
        (fun _ => rfl) rfl rfl ?_
      intro t htm
      have := hb t htm
      rw [hq, periodic_count_cons] at this
      exact le_trans (Nat.le_add_left _ _) this
    · rename_i j rest hq
      have hrest : ∀ k, periodic_count k rest ≤ periodic_count k w.queue := by
        intro k
        rw [hq, periodic_count_cons]
        exact Nat.le_add_left _ _
      rcases PeriodicTasksScheduler.handle_post_execution_st c.periodic_tasks_scheduler_context_
        host { task := j.task, payload := payload } now tasks ht with h1 | ⟨h1, h2, h3, h4⟩
      · refine hc.update host w { queue := rest } tasks tasks hw ht
          (fun h => HostMap.find_assign_of_find _ _ _ _ hw h) ?_ ?_ ?_ ?_
          (fun _ => rfl) rfl rfl ?_
        · simp only [Controller.on_scheduler, h1]; exact hT0
        · simp only [Controller.on_scheduler, h1]; exact hc.tasks_nodup
        · simp only [Controller.on_scheduler, h1]
        · simp only [Controller.on_scheduler, h1, implies_true]
        · intro t htm
          exact le_trans (hrest _) (hb t htm)
      · refine hc.update host w { queue := rest } tasks
          (PeriodicTasksScheduler.complete_tasks j.task now tasks) hw ht
          (fun h => HostMap.find_assign_of_find _ _ _ _ hw h) ?_ ?_ h3 h4
          (fun _ => rfl) rfl (PeriodicTasksScheduler.complete_tasks_types _ _ _) ?_
        · intro h
          simp only [Controller.on_scheduler, h2]
          exact HostMap.find_assign_of_find _ _ _ _ ht h
        · simp only [Controller.on_scheduler, h2]
          rw [HostMap.keys_assign]; exact hc.tasks_nodup
        · intro t' ht'
          rcases PeriodicTasksScheduler.complete_tasks_mem _ _ _ _ ht' with e | hm
          · obtain ⟨t, htm, hty⟩ := (PeriodicTasksScheduler.has_task_iff _ _).mp h1
            have h5 := hb t htm
            have h6 : periodic_count t.type w.queue ≤ 1 := by
              refine le_trans h5 ?_
              split <;> simp
            rw [hq, periodic_count_cons, periodic_count_periodic] at h6
            have hty' : j.task = t.type := hty.symm
            simp only [hty', if_true] at h6
            rw [e, hty']
            show periodic_count t.type rest ≤ _
            omega
          · exact le_trans (hrest _) (hb t' hm)

theorem Controller.shutdown_begin_eq (c : Controller) :
    c.shutdown_begin_ =
      { out := .returned
        st := { c with
          shutdown_ := true
          periodic_tasks_scheduler_context_ := c.periodic_tasks_scheduler_context_.trigger_shutdown
          periodic_tasks_scheduler_thread_joinable_ := false }
        calls := .scheduler_trigger_shutdown ::
          (if c.periodic_tasks_scheduler_thread_joinable_ = true then [.scheduler_thread_join]
           else []) } := by
  unfold Controller.shutdown_begin_
  simp only [Ran.bind_ret]
  cases h : c.periodic_tasks_scheduler_thread_joinable_
  · simp [Ran.ret, h]
  · simp [Ran.ret]

theorem Inv.shutdown_begin_ {c : Controller} (hc : Inv c) : Inv c.shutdown_begin_.st := by
  rw [Controller.shutdown_begin_eq]
  exact hc.of_eq rfl rfl rfl rfl rfl hc.handlers_nodup

theorem Inv.remove_all_ (fuel : Nat) : ∀ (c : Controller) (r : Ran Controller), Inv c →
    Controller.remove_all_ fuel c = some r → Inv r.st := by
  induction fuel with
  | zero =>
    intro c r hc h
    unfold Controller.remove_all_ at h
    split at h
    · simp only [Option.some.injEq] at h; rw [← h]; exact hc
    · simp at h
  | succ n ih =>
    intro c r hc h
    unfold Controller.remove_all_ at h
    split at h
    · simp only [Option.some.injEq] at h; rw [← h]; exact hc
    · rename_i host w0 rest hm
      split at h
      · simp only [Option.some.injEq] at h; rw [← h]; exact hc.remove_host_ host
      · simp only [Option.map_eq_some'] at h
        obtain ⟨r2, hr2, e⟩ := h
        rw [← e]
        exact ih _ r2 (hc.remove_host_ host) hr2

theorem Inv.shutdown {c : Controller} (hc : Inv c) (fuel : Nat) (r : Ran Controller)
    (h : c.shutdown fuel = some r) : Inv r.st := by
  unfold Controller.shutdown at h
  simp only [Option.map_eq_some'] at h
  obtain ⟨r2, hr2, e⟩ := h
  rw [← e]
  exact Inv.remove_all_ fuel _ r2 hc.shutdown_begin_ hr2

end Woinc

namespace Woinc

/-- The effect of `schedule_` on a host whose reference is its key: the slot is marked
pending, and the queue of the host gains at most one job, of the kind of the slot. -/
theorem PeriodicTasksScheduler.schedule_spec (c : Controller) (host : String) (task : Task)
    (hr : HostMap.find c.periodic_tasks_scheduler_context_.host_controllers_ host = some host) :
    (schedule_ c host task).val = { task with pending := true } ∧
    (schedule_ c host task).st =
      { c with host_controllers_ := (schedule_ c host task).st.host_controllers_ } ∧
    (∀ h, h ≠ host → HostMap.find (schedule_ c host task).st.host_controllers_ h =
      HostMap.find c.host_controllers_ h) ∧
    (∀ w, HostMap.find c.host_controllers_ host = some w →
      ∃ w1, HostMap.find (schedule_ c host task).st.host_controllers_ host = some w1 ∧
        (∀ k, k ≠ task.type → periodic_count k w1.queue = periodic_count k w.queue) ∧
        periodic_count task.type w1.queue ≤ periodic_count task.type w.queue + 1) ∧
    (HostMap.find c.host_controllers_ host = none →
      HostMap.find (schedule_ c host task).st.host_controllers_ host = none) := by
  unfold schedule_
  split
  · exact ⟨rfl, rfl, fun _ _ => rfl, fun w hw => ⟨w, hw, fun _ _ => rfl, Nat.le_succ _⟩, id⟩
  · rename_i payload hp
    simp only [hr]
    split
    · exact ⟨rfl, rfl, fun _ _ => rfl, fun w hw => ⟨w, hw, fun _ _ => rfl, Nat.le_succ _⟩, id⟩
    · rename_i w0 hw0
      refine ⟨rfl, rfl, ?_, ?_, ?_⟩
      · intro h hh
        show HostMap.find (HostMap.assign _ _ _) h = _
        rw [HostMap.find_assign]
        simp [Ne.symm hh]
      · intro w hw
        rw [hw0] at hw
        simp only [Option.some.injEq] at hw
        subst hw
        refine ⟨w0.schedule (.periodic { task := task.type, payload := payload }), ?_, ?_, ?_⟩
        · show HostMap.find (HostMap.assign _ _ _) host = _
          rw [HostMap.find_assign_of_find _ _ _ _ hw0]; simp
        · intro k hk
          show periodic_count k (w0.queue ++ _) = _
          rw [periodic_count_append, periodic_count_periodic]
          simp [Ne.symm hk]
        · show periodic_count task.type (w0.queue ++ _) ≤ _
          rw [periodic_count_append, periodic_count_periodic]
          simp
      · intro hn
        rw [hw0] at hn
        simp at hn

/-- The inner loop of a pass on the slots of `host`: only the queue of `host` changes, the
kinds of the slots stay, and a queue bounded by the slots stays bounded by them. -/
theorem PeriodicTasksScheduler.schedule_tasks_spec (intervals : Intervals) (now : Int)
    (host : String) : ∀ (tasks : List Task) (c : Controller),
    HostMap.find c.periodic_tasks_scheduler_context_.host_controllers_ host = some host →
    (schedule_tasks intervals now host tasks c).st =
      { c with host_controllers_ := (schedule_tasks intervals now host tasks c).st.host_controllers_ } ∧
    (∀ h, h ≠ host → HostMap.find (schedule_tasks intervals now host tasks c).st.host_controllers_ h =
      HostMap.find c.host_controllers_ h) ∧
    (schedule_tasks intervals now host tasks c).val.map Task.type = tasks.map Task.type ∧
    (∀ w, HostMap.find c.host_controllers_ host = some w → (tasks.map Task.type).Nodup →
      ∃ w', HostMap.find (schedule_tasks intervals now host tasks c).st.host_controllers_ host = some w' ∧
        (∀ k, k ∉ tasks.map Task.type → periodic_count k w'.queue = periodic_count k w.queue) ∧
        (Bounded w.queue tasks → Bounded w'.queue (schedule_tasks intervals now host tasks c).val)) ∧
    (HostMap.find c.host_controllers_ host = none →
      HostMap.find (schedule_tasks intervals now host tasks c).st.host_controllers_ host = none) := by
  intro tasks
  induction tasks with
  | nil =>
    intro c _
    refine ⟨rfl, fun _ _ => rfl, rfl, fun w hw _ => ⟨w, hw, fun _ _ => rfl, ?_⟩, id⟩
    intro _ t ht
    simp [schedule_tasks] at ht
  | cons t rest ih =>
    intro c hr
    unfold schedule_tasks
    split
    · rename_i hcond
      have hpend : t.pending = false := by
        simp only [Bool.and_eq_true, Bool.not_eq_true'] at hcond
        exact hcond.1
      obtain ⟨sv, sf, so, sh, sn⟩ := schedule_spec c host t hr
      have hr1 : HostMap.find (schedule_ c host t).st.periodic_tasks_scheduler_context_.host_controllers_ host =
          some host := by
        rw [sf]; exact hr
      obtain ⟨f2, o2, t2, h2, n2⟩ := ih (schedule_ c host t).st hr1
      -- the properties of the state after `schedule_`, shared by the two branches
      have key1 : ∀ w, HostMap.find c.host_controllers_ host = some w →
          ((t :: rest).map Task.type).Nodup →
          ∃ w1, HostMap.find (schedule_ c host t).st.host_controllers_ host = some w1 ∧
            (∀ k, k ∉ (t :: rest).map Task.type → periodic_count k w1.queue = periodic_count k w.queue) ∧
            (Bounded w.queue (t :: rest) → Bounded w1.queue ((schedule_ c host t).val :: rest)) := by
        intro w hw hnd
        obtain ⟨w1, hw1, c1, c2⟩ := sh w hw
        simp only [List.map, List.nodup_cons] at hnd
        refine ⟨w1, hw1, ?_, ?_⟩
        · intro k hk
          simp only [List.map, List.mem_cons, not_or] at hk
          exact c1 k hk.1
        · intro hb t' ht'
          rcases List.mem_cons.mp ht' with e | hm
          · rw [e, sv]
            have := hb t (List.mem_cons_self _ _)
            simp only [hpend, Bool.false_eq_true, if_false, Nat.le_zero] at this
            simp only [if_true]
            omega
          · have hne : t'.type ≠ t.type := by
              intro e
              apply hnd.1
              rw [← e]
              exact List.mem_map.mpr ⟨t', hm, rfl⟩
            rw [c1 _ hne]
            exact hb t' (List.mem_cons_of_mem _ hm)
      split
      · refine ⟨sf, so, ?_, key1, sn⟩
        simp [sv]
      · refine ⟨?_, ?_, ?_, ?_, ?_⟩
        · show (schedule_tasks intervals now host rest (schedule_ c host t).st).st = _
          rw [f2]
          rw [sf]
        · intro h hh
          show HostMap.find (schedule_tasks intervals now host rest (schedule_ c host t).st).st.host_controllers_ h = _
          rw [o2 h hh, so h hh]
        · show ((schedule_ c host t).val ::
            (schedule_tasks intervals now host rest (schedule_ c host t).st).val).map Task.type = _
          simp [sv, t2]
        · intro w hw hnd
          obtain ⟨w1, hw1, k1, b1⟩ := key1 w hw hnd
          simp only [List.map, List.nodup_cons] at hnd
          obtain ⟨w', hw', k2, b2⟩ := h2 w1 hw1 hnd.2
          refine ⟨w', hw', ?_, ?_⟩
          · intro k hk
            have hk' : k ∉ rest.map Task.type := by
              intro hm
              exact hk (List.mem_cons_of_mem _ hm)
            rw [k2 k hk', k1 k hk]
          · intro hb t' ht'
            have hb1 := b1 hb
            rcases List.mem_cons.mp ht' with e | hm
            · rw [e, sv]
              have h3 := hb1 _ (List.mem_cons_self _ _)
              rw [sv] at h3
              show periodic_count t.type w'.queue ≤ _
              rw [k2 t.type hnd.1]
              exact h3
            · exact b2 (fun x hx => hb1 x (List.mem_cons_of_mem _ hx)) t' hm
        · intro hn
          exact n2 (sn hn)
    · obtain ⟨f2, o2, t2, h2, n2⟩ := ih c hr
      refine ⟨f2, o2, ?_, ?_, n2⟩
      · show (t :: (schedule_tasks intervals now host rest c).val).map Task.type = _
        simp [t2]
      · intro w hw hnd
        simp only [List.map, List.nodup_cons] at hnd
        obtain ⟨w', hw', k2, b2⟩ := h2 w hw hnd.2
        refine ⟨w', hw', ?_, ?_⟩
        · intro k hk
          exact k2 k (fun hm => hk (List.mem_cons_of_mem _ hm))
        · intro hb t' ht'
          rcases List.mem_cons.mp ht' with e | hm
          · rw [e, k2 t.type hnd.1]
            exact hb t (List.mem_cons_self _ _)
          · exact b2 (fun x hx => hb x (List.mem_cons_of_mem _ hx)) t' hm

end Woinc

namespace Woinc

/-- The outer loop of a pass: the hosts of the facade stay, every host keeps its slots
by kind, and every queue stays bounded by the slots of its host. -/
theorem PeriodicTasksScheduler.schedule_hosts_spec (intervals : Intervals) (now : Int) :
    ∀ (m : HostMap (List Task)) (c : Controller), (HostMap.keys m).Nodup →
    (∀ h ts, (h, ts) ∈ m →
      HostMap.find c.periodic_tasks_scheduler_context_.host_controllers_ h = some h ∧
      (ts.map Task.type).Nodup ∧
      ∃ w, HostMap.find c.host_controllers_ h = some w ∧ Bounded w.queue ts) →
    (schedule_hosts intervals now m c).st =
      { c with host_controllers_ := (schedule_hosts intervals now m c).st.host_controllers_ } ∧
    (∀ h, h ∉ HostMap.keys m → HostMap.find (schedule_hosts intervals now m c).st.host_controllers_ h =
      HostMap.find c.host_controllers_ h) ∧
    (∀ h, (HostMap.find (schedule_hosts intervals now m c).st.host_controllers_ h).isSome =
      (HostMap.find c.host_controllers_ h).isSome) ∧
    HostMap.keys (schedule_hosts intervals now m c).val = HostMap.keys m ∧
    (∀ h ts', (h, ts') ∈ (schedule_hosts intervals now m c).val →
      ∃ ts, (h, ts) ∈ m ∧ ts'.map Task.type = ts.map Task.type ∧
        ∃ w', HostMap.find (schedule_hosts intervals now m c).st.host_controllers_ h = some w' ∧
          Bounded w'.queue ts') := by
  intro m
  induction m with
  | nil =>
    intro c _ _
    refine ⟨rfl, fun _ _ => rfl, fun _ => rfl, rfl, ?_⟩
    intro h ts' hm
    simp [schedule_hosts] at hm
  | cons e rest ih =>
    obtain ⟨h0, ts0⟩ := e
    intro c hnd hyp
    have hnd' : h0 ∉ HostMap.keys rest ∧ (HostMap.keys rest).Nodup := by
      simpa [HostMap.keys] using hnd
    have hne : ∀ h ts, (h, ts) ∈ rest → h ≠ h0 := by
      intro h ts hm e
      apply hnd'.1
      rw [← e]
      exact List.mem_map.mpr ⟨(h, ts), hm, rfl⟩
    obtain ⟨hr0, hty0, w0, hw0, hb0⟩ := hyp h0 ts0 (List.mem_cons_self _ _)
    have same : ∀ h ts', (h, ts') ∈ ((h0, ts0) :: rest) →
        ∃ ts, (h, ts) ∈ ((h0, ts0) :: rest) ∧ ts'.map Task.type = ts.map Task.type ∧
          ∃ w', HostMap.find c.host_controllers_ h = some w' ∧ Bounded w'.queue ts' := by
      intro h ts' hm
      obtain ⟨-, -, w, hw, hb⟩ := hyp h ts' hm
      exact ⟨ts', hm, rfl, w, hw, hb⟩
    unfold schedule_hosts
    split
    · exact ⟨rfl, fun _ _ => rfl, fun _ => rfl, rfl, same⟩
    · -- the host is skipped
      obtain ⟨f2, o2, d2, k2, e2⟩ := ih c hnd'.2
        (fun h ts hm => hyp h ts (List.mem_cons_of_mem _ hm))
      refine ⟨f2, ?_, d2, ?_, ?_⟩
      · intro h hh
        exact o2 h (fun hm => hh (List.mem_cons_of_mem _ hm))
      · show HostMap.keys ((h0, ts0) :: (schedule_hosts intervals now rest c).val) = _
        simp only [HostMap.keys, List.map, List.cons.injEq, true_and] at k2 ⊢
        exact k2
      · intro h ts' hm
        rcases List.mem_cons.mp hm with e | hm'
        · simp only [Prod.mk.injEq] at e
          refine ⟨ts0, ?_, by rw [e.2], w0, ?_, ?_⟩
          · rw [e.1]; exact List.mem_cons_self _ _
          · show HostMap.find (schedule_hosts intervals now rest c).st.host_controllers_ h = _
            rw [e.1, o2 h0 hnd'.1]; exact hw0
          · rw [e.2]; exact hb0
        · obtain ⟨ts, h1, h2, h3⟩ := e2 h ts' hm'
          exact ⟨ts, List.mem_cons_of_mem _ h1, h2, h3⟩
    · -- the slots of the host are swept
      obtain ⟨sf, so, st, sh, sn⟩ := schedule_tasks_spec intervals now h0 ts0 c hr0
      obtain ⟨w1, hw1, -, hb1⟩ := sh w0 hw0 hty0
      have sd : ∀ h, (HostMap.find (schedule_tasks intervals now h0 ts0 c).st.host_controllers_ h).isSome =
          (HostMap.find c.host_controllers_ h).isSome := by
        intro h
        by_cases hh : h = h0
        · rw [hh, hw1, hw0]; rfl
        · rw [so h hh]
      have hyp1 : ∀ h ts, (h, ts) ∈ rest →
          HostMap.find (schedule_tasks intervals now h0 ts0 c).st.periodic_tasks_scheduler_context_.host_controllers_ h =
            some h ∧
          (ts.map Task.type).Nodup ∧
          ∃ w, HostMap.find (schedule_tasks intervals now h0 ts0 c).st.host_controllers_ h = some w ∧
            Bounded w.queue ts := by
        intro h ts hm
        obtain ⟨a1, a2, w, a3, a4⟩ := hyp h ts (List.mem_cons_of_mem _ hm)
        refine ⟨?_, a2, w, ?_, a4⟩
        · rw [sf]; exact a1
        · rw [so h (hne h ts hm)]; exact a3
      split
      · refine ⟨sf, ?_, sd, ?_, ?_⟩
        · intro h hh
          have : h ≠ h0 := by
            intro e
            apply hh
            rw [e]
            simp [HostMap.keys]
          exact so h this
        · rfl
        · intro h ts' hm
          rcases List.mem_cons.mp hm with e | hm'
          · simp only [Prod.mk.injEq] at e
            refine ⟨ts0, ?_, ?_, w1, ?_, ?_⟩
            · rw [e.1]; exact List.mem_cons_self _ _
            · rw [e.2]; exact st
            · rw [e.1]; exact hw1
            · rw [e.2]; exact hb1 hb0
          · obtain ⟨-, -, w, a3, a4⟩ := hyp1 h ts' hm'
            exact ⟨ts', List.mem_cons_of_mem _ hm', rfl, w, a3, a4⟩
      · obtain ⟨f2, o2, d2, k2, e2⟩ := ih (schedule_tasks intervals now h0 ts0 c).st hnd'.2 hyp1
        refine ⟨?_, ?_, ?_, ?_, ?_⟩
        · show (schedule_hosts intervals now rest (schedule_tasks intervals now h0 ts0 c).st).st = _
          rw [f2]
          rw [sf]
        · intro h hh
          have h1 : h ≠ h0 := by
            intro e
            apply hh
            rw [e]
            simp [HostMap.keys]
          have h2 : h ∉ HostMap.keys rest := fun hm => hh (List.mem_cons_of_mem _ hm)
          show HostMap.find (schedule_hosts intervals now rest _).st.host_controllers_ h = _
          rw [o2 h h2, so h h1]
        · intro h
          show (HostMap.find (schedule_hosts intervals now rest _).st.host_controllers_ h).isSome = _
          rw [d2 h, sd h]
        · show HostMap.keys ((h0, _) :: (schedule_hosts intervals now rest _).val) = _
          simp only [HostMap.keys, List.map, List.cons.injEq, true_and] at k2 ⊢
          exact k2
        · intro h ts' hm
          rcases List.mem_cons.mp hm with e | hm'
          · simp only [Prod.mk.injEq] at e
            refine ⟨ts0, ?_, ?_, w1, ?_, ?_⟩
            · rw [e.1]; exact List.mem_cons_self _ _
            · rw [e.2]; exact st
            · show HostMap.find (schedule_hosts intervals now rest _).st.host_controllers_ h = _
              rw [e.1, o2 h0 hnd'.1]; exact hw1
            · rw [e.2]; exact hb1 hb0
          · obtain ⟨ts, h1, h2, h3⟩ := e2 h ts' hm'
            exact ⟨ts, List.mem_cons_of_mem _ h1, h2, h3⟩

theorem PeriodicTask.all_nodup : PeriodicTask.all.Nodup := by decide

theorem HostMap.isSome_find_of_keys {α β : Type} (m : HostMap α) (m' : HostMap β)
    (hk : keys m' = keys m) (h : String) : (find m' h).isSome = (find m h).isSome := by
  have h1 := find_eq_none_iff m h
  have h2 := find_eq_none_iff m' h
  rw [hk] at h2
  cases hm : find m h <;> cases hm' : find m' h <;> simp_all

theorem Inv.pass {c : Controller} (hc : Inv c) (intervals : Intervals) (now : Int) :
    Inv (PeriodicTasksScheduler.pass intervals now c).st := by
  have hyp : ∀ h ts, (h, ts) ∈ c.periodic_tasks_scheduler_context_.tasks_ →
      HostMap.find c.periodic_tasks_scheduler_context_.host_controllers_ h = some h ∧
      (ts.map Task.type).Nodup ∧
      ∃ w, HostMap.find c.host_controllers_ h = some w ∧ Bounded w.queue ts := by
    intro h ts hm
    have ht := HostMap.find_of_mem _ h ts hc.tasks_nodup hm
    have hs : (HostMap.find c.host_controllers_ h).isSome = true := by
      rw [← hc.tasks_dom, ht]; rfl
    obtain ⟨w, hw⟩ := Option.isSome_iff_exists.mp hs
    refine ⟨(hc.present h w hw).2.1, ?_, w, hw, hc.bounded h w ts hw ht⟩
    rw [hc.kinds h ts ht]
    exact PeriodicTask.all_nodup
  obtain ⟨f, -, d, k, e⟩ := PeriodicTasksScheduler.schedule_hosts_spec intervals now
    c.periodic_tasks_scheduler_context_.tasks_ c hc.tasks_nodup hyp
  unfold PeriodicTasksScheduler.pass
  generalize PeriodicTasksScheduler.schedule_hosts intervals now
    c.periodic_tasks_scheduler_context_.tasks_ c = r at f d k e
  have f1 : r.st.configuration_ = c.configuration_ := by rw [f]
  have f2 : r.st.handler_registry_ = c.handler_registry_ := by rw [f]
  constructor
  · intro h
    show (HostMap.find r.val h).isSome = (HostMap.find r.st.host_controllers_ h).isSome
    rw [d h, HostMap.isSome_find_of_keys _ _ k h]
    exact hc.tasks_dom h
  · intro h
    show HostMap.find c.periodic_tasks_scheduler_context_.host_controllers_ h =
      (HostMap.find r.st.host_controllers_ h).map fun _ => h
    rw [hc.refs h]
    have dh := d h
    cases h1 : HostMap.find r.st.host_controllers_ h with
    | none =>
      rw [h1] at dh
      cases h2 : HostMap.find c.host_controllers_ h with
      | none => rfl
      | some x => rw [h2] at dh; simp at dh
    | some y =>
      rw [h1] at dh
      cases h2 : HostMap.find c.host_controllers_ h with
      | none => rw [h2] at dh; simp at dh
      | some x => rfl
  · intro h
    show (HostMap.find c.periodic_tasks_scheduler_context_.states_ h).isSome =
      (HostMap.find r.st.host_controllers_ h).isSome
    rw [d h]; exact hc.states_dom h
  · intro h
    show (HostMap.find r.st.configuration_.host_configurations_ h).isSome =
      (HostMap.find r.st.host_controllers_ h).isSome
    rw [d h, f1]; exact hc.config_dom h
  · show (HostMap.keys r.val).Nodup
    rw [k]; exact hc.tasks_nodup
  · intro h ts' hts'
    obtain ⟨ts, h1, h2, -⟩ := e h ts' (HostMap.mem_of_find _ h ts' hts')
    rw [h2]
    exact hc.kinds h ts (HostMap.find_of_mem _ h ts hc.tasks_nodup h1)
  · intro h w ts' hw hts'
    obtain ⟨ts, -, -, w', h3, h4⟩ := e h ts' (HostMap.mem_of_find _ h ts' hts')
    have hw' : HostMap.find r.st.host_controllers_ h = some w := hw
    rw [h3] at hw'
    simp only [Option.some.injEq] at hw'
    rw [← hw']
    exact h4
  · show r.st.handler_registry_.host_handlers_.Nodup
    rw [f2]; exact hc.handlers_nodup

theorem Inv.iteration {c : Controller} (hc : Inv c) (loc : SchedulerLocals) (now : Int) :
    Inv (PeriodicTasksScheduler.iteration loc now c).st := by
  unfold PeriodicTasksScheduler.iteration
  split
  · exact hc
  · exact hc.pass _ now

/-- Every reachable state satisfies the invariant. -/
theorem Reachable.inv {c : Controller} (h : Reachable c) : Inv c := by
  induction h with
  | init => exact Inv.init
  | register_handler g _ ih => exact ih.register_handler g
  | deregister_handler g _ ih => exact ih.deregister_handler g
  | add_host host url port _ ih => exact ih.add_host host url port
  | authorize_host host password _ ih => exact ih.authorize_host host password
  | remove_host host _ ih => exact ih.remove_host host
  | async_remove_host host _ ih => exact ih.async_remove_host host
  | async_remove_host_ host _ ih => exact ih.async_remove_host_ host
  | periodic_task_interval task interval _ ih => exact ih.periodic_task_interval task interval
  | schedule_periodic_tasks host value _ ih => exact ih.schedule_periodic_tasks host value
  | reschedule_now host task _ ih => exact ih.reschedule_now host task
  | active_only_tasks host value _ ih => exact ih.active_only_tasks host value
  | file_transfer_op host op master_url filename _ ih =>
    exact ih.file_transfer_op host op master_url filename
  | project_op host op master_url _ ih => exact ih.project_op host op master_url
  | task_op host op master_url task_name _ ih => exact ih.task_op host op master_url task_name
  | load_global_preferences host mode _ ih => exact ih.submit host _
  | save_global_preferences host prefs mask _ ih => exact ih.submit host _
  | read_global_prefs_override host _ ih => exact ih.submit host _
  | run_mode host mode _ ih => exact ih.submit host _
  | gpu_mode host mode _ ih => exact ih.submit host _
  | network_mode host mode _ ih => exact ih.submit host _
  | shutdown fuel r _ hr ih => exact ih.shutdown fuel r hr
  | iteration loc now _ ih => exact ih.iteration loc now
  | worker_complete host payload now _ ih => exact ih.worker_complete host payload now

end Woinc

namespace Woinc

/-! ## A shut down controller has no host -/

/-- The property that a controller that is shut down has no host. -/
theorem Controller.no_host_of_eq {c c' : Controller}
    (hc : c.shutdown_ = true → c.host_controllers_ = [])
    (h1 : c'.shutdown_ = c.shutdown_) (h2 : c'.host_controllers_ = c.host_controllers_) :
    c'.shutdown_ = true → c'.host_controllers_ = [] := by
  rw [h1, h2]; exact hc

theorem Controller.remove_host_shutdown (c : Controller) (host : String) :
    (c.remove_host_ host).st.shutdown_ = c.shutdown_ ∧
    (c.host_controllers_ = [] → (c.remove_host_ host).st.host_controllers_ = []) := by
  cases h : HostMap.find c.host_controllers_ host with
  | none =>
    rw [Controller.remove_host_missing c host h]
    exact ⟨rfl, id⟩
  | some w =>
    rw [Controller.remove_host_ok c host w h]
    refine ⟨rfl, ?_⟩
    intro hn
    show HostMap.erase c.host_controllers_ host = []
    rw [hn]; rfl

theorem Controller.remove_all_hosts (fuel : Nat) : ∀ (c : Controller) (r : Ran Controller),
    Controller.remove_all_ fuel c = some r →
    r.out = .returned ∧ r.st.host_controllers_ = [] ∧ r.st.shutdown_ = c.shutdown_ := by
  induction fuel with
  | zero =>
    intro c r h
    unfold Controller.remove_all_ at h
    split at h
    · rename_i hn
      simp only [Option.some.injEq] at h; rw [← h]; exact ⟨rfl, hn, rfl⟩
    · simp at h
  | succ n ih =>
    intro c r h
    unfold Controller.remove_all_ at h
    split at h
    · rename_i hn
      simp only [Option.some.injEq] at h; rw [← h]; exact ⟨rfl, hn, rfl⟩
    · rename_i host w0 rest hm
      have hf : HostMap.find c.host_controllers_ host = some w0 := by
        rw [hm, HostMap.find_cons]; simp
      rw [Controller.remove_host_ok c host w0 hf] at h
      simp only [Option.map_eq_some'] at h
      obtain ⟨r2, hr2, e⟩ := h
      obtain ⟨a1, a2, a3⟩ := ih _ r2 hr2
      rw [← e]
      exact ⟨a1, a2, a3⟩

theorem Controller.shutdown_hosts (c : Controller) (fuel : Nat) (r : Ran Controller)
    (h : c.shutdown fuel = some r) :
    r.out = .returned ∧ r.st.host_controllers_ = [] ∧ r.st.shutdown_ = true := by
  unfold Controller.shutdown at h
  simp only [Option.map_eq_some'] at h
  obtain ⟨r2, hr2, e⟩ := h
  obtain ⟨a1, a2, a3⟩ := Controller.remove_all_hosts fuel _ r2 hr2
  rw [← e]
  refine ⟨a1, a2, ?_⟩
  show r2.st.shutdown_ = true
  rw [a3, Controller.shutdown_begin_eq]

theorem Controller.worker_complete_shutdown (c : Controller) (host : String) (payload : Payload)
    (now : Int) :
    (c.worker_complete host payload now).st.shutdown_ = c.shutdown_ ∧
    (c.host_controllers_ = [] → (c.worker_complete host payload now).st.host_controllers_ = []) := by
  unfold Controller.worker_complete
  split
  · exact ⟨rfl, id⟩
  · rename_i w hw
    have hne : c.host_controllers_ ≠ [] := by
      intro hn
      rw [hn] at hw
      simp [HostMap.find_nil] at hw
    split
    · exact ⟨rfl, id⟩
    · exact ⟨rfl, fun hn => absurd hn hne⟩
    · exact ⟨rfl, fun hn => absurd hn hne⟩

/-- In every reachable state, a controller that is shut down has no host. -/
theorem Reachable.no_host_after_shutdown {c : Controller} (h : Reachable c) :
    c.shutdown_ = true → c.host_controllers_ = [] := by
  have keep_check : ∀ (s : Controller) (str msg : String),
      (s.shutdown_ = true → s.host_controllers_ = []) →
      ((check_not_empty__ str msg s).st.shutdown_ = true →
        (check_not_empty__ str msg s).st.host_controllers_ = []) := by
    intro s str msg hs
    rw [check_not_empty_st]; exact hs
  have keep_vns : ∀ (s : Controller), (s.shutdown_ = true → s.host_controllers_ = []) →
      (s.verify_not_shutdown_.st.shutdown_ = true → s.verify_not_shutdown_.st.host_controllers_ = []) := by
    intro s hs
    rw [Controller.verify_not_shutdown_st]; exact hs
  have keep_vkh : ∀ (s : Controller) (host : String),
      (s.shutdown_ = true → s.host_controllers_ = []) →
      ((s.verify_known_host_ host).st.shutdown_ = true →
        (s.verify_known_host_ host).st.host_controllers_ = []) := by
    intro s host hs
    rw [Controller.verify_known_host_st]; exact hs
  have keep_rm : ∀ (s : Controller) (host : String),
      (s.shutdown_ = true → s.host_controllers_ = []) →
      ((s.remove_host_ host).st.shutdown_ = true → (s.remove_host_ host).st.host_controllers_ = []) := by
    intro s host hs
    obtain ⟨a1, a2⟩ := Controller.remove_host_shutdown s host
    rw [a1]
    exact fun hh => a2 (hs hh)
  have keep_sn : ∀ (s : Controller) (host : String) (job : Job),
      (s.shutdown_ = true → s.host_controllers_ = []) →
      ((s.schedule_now_ host job).st.shutdown_ = true →
        (s.schedule_now_ host job).st.host_controllers_ = []) := by
    intro s host job hs
    unfold Controller.schedule_now_
    split
    · exact hs
    · rename_i hns
      split
      · exact hs
      · intro hh
        exact absurd hh hns
  have keep_sched : ∀ (s : Controller) (r : Ran PeriodicTasksSchedulerContext),
      (s.shutdown_ = true → s.host_controllers_ = []) →
      ((s.on_scheduler r).st.shutdown_ = true → (s.on_scheduler r).st.host_controllers_ = []) :=
    fun s r hs => hs
  have keep_conf : ∀ (s : Controller) (r : Ran Configuration),
      (s.shutdown_ = true → s.host_controllers_ = []) →
      ((s.on_configuration r).st.shutdown_ = true → (s.on_configuration r).st.host_controllers_ = []) :=
    fun s r hs => hs
  have keep_submit : ∀ (s : Controller) (host : String) (cmd : Command),
      (s.shutdown_ = true → s.host_controllers_ = []) →
      (((check_not_empty_host_name__ host s).bind fun c =>
          (c.schedule_now_ host (.promised cmd)).with_future).st.shutdown_ = true →
        ((check_not_empty_host_name__ host s).bind fun c =>
          (c.schedule_now_ host (.promised cmd)).with_future).st.host_controllers_ = []) := by
    intro s host cmd hs
    refine Ran.bind_keeps (fun s : Controller => s.shutdown_ = true → s.host_controllers_ = []) _ _
      (keep_check _ _ _ hs) fun s hs => ?_
    rw [Ran.with_future_st]
    exact keep_sn _ _ _ hs
  induction h with
  | init => intro h; simp [Controller.init] at h
  | register_handler g _ ih => exact ih
  | deregister_handler g _ ih => exact ih
  | @add_host c host url port hr ih =>
    rcases Controller.add_host_st_cases c host url port with h | ⟨-, h3, h⟩
    · rw [h]; exact ih
    · rw [h]
      intro hh
      have : c.shutdown_ = true := hh
      rw [h3] at this
      simp at this
  | authorize_host host password _ ih =>
    unfold Controller.authorize_host
    refine Ran.bind_keeps (fun s : Controller => s.shutdown_ = true → s.host_controllers_ = []) _ _
      (keep_check _ _ _ ih) fun s hs => ?_
    refine Ran.bind_keeps (fun s : Controller => s.shutdown_ = true → s.host_controllers_ = []) _ _
      (keep_check _ _ _ hs) fun s hs => ?_
    refine Ran.bind_keeps (fun s : Controller => s.shutdown_ = true → s.host_controllers_ = []) _ _
      (keep_vns _ hs) fun s hs => ?_
    refine Ran.bind_keeps (fun s : Controller => s.shutdown_ = true → s.host_controllers_ = []) _ _
      (keep_vkh _ _ hs) fun s hs => ?_
    exact hs
  | remove_host host _ ih =>
    unfold Controller.remove_host
    refine Ran.bind_keeps (fun s : Controller => s.shutdown_ = true → s.host_controllers_ = []) _ _
      (keep_check _ _ _ ih) fun s hs => ?_
    refine Ran.bind_keeps (fun s : Controller => s.shutdown_ = true → s.host_controllers_ = []) _ _
      (keep_vns _ hs) fun s hs => ?_
    refine Ran.bind_keeps (fun s : Controller => s.shutdown_ = true → s.host_controllers_ = []) _ _
      (keep_vkh _ _ hs) fun s hs => ?_
    exact keep_rm _ _ hs
  | async_remove_host host _ ih =>
    unfold Controller.async_remove_host
    refine Ran.bind_keeps (fun s : Controller => s.shutdown_ = true → s.host_controllers_ = []) _ _
      (keep_check _ _ _ ih) fun s hs => ?_
    exact hs
  | async_remove_host_ host _ ih =>
    unfold Controller.async_remove_host_
    refine Ran.bind_keeps (fun s : Controller => s.shutdown_ = true → s.host_controllers_ = []) _ _
      (keep_vns _ ih) fun s hs => ?_
    exact keep_rm _ _ hs
  | periodic_task_interval task interval _ ih => exact ih
  | schedule_periodic_tasks host value _ ih =>
    unfold Controller.schedule_periodic_tasks
    refine Ran.bind_keeps (fun s : Controller => s.shutdown_ = true → s.host_controllers_ = []) _ _
      (keep_check _ _ _ ih) fun s hs => ?_
    refine Ran.bind_keeps (fun s : Controller => s.shutdown_ = true → s.host_controllers_ = []) _ _
      (keep_vns _ hs) fun s hs => ?_
    refine Ran.bind_keeps (fun s : Controller => s.shutdown_ = true → s.host_controllers_ = []) _ _
      (keep_vkh _ _ hs) fun s hs => ?_
    exact keep_conf _ _ hs
  | reschedule_now host task _ ih =>
    unfold Controller.reschedule_now
    refine Ran.bind_keeps (fun s : Controller => s.shutdown_ = true → s.host_controllers_ = []) _ _
      (keep_check _ _ _ ih) fun s hs => ?_
    refine Ran.bind_keeps (fun s : Controller => s.shutdown_ = true → s.host_controllers_ = []) _ _
      (keep_vns _ hs) fun s hs => ?_
    refine Ran.bind_keeps (fun s : Controller => s.shutdown_ = true → s.host_controllers_ = []) _ _
      (keep_vkh _ _ hs) fun s hs => ?_
    exact keep_sched _ _ hs
  | active_only_tasks host value _ ih =>
    unfold Controller.active_only_tasks
    refine Ran.bind_keeps (fun s : Controller => s.shutdown_ = true → s.host_controllers_ = []) _ _
      (keep_check _ _ _ ih) fun s hs => ?_
    refine Ran.bind_keeps (fun s : Controller => s.shutdown_ = true → s.host_controllers_ = []) _ _
      (keep_vns _ hs) fun s hs => ?_
    refine Ran.bind_keeps (fun s : Controller => s.shutdown_ = true → s.host_controllers_ = []) _ _
      (keep_vkh _ _ hs) fun s hs => ?_
    refine Ran.bind_keeps (fun s : Controller => s.shutdown_ = true → s.host_controllers_ = []) _ _
      (keep_conf _ _ hs) fun s hs => ?_
    exact keep_sched _ _ hs
  | file_transfer_op host op master_url filename _ ih =>
    unfold Controller.file_transfer_op
    refine Ran.bind_keeps (fun s : Controller => s.shutdown_ = true → s.host_controllers_ = []) _ _
      (keep_check _ _ _ ih) fun s hs => ?_
    refine Ran.bind_keeps (fun s : Controller => s.shutdown_ = true → s.host_controllers_ = []) _ _
      (keep_check _ _ _ hs) fun s hs => ?_
    refine Ran.bind_keeps (fun s : Controller => s.shutdown_ = true → s.host_controllers_ = []) _ _
      (keep_check _ _ _ hs) fun s hs => ?_
    rw [Ran.with_future_st]
    refine Ran.bind_keeps (fun s : Controller => s.shutdown_ = true → s.host_controllers_ = []) _ _
      (keep_sn _ _ _ hs) fun s hs => ?_
    exact keep_sched _ _ hs
  | project_op host op master_url _ ih =>
    unfold Controller.project_op
    refine Ran.bind_keeps (fun s : Controller => s.shutdown_ = true → s.host_controllers_ = []) _ _
      (keep_check _ _ _ ih) fun s hs => ?_
    refine Ran.bind_keeps (fun s : Controller => s.shutdown_ = true → s.host_controllers_ = []) _ _
      (keep_check _ _ _ hs) fun s hs => ?_
    rw [Ran.with_future_st]
    refine Ran.bind_keeps (fun s : Controller => s.shutdown_ = true → s.host_controllers_ = []) _ _
      (keep_sn _ _ _ hs) fun s hs => ?_
    exact keep_sched _ _ hs
  | task_op host op master_url task_name _ ih =>
    unfold Controller.task_op
    refine Ran.bind_keeps (fun s : Controller => s.shutdown_ = true → s.host_controllers_ = []) _ _
      (keep_check _ _ _ ih) fun s hs => ?_
    refine Ran.bind_keeps (fun s : Controller => s.shutdown_ = true → s.host_controllers_ = []) _ _
      (keep_check _ _ _ hs) fun s hs => ?_
    refine Ran.bind_keeps (fun s : Controller => s.shutdown_ = true → s.host_controllers_ = []) _ _
      (keep_check _ _ _ hs) fun s hs => ?_
    rw [Ran.with_future_st]
    refine Ran.bind_keeps (fun s : Controller => s.shutdown_ = true → s.host_controllers_ = []) _ _
      (keep_sn _ _ _ hs) fun s hs => ?_
    exact keep_sched _ _ hs
  | load_global_preferences host mode _ ih => exact keep_submit _ _ _ ih
  | save_global_preferences host prefs mask _ ih => exact keep_submit _ _ _ ih
  | read_global_prefs_override host _ ih => exact keep_submit _ _ _ ih
  | run_mode host mode _ ih => exact keep_submit _ _ _ ih
  | gpu_mode host mode _ ih => exact keep_submit _ _ _ ih
  | network_mode host mode _ ih => exact keep_submit _ _ _ ih
  | shutdown fuel r _ hr _ =>
    intro _
    exact (Controller.shutdown_hosts _ fuel r hr).2.1
  | @iteration c loc now hr ih =>
    unfold PeriodicTasksScheduler.iteration
    split
    · exact ih
    · have hc := hr.inv
      have hyp : ∀ h ts, (h, ts) ∈ c.periodic_tasks_scheduler_context_.tasks_ →
          HostMap.find c.periodic_tasks_scheduler_context_.host_controllers_ h = some h ∧
          (ts.map Task.type).Nodup ∧
          ∃ w, HostMap.find c.host_controllers_ h = some w ∧ Bounded w.queue ts := by
        intro h ts hm
        have ht := HostMap.find_of_mem _ h ts hc.tasks_nodup hm
        have hs : (HostMap.find c.host_controllers_ h).isSome = true := by
          rw [← hc.tasks_dom, ht]; rfl
        obtain ⟨w, hw⟩ := Option.isSome_iff_exists.mp hs
        refine ⟨(hc.present h w hw).2.1, ?_, w, hw, hc.bounded h w ts hw ht⟩
        rw [hc.kinds h ts ht]
        exact PeriodicTask.all_nodup
      obtain ⟨f, -, d, -, -⟩ := PeriodicTasksScheduler.schedule_hosts_spec
        (PeriodicTasksScheduler.refresh loc c).intervals now
        c.periodic_tasks_scheduler_context_.tasks_ c hc.tasks_nodup hyp
      unfold PeriodicTasksScheduler.pass
      generalize PeriodicTasksScheduler.schedule_hosts (PeriodicTasksScheduler.refresh loc c).intervals
        now c.periodic_tasks_scheduler_context_.tasks_ c = r at f d
      intro hh
      have h1 : r.st.shutdown_ = c.shutdown_ := by rw [f]
      have h2 : c.host_controllers_ = [] := ih (h1 ▸ hh)
      show r.st.host_controllers_ = []
      apply HostMap.eq_nil_of_find
      intro h
      have := d h
      rw [h2] at this
      exact Option.not_isSome_iff_eq_none.mp (by simp [this, HostMap.find_nil])
  | @worker_complete c host payload now _ ih =>
    obtain ⟨a1, a2⟩ := Controller.worker_complete_shutdown c host payload now
    rw [a1]
    exact fun hh => a2 (ih hh)

end Woinc

namespace Woinc

/-! ## Closed forms of the guards -/

theorem check_not_empty_bind {σ : Type} (str msg : String) (s : σ) (f : σ → Ran σ) :
    (check_not_empty__ str msg s).bind f =
      if str = "" then Ran.raise (.invalid_argument msg) s else f s := by
  unfold check_not_empty__
  split
  · rfl
  · simp [Ran.bind_ret]

theorem check_not_empty_host_name_bind {σ : Type} (host : String) (s : σ) (f : σ → Ran σ) :
    (check_not_empty_host_name__ host s).bind f =
      if host = "" then Ran.raise (.invalid_argument "Missing host name") s else f s :=
  check_not_empty_bind _ _ _ _

theorem Controller.verify_not_shutdown_bind (c : Controller) (f : Controller → Ran Controller) :
    c.verify_not_shutdown_.bind f =
      if c.shutdown_ = true then Ran.raise .ShutdownException c else f c := by
  unfold Controller.verify_not_shutdown_
  split
  · rfl
  · simp [Ran.bind_ret]

theorem Controller.verify_known_host_bind (c : Controller) (host : String)
    (f : Controller → Ran Controller) :
    (c.verify_known_host_ host).bind f =
      if HostMap.find c.host_controllers_ host = none then Ran.raise (.UnknownHostException host) c
      else f c := by
  unfold Controller.verify_known_host_ Controller.has_host_
  cases h : HostMap.find c.host_controllers_ host with
  | none => simp [Ran.bind_raise]
  | some w => simp [Ran.bind_ret]

theorem Ran.with_future_raise {σ : Type} (e : Exn) (s : σ) :
    (Ran.raise e s).with_future = Ran.raise e s := rfl

theorem PeriodicTask.mem_all (k : PeriodicTask) : k ∈ PeriodicTask.all := by
  cases k <;> decide

/-! ## C1: at most one periodic job per host and kind -/

/-- Claim C1: in every state reachable through the calls of the facade, the scheduler
passes and the job completions, on every registered host and for every kind, at most one
periodic job of that kind is queued or in flight, and there is one only while the slot of
that kind of the host is pending. -/
theorem periodic_job_at_most_one (c : Controller) (hr : Reachable c) (h : String)
    (w : HostController) (hw : HostMap.find c.host_controllers_ h = some w) (k : PeriodicTask) :
    periodic_count k w.queue ≤ 1 ∧
    (periodic_count k w.queue = 1 →
      ∃ t, c.periodic_tasks_scheduler_context_.slot h k = some t ∧ t.pending = true) := by
  have hc := hr.inv
  obtain ⟨⟨tasks, ht⟩, -, -, -⟩ := hc.present h w hw
  have hb := hc.bounded h w tasks hw ht
  have hk : k ∈ tasks.map Task.type := by
    rw [hc.kinds h tasks ht]; exact PeriodicTask.mem_all k
  obtain ⟨t0, ht0, hty0⟩ := List.mem_map.mp hk
  unfold PeriodicTasksSchedulerContext.slot
  rw [ht]
  cases hf : tasks.find? (fun t => decide (t.type = k)) with
  | none =>
    have := List.find?_eq_none.mp hf t0 ht0
    simp [hty0] at this
  | some t =>
    have hp : t.type = k := by simpa using List.find?_some hf
    have hm := List.mem_of_find?_eq_some hf
    have hbt := hb t hm
    rw [hp] at hbt
    constructor
    · refine le_trans hbt ?_
      split <;> simp
    · intro h1
      refine ⟨t, hf, ?_⟩
      rw [h1] at hbt
      by_contra hn
      simp [hn] at hbt

/-- The witness of C1: a host added, enabled and swept once by the scheduler has one job
of kind `GET_TASKS` in its queue, and the slot of that kind is pending. -/
theorem periodic_job_at_most_one_witness :
    periodic_count .GET_TASKS
        (PeriodicTask.all.map fun k => Job.periodic { task := k, payload := Payload.new }) ≤ 1 ∧
    (periodic_count .GET_TASKS
        (PeriodicTask.all.map fun k => Job.periodic { task := k, payload := Payload.new }) = 1 →
      ∃ t, (PeriodicTasksScheduler.iteration { cache_counter := 0, intervals := Intervals.default } 0
          ((Controller.init.add_host "h" "u" 1).st.schedule_periodic_tasks "h" true).st
        ).st.periodic_tasks_scheduler_context_.slot "h" .GET_TASKS = some t ∧ t.pending = true) :=
  periodic_job_at_most_one _
    (Reachable.iteration { cache_counter := 0, intervals := Intervals.default } 0
      (Reachable.schedule_periodic_tasks "h" true (Reachable.add_host "h" "u" 1 Reachable.init)))
    "h" { queue := PeriodicTask.all.map fun k => Job.periodic { task := k, payload := Payload.new } }
    (by decide) .GET_TASKS

/-! ## C2: a duplicate `add_host` -/

/-- Claim C2, as the code has it: on a reachable controller, `add_host(id, url, port)`
with non-empty id and url for an id already registered raises synchronously
`std::invalid_argument` with the message `Host "id" already registered.`, the exception
class of the empty-argument errors, and changes nothing: the state is the state before
the call and no call (no configuration or scheduler change, no `on_host_added`, no
connect thread) has been made. -/
theorem add_host_duplicate (c : Controller) (hr : Reachable c) (host url : String) (port : Nat)
    (hid : host ≠ "") (hurl : url ≠ "") (hreg : c.has_host_ host = true) :
    c.add_host host url port =
      { out := .raised (.invalid_argument ("Host \"" ++ host ++ "\" already registered."))
        st := c
        calls := [] } := by
  have hsd : c.shutdown_ = false := by
    by_contra hn
    rw [Bool.not_eq_false] at hn
    have := hr.no_host_after_shutdown hn
    unfold Controller.has_host_ at hreg
    rw [this] at hreg
    simp [HostMap.find_nil] at hreg
  unfold Controller.add_host
  rw [check_not_empty_host_name_bind, if_neg hid, check_not_empty_bind, if_neg hurl,
    Controller.verify_not_shutdown_bind, hsd]
  simp only [Bool.false_eq_true, if_false, hreg, if_true, Ran.bind_raise]
  rfl

/-- The witness of C2: the second `add_host("h", …)`. -/
theorem add_host_duplicate_witness :
    (Controller.init.add_host "h" "u" 1).st.add_host "h" "u" 1 =
      { out := .raised (.invalid_argument ("Host \"" ++ "h" ++ "\" already registered."))
        st := (Controller.init.add_host "h" "u" 1).st
        calls := [] } :=
  add_host_duplicate _ (Reachable.add_host "h" "u" 1 Reachable.init) "h" "u" 1
    (by decide) (by decide) (by decide)

/-- The counterexample to C2 as stated: the error of the duplicate `add_host` is not of a
class of its own, it is a `std::invalid_argument` like the error of an empty host name. -/
theorem add_host_duplicate_counterexample :
    ((Controller.init.add_host "h" "u" 1).st.add_host "h" "u" 1).out =
      .raised (.invalid_argument "Host \"h\" already registered.") ∧
    (Controller.init.add_host "" "u" 1).out = .raised (.invalid_argument "Missing host name") := by
  decide

end Woinc

namespace Woinc

/-! ## C3: a successful `add_host` -/

/-- Claim C3: on a reachable controller that is not shut down, `add_host(id, url, port)`
with non-empty id and url for an id not yet registered returns normally; afterwards
`has_host(id)` holds, `on_host_added(id)` has been delivered exactly once to each
registered host handler (and to no other), and the scheduler holds for id exactly the
nine slots, one per kind in the order of the enumeration, each with
`last_execution = time_point::min()` and `pending = false`, and a zeroed poll state. -/
theorem add_host_fresh (c : Controller) (hr : Reachable c) (host url : String) (port : Nat)
    (hid : host ≠ "") (hurl : url ≠ "") (hsd : c.shutdown_ = false)
    (hnew : c.has_host_ host = false) :
    (c.add_host host url port).out = .returned ∧
    (c.add_host host url port).st.has_host_ host = true ∧
    (∀ g, (c.add_host host url port).calls.count (Call.on_host_added g host) =
      if g ∈ c.handler_registry_.host_handlers_ then 1 else 0) ∧
    HostMap.find (c.add_host host url port).st.periodic_tasks_scheduler_context_.tasks_ host =
      some (PeriodicTask.all.map fun k =>
        { type := k, last_execution := time_point_min, pending := false }) ∧
    HostMap.find (c.add_host host url port).st.periodic_tasks_scheduler_context_.states_ host =
      some { messages_seqno := 0, notices_seqno := 0 } := by
  have hc := hr.inv
  have h4 : HostMap.find c.host_controllers_ host = none := by
    unfold Controller.has_host_ at hnew
    exact Option.not_isSome_iff_eq_none.mp (by simp [hnew])
  obtain ⟨a1, -, a3, -⟩ := hc.absent host h4
  rw [Controller.add_host_ok c host url port hid hurl hsd h4]
  refine ⟨rfl, ?_, ?_, ?_, ?_⟩
  · show (HostMap.find (HostMap.emplace c.host_controllers_ host HostController.new) host).isSome = true
    rw [HostMap.find_emplace]; simp
  · intro g
    have hinj : Function.Injective fun g => Call.on_host_added g host := by
      intro x y hxy
      simpa using hxy
    simp only [List.count_append, List.count_cons, List.count_nil, beq_iff_eq, zero_add,
      reduceCtorEq, if_false, add_zero]
    by_cases hg : g ∈ c.handler_registry_.host_handlers_
    · rw [if_pos hg]
      exact List.count_eq_one_of_mem (hc.handlers_nodup.map hinj) (List.mem_map.mpr ⟨g, hg, rfl⟩)
    · rw [if_neg hg]
      apply List.count_eq_zero_of_not_mem
      intro hm
      obtain ⟨g', hg', e⟩ := List.mem_map.mp hm
      simp only [Call.on_host_added.injEq, and_true] at e
      exact hg (e ▸ hg')
  · show HostMap.find (HostMap.emplace c.periodic_tasks_scheduler_context_.tasks_ host _) host = _
    rw [HostMap.find_emplace, a1, if_pos rfl]
    rfl
  · show HostMap.find (HostMap.emplace c.periodic_tasks_scheduler_context_.states_ host _) host = _
    rw [HostMap.find_emplace, a3, if_pos rfl]
    rfl

/-- The witness of C3: the first `add_host("h", …)` on a fresh controller with one
registered host handler. -/
theorem add_host_fresh_witness :
    ((Controller.init.register_handler 7).st.add_host "h" "u" 1).out = .returned ∧
    ((Controller.init.register_handler 7).st.add_host "h" "u" 1).st.has_host_ "h" = true ∧
    (∀ g, ((Controller.init.register_handler 7).st.add_host "h" "u" 1).calls.count
        (Call.on_host_added g "h") =
      if g ∈ (Controller.init.register_handler 7).st.handler_registry_.host_handlers_ then 1 else 0) ∧
    HostMap.find ((Controller.init.register_handler 7).st.add_host "h" "u" 1
        ).st.periodic_tasks_scheduler_context_.tasks_ "h" =
      some (PeriodicTask.all.map fun k =>
        { type := k, last_execution := time_point_min, pending := false }) ∧
    HostMap.find ((Controller.init.register_handler 7).st.add_host "h" "u" 1
        ).st.periodic_tasks_scheduler_context_.states_ "h" =
      some { messages_seqno := 0, notices_seqno := 0 } :=
  add_host_fresh _ (Reachable.register_handler 7 Reachable.init) "h" "u" 1
    (by decide) (by decide) (by decide) (by decide)

/-! ## C4: empty strings -/

/-- Claim C4: every entry point of the facade that takes a host name or another string
raises `std::invalid_argument` when one of these strings is empty, in every state of the
controller (shut down or not, host known or not), leaves the state as it was and makes no
call: no job is enqueued, nothing is broadcast. -/
theorem empty_string_invalid_argument (c : Controller) (host url password master_url filename
    task_name : String) (port op mode prefs mask : Nat) (value : Bool) (task : PeriodicTask) :
    (∃ msg, c.add_host "" url port = Ran.raise (.invalid_argument msg) c) ∧
    (∃ msg, c.add_host host "" port = Ran.raise (.invalid_argument msg) c) ∧
    (∃ msg, c.authorize_host "" password = Ran.raise (.invalid_argument msg) c) ∧
    (∃ msg, c.authorize_host host "" = Ran.raise (.invalid_argument msg) c) ∧
    (∃ msg, c.remove_host "" = Ran.raise (.invalid_argument msg) c) ∧
    (∃ msg, c.async_remove_host "" = Ran.raise (.invalid_argument msg) c) ∧
    (∃ msg, c.schedule_periodic_tasks "" value = Ran.raise (.invalid_argument msg) c) ∧
    (∃ msg, c.reschedule_now "" task = Ran.raise (.invalid_argument msg) c) ∧
    (∃ msg, c.active_only_tasks "" value = Ran.raise (.invalid_argument msg) c) ∧
    (∃ msg, c.file_transfer_op "" op master_url filename = Ran.raise (.invalid_argument msg) c) ∧
    (∃ msg, c.file_transfer_op host op "" filename = Ran.raise (.invalid_argument msg) c) ∧
    (∃ msg, c.file_transfer_op host op master_url "" = Ran.raise (.invalid_argument msg) c) ∧
    (∃ msg, c.project_op "" op master_url = Ran.raise (.invalid_argument msg) c) ∧
    (∃ msg, c.project_op host op "" = Ran.raise (.invalid_argument msg) c) ∧
    (∃ msg, c.task_op "" op master_url task_name = Ran.raise (.invalid_argument msg) c) ∧
    (∃ msg, c.task_op host op "" task_name = Ran.raise (.invalid_argument msg) c) ∧
    (∃ msg, c.task_op host op master_url "" = Ran.raise (.invalid_argument msg) c) ∧
    (∃ msg, c.load_global_preferences "" mode = Ran.raise (.invalid_argument msg) c) ∧
    (∃ msg, c.save_global_preferences "" prefs mask = Ran.raise (.invalid_argument msg) c) ∧
    (∃ msg, c.read_global_prefs_override "" = Ran.raise (.invalid_argument msg) c) ∧
    (∃ msg, c.run_mode "" mode = Ran.raise (.invalid_argument msg) c) ∧
    (∃ msg, c.gpu_mode "" mode = Ran.raise (.invalid_argument msg) c) ∧
    (∃ msg, c.network_mode "" mode = Ran.raise (.invalid_argument msg) c) := by
  have first : ∀ (f : Controller → Ran Controller),
      ∃ msg, (check_not_empty_host_name__ "" c).bind f = Ran.raise (.invalid_argument msg) c := by
    intro f
    exact ⟨_, by rw [check_not_empty_host_name_bind, if_pos rfl]⟩
  have second : ∀ (m : String) (f : Controller → Ran Controller),
      ∃ msg, ((check_not_empty_host_name__ host c).bind fun c =>
        (check_not_empty__ "" m c).bind f) = Ran.raise (.invalid_argument msg) c := by
    intro m f
    rw [check_not_empty_host_name_bind]
    by_cases hh : host = ""
    · exact ⟨_, by rw [if_pos hh]⟩
    · exact ⟨_, by rw [if_neg hh, check_not_empty_bind, if_pos rfl]⟩
  have third : ∀ (m1 m2 : String) (f : Controller → Ran Controller),
      ∃ msg, ((check_not_empty_host_name__ host c).bind fun c =>
        (check_not_empty__ master_url m1 c).bind fun c =>
        (check_not_empty__ "" m2 c).bind f) = Ran.raise (.invalid_argument msg) c := by
    intro m1 m2 f
    rw [check_not_empty_host_name_bind]
    by_cases hh : host = ""
    · exact ⟨_, by rw [if_pos hh]⟩
    · rw [if_neg hh, check_not_empty_bind]
      by_cases hm : master_url = ""
      · exact ⟨_, by rw [if_pos hm]⟩
      · exact ⟨_, by rw [if_neg hm, check_not_empty_bind, if_pos rfl]⟩
  exact ⟨first _, second _ _, first _, second _ _, first _, first _, first _, first _, first _,
    first _, second _ _, third _ _ _, first _, second _ _, first _, second _ _, third _ _ _,
    first _, first _, first _, first _, first _, first _⟩

end Woinc

namespace Woinc

/-! ## C5: a command on an unknown host -/

theorem Controller.schedule_now_unknown (c : Controller) (host : String) (job : Job)
    (hsd : c.shutdown_ = false) (hun : c.has_host_ host = false) :
    c.schedule_now_ host job = Ran.raise (.UnknownHostException host) c := by
  have h4 : HostMap.find c.host_controllers_ host = none := by
    unfold Controller.has_host_ at hun
    exact Option.not_isSome_iff_eq_none.mp (by simp [hun])
  unfold Controller.schedule_now_
  simp [hsd, h4]

theorem Controller.schedule_now_shutdown (c : Controller) (host : String) (job : Job)
    (hsd : c.shutdown_ = true) :
    c.schedule_now_ host job = Ran.raise .ShutdownException c := by
  unfold Controller.schedule_now_
  simp [hsd]

/-- Claim C5, as the code has it: each command operation called with non-empty arguments
on a host that is not registered, the controller not being shut down, raises
`UnknownHostException` synchronously (`schedule_now_` deletes the job and rethrows, so no
future is returned); the state is unchanged and no call has been made: no job is
enqueued and no scheduler slot is nudged. -/
theorem command_unknown_host (c : Controller) (host master_url filename task_name : String)
    (op mode prefs mask : Nat) (hsd : c.shutdown_ = false) (hun : c.has_host_ host = false)
    (hh : host ≠ "") (hm : master_url ≠ "") (hf : filename ≠ "") (ht : task_name ≠ "") :
    c.file_transfer_op host op master_url filename = Ran.raise (.UnknownHostException host) c ∧
    c.project_op host op master_url = Ran.raise (.UnknownHostException host) c ∧
    c.task_op host op master_url task_name = Ran.raise (.UnknownHostException host) c ∧
    c.load_global_preferences host mode = Ran.raise (.UnknownHostException host) c ∧
    c.save_global_preferences host prefs mask = Ran.raise (.UnknownHostException host) c ∧
    c.read_global_prefs_override host = Ran.raise (.UnknownHostException host) c ∧
    c.run_mode host mode = Ran.raise (.UnknownHostException host) c ∧
    c.gpu_mode host mode = Ran.raise (.UnknownHostException host) c ∧
    c.network_mode host mode = Ran.raise (.UnknownHostException host) c := by
  have hs := fun job => Controller.schedule_now_unknown c host job hsd hun
  refine ⟨?_, ?_, ?_, ?_, ?_, ?_, ?_, ?_, ?_⟩
  · unfold Controller.file_transfer_op
    rw [check_not_empty_host_name_bind, if_neg hh, check_not_empty_bind, if_neg hm,
      check_not_empty_bind, if_neg hf, hs, Ran.bind_raise, Ran.with_future_raise]
  · unfold Controller.project_op
    rw [check_not_empty_host_name_bind, if_neg hh, check_not_empty_bind, if_neg hm,
      hs, Ran.bind_raise, Ran.with_future_raise]
  · unfold Controller.task_op
    rw [check_not_empty_host_name_bind, if_neg hh, check_not_empty_bind, if_neg hm,
      check_not_empty_bind, if_neg ht, hs, Ran.bind_raise, Ran.with_future_raise]
  · unfold Controller.load_global_preferences
    rw [check_not_empty_host_name_bind, if_neg hh, hs, Ran.with_future_raise]
  · unfold Controller.save_global_preferences
    rw [check_not_empty_host_name_bind, if_neg hh, hs, Ran.with_future_raise]
  · unfold Controller.read_global_prefs_override
    rw [check_not_empty_host_name_bind, if_neg hh, hs, Ran.with_future_raise]
  · unfold Controller.run_mode
    rw [check_not_empty_host_name_bind, if_neg hh, hs, Ran.with_future_raise]
  · unfold Controller.gpu_mode
    rw [check_not_empty_host_name_bind, if_neg hh, hs, Ran.with_future_raise]
  · unfold Controller.network_mode
    rw [check_not_empty_host_name_bind, if_neg hh, hs, Ran.with_future_raise]

/-- The witness of C5: the command operations on the host "h" of a fresh controller. -/
theorem command_unknown_host_witness :
    Controller.init.file_transfer_op "h" 1 "u" "f" = Ran.raise (.UnknownHostException "h") Controller.init ∧
    Controller.init.project_op "h" 1 "u" = Ran.raise (.UnknownHostException "h") Controller.init ∧
    Controller.init.task_op "h" 1 "u" "t" = Ran.raise (.UnknownHostException "h") Controller.init ∧
    Controller.init.load_global_preferences "h" 1 = Ran.raise (.UnknownHostException "h") Controller.init ∧
    Controller.init.save_global_preferences "h" 1 1 = Ran.raise (.UnknownHostException "h") Controller.init ∧
    Controller.init.read_global_prefs_override "h" = Ran.raise (.UnknownHostException "h") Controller.init ∧
    Controller.init.run_mode "h" 1 = Ran.raise (.UnknownHostException "h") Controller.init ∧
    Controller.init.gpu_mode "h" 1 = Ran.raise (.UnknownHostException "h") Controller.init ∧
    Controller.init.network_mode "h" 1 = Ran.raise (.UnknownHostException "h") Controller.init :=
  command_unknown_host Controller.init "h" "u" "f" "t" 1 1 1 1 (by decide) (by decide)
    (by decide) (by decide) (by decide) (by decide)

/-- The counterexample to C5 as stated: `task_op` on an unregistered host of a fresh
controller does not return a future failed with `UnknownHost`, it raises
`UnknownHostException` to the caller; and on a controller that is shut down the same call
raises `ShutdownException`. -/
theorem command_unknown_host_counterexample :
    (Controller.init.task_op "h" 1 "u" "t").out = .raised (.UnknownHostException "h") ∧
    (Controller.init.task_op "h" 1 "u" "t").out ≠
      .returned_future (.failed (.UnknownHostException "h")) ∧
    ((Controller.init.shutdown 0).map fun r => (r.st.task_op "h" 1 "u" "t").out) =
      some (.raised .ShutdownException) := by
  decide

/-! ## C6: after `shutdown` -/

/-- Claim C6: after `shutdown()` has returned, every operation of the facade that takes a
host, called with non-empty arguments, raises `ShutdownException` (not
`UnknownHostException`); the state is unchanged and no call has been made, so no job is
accepted and the host map, the scheduler tables and the configuration stay as they were. -/
theorem after_shutdown (c0 : Controller) (fuel : Nat) (r : Ran Controller)
    (hs : c0.shutdown fuel = some r)
    (host url password master_url filename task_name : String)
    (port op mode prefs mask : Nat) (value : Bool) (task : PeriodicTask)
    (hh : host ≠ "") (hu : url ≠ "") (hp : password ≠ "") (hm : master_url ≠ "")
    (hf : filename ≠ "") (ht : task_name ≠ "") :
    r.st.add_host host url port = Ran.raise .ShutdownException r.st ∧
    r.st.authorize_host host password = Ran.raise .ShutdownException r.st ∧
    r.st.remove_host host = Ran.raise .ShutdownException r.st ∧
    r.st.schedule_periodic_tasks host value = Ran.raise .ShutdownException r.st ∧
    r.st.reschedule_now host task = Ran.raise .ShutdownException r.st ∧
    r.st.active_only_tasks host value = Ran.raise .ShutdownException r.st ∧
    r.st.file_transfer_op host op master_url filename = Ran.raise .ShutdownException r.st ∧
    r.st.project_op host op master_url = Ran.raise .ShutdownException r.st ∧
    r.st.task_op host op master_url task_name = Ran.raise .ShutdownException r.st ∧
    r.st.load_global_preferences host mode = Ran.raise .ShutdownException r.st ∧
    r.st.save_global_preferences host prefs mask = Ran.raise .ShutdownException r.st ∧
    r.st.read_global_prefs_override host = Ran.raise .ShutdownException r.st ∧
    r.st.run_mode host mode = Ran.raise .ShutdownException r.st ∧
    r.st.gpu_mode host mode = Ran.raise .ShutdownException r.st ∧
    r.st.network_mode host mode = Ran.raise .ShutdownException r.st := by
  have hsd : r.st.shutdown_ = true := (Controller.shutdown_hosts c0 fuel r hs).2.2
  generalize r.st = c at hsd
  have hj := fun job => Controller.schedule_now_shutdown c host job hsd
  refine ⟨?_, ?_, ?_, ?_, ?_, ?_, ?_, ?_, ?_, ?_, ?_, ?_, ?_, ?_, ?_⟩
  · unfold Controller.add_host
    rw [check_not_empty_host_name_bind, if_neg hh, check_not_empty_bind, if_neg hu,
      Controller.verify_not_shutdown_bind, if_pos hsd]
  · unfold Controller.authorize_host
    rw [check_not_empty_host_name_bind, if_neg hh, check_not_empty_bind, if_neg hp,
      Controller.verify_not_shutdown_bind, if_pos hsd]
  · unfold Controller.remove_host
    rw [check_not_empty_host_name_bind, if_neg hh, Controller.verify_not_shutdown_bind,
      if_pos hsd]
  · unfold Controller.schedule_periodic_tasks
    rw [check_not_empty_host_name_bind, if_neg hh, Controller.verify_not_shutdown_bind,
      if_pos hsd]
  · unfold Controller.reschedule_now
    rw [check_not_empty_host_name_bind, if_neg hh, Controller.verify_not_shutdown_bind,
      if_pos hsd]
  · unfold Controller.active_only_tasks
    rw [check_not_empty_host_name_bind, if_neg hh, Controller.verify_not_shutdown_bind,
      if_pos hsd]
  · unfold Controller.file_transfer_op
    rw [check_not_empty_host_name_bind, if_neg hh, check_not_empty_bind, if_neg hm,
      check_not_empty_bind, if_neg hf, hj, Ran.bind_raise, Ran.with_future_raise]
  · unfold Controller.project_op
    rw [check_not_empty_host_name_bind, if_neg hh, check_not_empty_bind, if_neg hm,
      hj, Ran.bind_raise, Ran.with_future_raise]
  · unfold Controller.task_op
    rw [check_not_empty_host_name_bind, if_neg hh, check_not_empty_bind, if_neg hm,
      check_not_empty_bind, if_neg ht, hj, Ran.bind_raise, Ran.with_future_raise]
  · unfold Controller.load_global_preferences
    rw [check_not_empty_host_name_bind, if_neg hh, hj, Ran.with_future_raise]
  · unfold Controller.save_global_preferences
    rw [check_not_empty_host_name_bind, if_neg hh, hj, Ran.with_future_raise]
  · unfold Controller.read_global_prefs_override
    rw [check_not_empty_host_name_bind, if_neg hh, hj, Ran.with_future_raise]
  · unfold Controller.run_mode
    rw [check_not_empty_host_name_bind, if_neg hh, hj, Ran.with_future_raise]
  · unfold Controller.gpu_mode
    rw [check_not_empty_host_name_bind, if_neg hh, hj, Ran.with_future_raise]
  · unfold Controller.network_mode
    rw [check_not_empty_host_name_bind, if_neg hh, hj, Ran.with_future_raise]

/-- The witness of C6: the operations on the host "h" after the shutdown of a controller
that had this host. -/
theorem after_shutdown_witness :
    (Controller.remove_host_ (Controller.init.add_host "h" "u" 1).st.shutdown_begin_.st "h").st.add_host "h" "u" 1 = Ran.raise .ShutdownException (Controller.remove_host_ (Controller.init.add_host "h" "u" 1).st.shutdown_begin_.st "h").st ∧
    (Controller.remove_host_ (Controller.init.add_host "h" "u" 1).st.shutdown_begin_.st "h").st.authorize_host "h" "p" = Ran.raise .ShutdownException (Controller.remove_host_ (Controller.init.add_host "h" "u" 1).st.shutdown_begin_.st "h").st ∧
    (Controller.remove_host_ (Controller.init.add_host "h" "u" 1).st.shutdown_begin_.st "h").st.remove_host "h" = Ran.raise .ShutdownException (Controller.remove_host_ (Controller.init.add_host "h" "u" 1).st.shutdown_begin_.st "h").st ∧
    (Controller.remove_host_ (Controller.init.add_host "h" "u" 1).st.shutdown_begin_.st "h").st.schedule_periodic_tasks "h" true = Ran.raise .ShutdownException (Controller.remove_host_ (Controller.init.add_host "h" "u" 1).st.shutdown_begin_.st "h").st ∧
    (Controller.remove_host_ (Controller.init.add_host "h" "u" 1).st.shutdown_begin_.st "h").st.reschedule_now "h" .GET_TASKS = Ran.raise .ShutdownException (Controller.remove_host_ (Controller.init.add_host "h" "u" 1).st.shutdown_begin_.st "h").st ∧
    (Controller.remove_host_ (Controller.init.add_host "h" "u" 1).st.shutdown_begin_.st "h").st.active_only_tasks "h" true = Ran.raise .ShutdownException (Controller.remove_host_ (Controller.init.add_host "h" "u" 1).st.shutdown_begin_.st "h").st ∧
    (Controller.remove_host_ (Controller.init.add_host "h" "u" 1).st.shutdown_begin_.st "h").st.file_transfer_op "h" 1 "u" "f" = Ran.raise .ShutdownException (Controller.remove_host_ (Controller.init.add_host "h" "u" 1).st.shutdown_begin_.st "h").st ∧
    (Controller.remove_host_ (Controller.init.add_host "h" "u" 1).st.shutdown_begin_.st "h").st.project_op "h" 1 "u" = Ran.raise .ShutdownException (Controller.remove_host_ (Controller.init.add_host "h" "u" 1).st.shutdown_begin_.st "h").st ∧
    (Controller.remove_host_ (Controller.init.add_host "h" "u" 1).st.shutdown_begin_.st "h").st.task_op "h" 1 "u" "t" = Ran.raise .ShutdownException (Controller.remove_host_ (Controller.init.add_host "h" "u" 1).st.shutdown_begin_.st "h").st ∧
    (Controller.remove_host_ (Controller.init.add_host "h" "u" 1).st.shutdown_begin_.st "h").st.load_global_preferences "h" 1 = Ran.raise .ShutdownException (Controller.remove_host_ (Controller.init.add_host "h" "u" 1).st.shutdown_begin_.st "h").st ∧
    (Controller.remove_host_ (Controller.init.add_host "h" "u" 1).st.shutdown_begin_.st "h").st.save_global_preferences "h" 1 1 = Ran.raise .ShutdownException (Controller.remove_host_ (Controller.init.add_host "h" "u" 1).st.shutdown_begin_.st "h").st ∧
    (Controller.remove_host_ (Controller.init.add_host "h" "u" 1).st.shutdown_begin_.st "h").st.read_global_prefs_override "h" = Ran.raise .ShutdownException (Controller.remove_host_ (Controller.init.add_host "h" "u" 1).st.shutdown_begin_.st "h").st ∧
    (Controller.remove_host_ (Controller.init.add_host "h" "u" 1).st.shutdown_begin_.st "h").st.run_mode "h" 1 = Ran.raise .ShutdownException (Controller.remove_host_ (Controller.init.add_host "h" "u" 1).st.shutdown_begin_.st "h").st ∧
    (Controller.remove_host_ (Controller.init.add_host "h" "u" 1).st.shutdown_begin_.st "h").st.gpu_mode "h" 1 = Ran.raise .ShutdownException (Controller.remove_host_ (Controller.init.add_host "h" "u" 1).st.shutdown_begin_.st "h").st ∧
    (Controller.remove_host_ (Controller.init.add_host "h" "u" 1).st.shutdown_begin_.st "h").st.network_mode "h" 1 = Ran.raise .ShutdownException (Controller.remove_host_ (Controller.init.add_host "h" "u" 1).st.shutdown_begin_.st "h").st :=
  after_shutdown (Controller.init.add_host "h" "u" 1).st 1
    { out := .returned
      st := (Controller.remove_host_ (Controller.init.add_host "h" "u" 1).st.shutdown_begin_.st "h").st
      calls := (Controller.init.add_host "h" "u" 1).st.shutdown_begin_.calls ++
        ((Controller.remove_host_ (Controller.init.add_host "h" "u" 1).st.shutdown_begin_.st "h").calls ++ []) }
    rfl "h" "u" "p" "u" "f" "t" 1 1 1 1 1 true .GET_TASKS
    (by decide) (by decide) (by decide) (by decide) (by decide) (by decide)

end Woinc

namespace Woinc

/-! ## C7: `shutdown` -/

theorem Controller.remove_all_nil (fuel : Nat) (c : Controller) (h : c.host_controllers_ = []) :
    Controller.remove_all_ fuel c = some (Ran.ret c []) := by
  cases fuel <;> (unfold Controller.remove_all_; rw [h])

theorem HostMap.find_erase_step {α β : Type} (m : HostMap α) (t : HostMap β) (host h : String)
    (hm : (find m host).isSome = true) :
    (if (find (erase m host) h).isSome = true then none else find (erase t host) h) =
      if (find m h).isSome = true then none else find t h := by
  rw [find_erase, find_erase]
  by_cases hh : host = h
  · subst hh; simp [hm]
  · simp [hh]

theorem Call.count_on_host_removed (handlers : List Nat) (host : String) (g : Nat) (h : String) :
    (handlers.map fun g' => Call.on_host_removed g' host).count (Call.on_host_removed g h) =
      if host = h then handlers.count g else 0 := by
  induction handlers with
  | nil => simp
  | cons a rest ih =>
    simp only [List.map, List.count_cons, ih, beq_iff_eq, Call.on_host_removed.injEq]
    by_cases hh : host = h
    · simp [hh]
    · simp [hh]

/-- The loop of `shutdown` ends after as many rounds as there are hosts: it removes every
host of the facade from the host map, from the scheduler tables and from the
configuration, and broadcasts `on_host_removed` once per host and handler. -/
theorem Controller.remove_all_spec : ∀ (n : Nat) (c : Controller),
    c.host_controllers_.length ≤ n →
    ∃ r, (∀ fuel, n ≤ fuel → Controller.remove_all_ fuel c = some r) ∧ r.out = .returned ∧
      r.st.host_controllers_ = [] ∧ r.st.shutdown_ = c.shutdown_ ∧
      r.st.periodic_tasks_scheduler_thread_joinable_ = c.periodic_tasks_scheduler_thread_joinable_ ∧
      r.st.periodic_tasks_scheduler_context_.shutdown_triggered_ =
        c.periodic_tasks_scheduler_context_.shutdown_triggered_ ∧
      r.st.handler_registry_ = c.handler_registry_ ∧
      (∀ h, HostMap.find r.st.periodic_tasks_scheduler_context_.tasks_ h =
        if (HostMap.find c.host_controllers_ h).isSome = true then none
        else HostMap.find c.periodic_tasks_scheduler_context_.tasks_ h) ∧
      (∀ h, HostMap.find r.st.periodic_tasks_scheduler_context_.host_controllers_ h =
        if (HostMap.find c.host_controllers_ h).isSome = true then none
        else HostMap.find c.periodic_tasks_scheduler_context_.host_controllers_ h) ∧
      (∀ h, HostMap.find r.st.periodic_tasks_scheduler_context_.states_ h =
        if (HostMap.find c.host_controllers_ h).isSome = true then none
        else HostMap.find c.periodic_tasks_scheduler_context_.states_ h) ∧
      (∀ h, HostMap.find r.st.configuration_.host_configurations_ h =
        if (HostMap.find c.host_controllers_ h).isSome = true then none
        else HostMap.find c.configuration_.host_configurations_ h) ∧
      (∀ g h, r.calls.count (Call.on_host_removed g h) =
        if (HostMap.find c.host_controllers_ h).isSome = true
        then c.handler_registry_.host_handlers_.count g else 0) := by
  intro n
  induction n with
  | zero =>
    intro c hl
    have hn : c.host_controllers_ = [] := List.length_eq_zero.mp (Nat.le_zero.mp hl)
    refine ⟨Ran.ret c [], fun fuel _ => Controller.remove_all_nil fuel c hn, rfl, hn, rfl, rfl, rfl,
      rfl, ?_, ?_, ?_, ?_, ?_⟩ <;> intros <;> simp [hn, Ran.ret, HostMap.find_nil]
  | succ n ih =>
    intro c hl
    cases hm : c.host_controllers_ with
    | nil =>
      refine ⟨Ran.ret c [], fun fuel _ => Controller.remove_all_nil fuel c hm, rfl, hm, rfl, rfl, rfl,
        rfl, ?_, ?_, ?_, ?_, ?_⟩ <;> intros <;> simp [Ran.ret, HostMap.find_nil]
    | cons e rest =>
      obtain ⟨host, w0⟩ := e
      have hf : HostMap.find c.host_controllers_ host = some w0 := by
        rw [hm, HostMap.find_cons]; simp
      have hfs : (HostMap.find c.host_controllers_ host).isSome = true := by rw [hf]; rfl
      have hok := Controller.remove_host_ok c host w0 hf
      have hlen : (c.remove_host_ host).st.host_controllers_.length ≤ n := by
        rw [hok]
        show (HostMap.erase c.host_controllers_ host).length ≤ n
        have := HostMap.erase_length_lt host w0 rest
        rw [hm] at hl ⊢
        omega
      obtain ⟨r2, b1, b2, b3, b4, b5, b6, b7, b8, b9, b10, b11, b12⟩ := ih _ hlen
      refine ⟨{ r2 with calls := (c.remove_host_ host).calls ++ r2.calls }, ?_, b2, b3, ?_, ?_, ?_, ?_,
        ?_, ?_, ?_, ?_, ?_⟩
      · intro fuel hfuel
        obtain ⟨f, rfl⟩ : ∃ f, fuel = f + 1 := ⟨fuel - 1, by omega⟩
        unfold Controller.remove_all_
        rw [hm]
        simp only
        have hout : (c.remove_host_ host).out = .returned := by rw [hok]
        rw [hout]
        simp only
        rw [b1 f (by omega)]
        rfl
      · rw [b4, hok]
      · rw [b5, hok]
      · rw [b6, hok]; rfl
      · rw [b7, hok]
      · intro h
        rw [b8 h, hok, ← hm]
        exact HostMap.find_erase_step _ _ host h hfs
      · intro h
        rw [b9 h, hok, ← hm]
        exact HostMap.find_erase_step _ _ host h hfs
      · intro h
        rw [b10 h, hok, ← hm]
        exact HostMap.find_erase_step _ _ host h hfs
      · intro h
        rw [b11 h, hok, ← hm]
        exact HostMap.find_erase_step _ _ host h hfs
      · intro g h
        show ((c.remove_host_ host).calls ++ r2.calls).count _ = _
        rw [List.count_append, b12 g h, hok]
        simp only [List.count_append, Call.count_on_host_removed, List.count_cons, List.count_nil,
          beq_iff_eq, reduceCtorEq, if_false, zero_add, add_zero]
        show _ + (if (HostMap.find (HostMap.erase c.host_controllers_ host) h).isSome = true
          then c.handler_registry_.host_handlers_.count g else 0) = _
        rw [HostMap.find_erase, ← hm]
        by_cases hh : host = h
        · subst hh; simp [hfs]
        · simp [hh]

end Woinc

namespace Woinc

/-- Claim C7: on every reachable controller `shutdown()` terminates, after as many rounds
of its loop as there are hosts: it returns with `shutdown_ = true`, an empty host map,
empty scheduler tables and no configuration row, `on_host_removed(h)` having been
delivered exactly once to each registered handler for each host that was registered (and
for no other host); a second `shutdown()` changes no state and broadcasts nothing (its
only call is the repeated trigger of the scheduler shutdown). -/
theorem shutdown_terminates (c : Controller) (hr : Reachable c) :
    ∃ r, (∀ fuel, c.host_controllers_.length ≤ fuel → c.shutdown fuel = some r) ∧
      r.out = .returned ∧
      r.st.shutdown_ = true ∧
      r.st.host_controllers_ = [] ∧
      r.st.periodic_tasks_scheduler_context_.tasks_ = [] ∧
      r.st.periodic_tasks_scheduler_context_.host_controllers_ = [] ∧
      r.st.periodic_tasks_scheduler_context_.states_ = [] ∧
      r.st.configuration_.host_configurations_ = [] ∧
      (∀ g h, r.calls.count (Call.on_host_removed g h) =
        if g ∈ c.handler_registry_.host_handlers_ ∧ c.has_host_ h = true then 1 else 0) ∧
      (∀ fuel, r.st.shutdown fuel =
        some { out := .returned, st := r.st, calls := [.scheduler_trigger_shutdown] }) := by
  have hc := hr.inv
  have hbeg := Controller.shutdown_begin_eq c
  have hlen : c.shutdown_begin_.st.host_controllers_.length ≤ c.host_controllers_.length := by
    rw [hbeg]
  obtain ⟨r2, b1, b2, b3, b4, b5, b6, b7, b8, b9, b10, b11, b12⟩ :=
    Controller.remove_all_spec _ c.shutdown_begin_.st hlen
  have e1 : r2.st.shutdown_ = true := by rw [b4, hbeg]
  have e2 : r2.st.periodic_tasks_scheduler_thread_joinable_ = false := by rw [b5, hbeg]
  have e3 : r2.st.periodic_tasks_scheduler_context_.shutdown_triggered_ = true := by
    rw [b6, hbeg]; rfl
  have none_of : ∀ {α : Type} (m : HostMap α) (h : String),
      (HostMap.find m h).isSome = (HostMap.find c.host_controllers_ h).isSome →
      (if (HostMap.find c.host_controllers_ h).isSome = true then none else HostMap.find m h) =
        none := by
    intro α m h hd
    cases hh : HostMap.find c.host_controllers_ h with
    | some w => simp
    | none =>
      rw [hh] at hd
      simp only [Option.isSome_none, Bool.false_eq_true, if_false]
      exact Option.not_isSome_iff_eq_none.mp (by simp [hd])
  refine ⟨{ r2 with calls := c.shutdown_begin_.calls ++ r2.calls }, ?_, b2, e1, b3, ?_, ?_, ?_, ?_,
    ?_, ?_⟩
  · intro fuel hf
    unfold Controller.shutdown
    rw [b1 fuel hf]
    rfl
  · apply HostMap.eq_nil_of_find
    intro h
    show HostMap.find r2.st.periodic_tasks_scheduler_context_.tasks_ h = none
    rw [b8 h, hbeg]
    exact none_of _ h (hc.tasks_dom h)
  · apply HostMap.eq_nil_of_find
    intro h
    show HostMap.find r2.st.periodic_tasks_scheduler_context_.host_controllers_ h = none
    rw [b9 h, hbeg]
    refine none_of _ h ?_
    show (HostMap.find c.periodic_tasks_scheduler_context_.host_controllers_ h).isSome = _
    rw [hc.refs h]
    cases HostMap.find c.host_controllers_ h <;> rfl
  · apply HostMap.eq_nil_of_find
    intro h
    show HostMap.find r2.st.periodic_tasks_scheduler_context_.states_ h = none
    rw [b10 h, hbeg]
    exact none_of _ h (hc.states_dom h)
  · apply HostMap.eq_nil_of_find
    intro h
    show HostMap.find r2.st.configuration_.host_configurations_ h = none
    rw [b11 h, hbeg]
    exact none_of _ h (hc.config_dom h)
  · intro g h
    show (c.shutdown_begin_.calls ++ r2.calls).count _ = _
    rw [List.count_append, b12 g h, hbeg]
    have h0 : (Call.scheduler_trigger_shutdown ::
        (if c.periodic_tasks_scheduler_thread_joinable_ = true then [Call.scheduler_thread_join]
         else [])).count (Call.on_host_removed g h) = 0 := by
      split <;> simp
    simp only [h0, zero_add, Controller.has_host_]
    by_cases hh : (HostMap.find c.host_controllers_ h).isSome = true
    · by_cases hg : g ∈ c.handler_registry_.host_handlers_
      · simp only [hh, hg, and_self, if_true]
        exact List.count_eq_one_of_mem hc.handlers_nodup hg
      · simp only [hh, hg, false_and, if_false, if_true]
        exact List.count_eq_zero_of_not_mem hg
    · simp [hh]
  · intro fuel
    show r2.st.shutdown fuel = some { out := .returned, st := r2.st, calls := _ }
    have hst : r2.st.shutdown_begin_.st = r2.st := by
      rw [Controller.shutdown_begin_eq]
      show ({ r2.st with
          shutdown_ := true
          periodic_tasks_scheduler_context_ := r2.st.periodic_tasks_scheduler_context_.trigger_shutdown
          periodic_tasks_scheduler_thread_joinable_ := false } : Controller) = r2.st
      rw [← e1, ← e2]
      unfold PeriodicTasksSchedulerContext.trigger_shutdown
      rw [← e3]
    have hcalls : r2.st.shutdown_begin_.calls = [.scheduler_trigger_shutdown] := by
      rw [Controller.shutdown_begin_eq]
      simp [e2]
    unfold Controller.shutdown
    rw [hst, Controller.remove_all_nil fuel r2.st b3, hcalls]
    rfl

/-- The witness of C7: the shutdown of a controller with the two hosts "a" and "h". -/
theorem shutdown_terminates_witness :
    ∃ r, (∀ fuel, ((Controller.init.add_host "h" "u" 1).st.add_host "a" "u" 1
          ).st.host_controllers_.length ≤ fuel →
        ((Controller.init.add_host "h" "u" 1).st.add_host "a" "u" 1).st.shutdown fuel = some r) ∧
      r.out = .returned ∧
      r.st.shutdown_ = true ∧
      r.st.host_controllers_ = [] ∧
      r.st.periodic_tasks_scheduler_context_.tasks_ = [] ∧
      r.st.periodic_tasks_scheduler_context_.host_controllers_ = [] ∧
      r.st.periodic_tasks_scheduler_context_.states_ = [] ∧
      r.st.configuration_.host_configurations_ = [] ∧
      (∀ g h, r.calls.count (Call.on_host_removed g h) =
        if g ∈ ((Controller.init.add_host "h" "u" 1).st.add_host "a" "u" 1
            ).st.handler_registry_.host_handlers_ ∧
          ((Controller.init.add_host "h" "u" 1).st.add_host "a" "u" 1).st.has_host_ h = true
        then 1 else 0) ∧
      (∀ fuel, r.st.shutdown fuel =
        some { out := .returned, st := r.st, calls := [.scheduler_trigger_shutdown] }) :=
  shutdown_terminates _ (Reachable.add_host "a" "u" 1 (Reachable.add_host "h" "u" 1 Reachable.init))

end Woinc

namespace Woinc

/-! ## C8: `remove_host` -/

/-- Claim C8: on a reachable controller that is not shut down, `remove_host(id)` for a
registered id first removes id from the scheduler tables, then shuts the worker down,
erases the host record, broadcasts `on_host_removed(id)`, exactly once to each registered
handler, and removes the configuration row; afterwards `has_host(id)` is false and no
slot, worker reference, poll state or configuration row of id remains, while the record,
the slots, the reference, the poll state and the row of every other host are as before.
For an id that is not registered it raises `UnknownHostException` and changes nothing. -/
theorem remove_host_spec (c : Controller) (hr : Reachable c) (host : String) (hh : host ≠ "")
    (hsd : c.shutdown_ = false) :
    (c.has_host_ host = true →
      (c.remove_host host).out = .returned ∧
      (c.remove_host host).calls =
        [.scheduler_remove_host host, .worker_shutdown host, .hosts_erase host] ++
          (c.handler_registry_.host_handlers_.map fun g => Call.on_host_removed g host) ++
          [.config_remove_host host] ∧
      (∀ g, (c.remove_host host).calls.count (Call.on_host_removed g host) =
        if g ∈ c.handler_registry_.host_handlers_ then 1 else 0) ∧
      (c.remove_host host).st.has_host_ host = false ∧
      HostMap.find (c.remove_host host).st.periodic_tasks_scheduler_context_.tasks_ host = none ∧
      HostMap.find (c.remove_host host).st.periodic_tasks_scheduler_context_.host_controllers_ host =
        none ∧
      HostMap.find (c.remove_host host).st.periodic_tasks_scheduler_context_.states_ host = none ∧
      HostMap.find (c.remove_host host).st.configuration_.host_configurations_ host = none ∧
      (∀ h, h ≠ host →
        HostMap.find (c.remove_host host).st.host_controllers_ h =
          HostMap.find c.host_controllers_ h ∧
        HostMap.find (c.remove_host host).st.periodic_tasks_scheduler_context_.tasks_ h =
          HostMap.find c.periodic_tasks_scheduler_context_.tasks_ h ∧
        HostMap.find (c.remove_host host).st.periodic_tasks_scheduler_context_.host_controllers_ h =
          HostMap.find c.periodic_tasks_scheduler_context_.host_controllers_ h ∧
        HostMap.find (c.remove_host host).st.periodic_tasks_scheduler_context_.states_ h =
          HostMap.find c.periodic_tasks_scheduler_context_.states_ h ∧
        HostMap.find (c.remove_host host).st.configuration_.host_configurations_ h =
          HostMap.find c.configuration_.host_configurations_ h)) ∧
    (c.has_host_ host = false →
      c.remove_host host = { out := .raised (.UnknownHostException host), st := c, calls := [] }) := by
  constructor
  · intro hreg
    unfold Controller.has_host_ at hreg
    obtain ⟨w, hw⟩ := Option.isSome_iff_exists.mp hreg
    have hne : ¬ HostMap.find c.host_controllers_ host = none := by rw [hw]; simp
    have heq : c.remove_host host = c.remove_host_ host := by
      unfold Controller.remove_host
      rw [check_not_empty_host_name_bind, if_neg hh, Controller.verify_not_shutdown_bind, hsd,
        if_neg (by simp), Controller.verify_known_host_bind, if_neg hne]
    rw [heq, Controller.remove_host_ok c host w hw]
    refine ⟨rfl, rfl, ?_, ?_, ?_, ?_, ?_, ?_, ?_⟩
    · intro g
      simp only [List.count_append, Call.count_on_host_removed, List.count_cons, List.count_nil,
        beq_iff_eq, reduceCtorEq, if_false, zero_add, add_zero, if_true]
      by_cases hg : g ∈ c.handler_registry_.host_handlers_
      · rw [if_pos hg]; exact List.count_eq_one_of_mem hr.inv.handlers_nodup hg
      · rw [if_neg hg]; exact List.count_eq_zero_of_not_mem hg
    · show (HostMap.find (HostMap.erase c.host_controllers_ host) host).isSome = false
      rw [HostMap.find_erase]; simp
    · show HostMap.find (HostMap.erase _ host) host = none
      rw [HostMap.find_erase]; simp
    · show HostMap.find (HostMap.erase _ host) host = none
      rw [HostMap.find_erase]; simp
    · show HostMap.find (HostMap.erase _ host) host = none
      rw [HostMap.find_erase]; simp
    · show HostMap.find (HostMap.erase _ host) host = none
      rw [HostMap.find_erase]; simp
    · intro h hne'
      have hn : ¬ host = h := fun e => hne' e.symm
      refine ⟨?_, ?_, ?_, ?_, ?_⟩ <;>
        (show HostMap.find (HostMap.erase _ host) h = _; rw [HostMap.find_erase, if_neg hn])
  · intro hun
    have hf : HostMap.find c.host_controllers_ host = none := by
      unfold Controller.has_host_ at hun
      exact Option.not_isSome_iff_eq_none.mp (by simp [hun])
    unfold Controller.remove_host
    rw [check_not_empty_host_name_bind, if_neg hh, Controller.verify_not_shutdown_bind, hsd,
      if_neg (by simp), Controller.verify_known_host_bind, if_pos hf]
    rfl

/-- The witness of C8: the removal of the registered host "h" and of the unregistered
host "x" on a controller with one handler and the hosts "a" and "h". -/
theorem remove_host_spec_witness :
    ((((Controller.init.register_handler 7).st.add_host "h" "u" 1).st.add_host "a" "u" 1
        ).st.remove_host "h").calls =
      [.scheduler_remove_host "h", .worker_shutdown "h", .hosts_erase "h",
        .on_host_removed 7 "h", .config_remove_host "h"] ∧
    ((((Controller.init.register_handler 7).st.add_host "h" "u" 1).st.add_host "a" "u" 1
        ).st.remove_host "x") =
      { out := .raised (.UnknownHostException "x")
        st := (((Controller.init.register_handler 7).st.add_host "h" "u" 1).st.add_host "a" "u" 1).st
        calls := [] } :=
  ⟨((remove_host_spec _
      (Reachable.add_host "a" "u" 1 (Reachable.add_host "h" "u" 1
        (Reachable.register_handler 7 Reachable.init))) "h" (by decide) (by decide)).1
      (by decide)).2.1,
    (remove_host_spec _
      (Reachable.add_host "a" "u" 1 (Reachable.add_host "h" "u" 1
        (Reachable.register_handler 7 Reachable.init))) "x" (by decide) (by decide)).2
      (by decide)⟩

/-! ## C9: `reschedule_now` on an unknown host or kind -/

theorem PeriodicTasksSchedulerContext.reschedule_tasks_none (k : PeriodicTask) (tasks : List Task)
    (h : PeriodicTasksScheduler.has_task k tasks = false) : reschedule_tasks k tasks = tasks := by
  induction tasks with
  | nil => rfl
  | cons t rest ih =>
    simp only [PeriodicTasksScheduler.has_task, List.any_cons, Bool.or_eq_false_iff,
      decide_eq_false_iff_not] at h
    unfold reschedule_tasks
    rw [if_neg h.1, ih]
    simpa [PeriodicTasksScheduler.has_task] using h.2

/-- Claim C9, as the code has it: `reschedule_now(host, kind)` changes no state when the
host is unknown or when no slot of the host is of the kind, but on an unknown host it
does not return normally. For a host absent from the scheduler tables the scheduler's
`reschedule_now` raises `std::out_of_range` (from `tasks_.at(host)`), the scheduler state
being as before; for a host whose slots hold none of the kind it returns and every slot
lookup, worker reference and poll state is as before; and the facade's `reschedule_now`
on a non-empty unregistered host of a controller that is not shut down raises
`UnknownHostException`, the state being as before and no call made. -/
theorem reschedule_now_unknown (c : Controller) (ctx : PeriodicTasksSchedulerContext)
    (host : String) (k : PeriodicTask) :
    (HostMap.find ctx.tasks_ host = none →
      ctx.reschedule_now host k = { out := .raised .out_of_range, st := ctx, calls := [] }) ∧
    (∀ tasks, HostMap.find ctx.tasks_ host = some tasks →
      PeriodicTasksScheduler.has_task k tasks = false →
      (ctx.reschedule_now host k).out = .returned ∧
      (∀ h, HostMap.find (ctx.reschedule_now host k).st.tasks_ h = HostMap.find ctx.tasks_ h) ∧
      (ctx.reschedule_now host k).st.host_controllers_ = ctx.host_controllers_ ∧
      (ctx.reschedule_now host k).st.states_ = ctx.states_ ∧
      (ctx.reschedule_now host k).st.shutdown_triggered_ = ctx.shutdown_triggered_) ∧
    (host ≠ "" → c.shutdown_ = false → c.has_host_ host = false →
      c.reschedule_now host k =
        { out := .raised (.UnknownHostException host), st := c, calls := [] }) := by
  refine ⟨?_, ?_, ?_⟩
  · intro hn
    unfold PeriodicTasksSchedulerContext.reschedule_now
    rw [hn]
    rfl
  · intro tasks ht hk
    unfold PeriodicTasksSchedulerContext.reschedule_now
    rw [ht]
    refine ⟨rfl, ?_, rfl, rfl, rfl⟩
    intro h
    show HostMap.find (HostMap.assign ctx.tasks_ host _) h = _
    rw [PeriodicTasksSchedulerContext.reschedule_tasks_none k tasks hk,
      HostMap.find_assign_of_find _ _ _ _ ht]
    by_cases hh : host = h
    · subst hh; simp [ht]
    · simp [hh]
  · intro hh hsd hun
    have hf : HostMap.find c.host_controllers_ host = none := by
      unfold Controller.has_host_ at hun
      exact Option.not_isSome_iff_eq_none.mp (by simp [hun])
    unfold Controller.reschedule_now
    rw [check_not_empty_host_name_bind, if_neg hh, Controller.verify_not_shutdown_bind, hsd,
      if_neg (by simp), Controller.verify_known_host_bind, if_pos hf]
    rfl

/-- The witness of C9: the nudge of the unknown host "x"; and the nudge of a kind of
which the host "h" has no slot. -/
theorem reschedule_now_unknown_witness :
    (Controller.init.add_host "h" "u" 1).st.periodic_tasks_scheduler_context_.reschedule_now "x"
        .GET_TASKS =
      { out := .raised .out_of_range
        st := (Controller.init.add_host "h" "u" 1).st.periodic_tasks_scheduler_context_
        calls := [] } ∧
    (Controller.init.add_host "h" "u" 1).st.reschedule_now "x" .GET_TASKS =
      { out := .raised (.UnknownHostException "x")
        st := (Controller.init.add_host "h" "u" 1).st
        calls := [] } ∧
    (PeriodicTasksSchedulerContext.reschedule_now
        { tasks_ := [("h", [Task.new .GET_MESSAGES])], host_controllers_ := [("h", "h")],
          states_ := [("h", State.new)], shutdown_triggered_ := false } "h" .GET_TASKS).out =
      .returned :=
  ⟨(reschedule_now_unknown (Controller.init.add_host "h" "u" 1).st
      (Controller.init.add_host "h" "u" 1).st.periodic_tasks_scheduler_context_ "x" .GET_TASKS).1
      (by decide),
    (reschedule_now_unknown (Controller.init.add_host "h" "u" 1).st
      (Controller.init.add_host "h" "u" 1).st.periodic_tasks_scheduler_context_ "x" .GET_TASKS).2.2
      (by decide) (by decide) (by decide),
    ((reschedule_now_unknown Controller.init
      { tasks_ := [("h", [Task.new .GET_MESSAGES])], host_controllers_ := [("h", "h")],
        states_ := [("h", State.new)], shutdown_triggered_ := false } "h" .GET_TASKS).2.1
      [Task.new .GET_MESSAGES] (by decide) (by decide)).1⟩

/-- The counterexample to C9 as stated: on a fresh controller the scheduler's
`reschedule_now` for the unknown host "x" raises `std::out_of_range`, and the facade's
`reschedule_now` for it raises `UnknownHostException`: neither returns normally. -/
theorem reschedule_now_unknown_counterexample :
    (Controller.init.periodic_tasks_scheduler_context_.reschedule_now "x" .GET_TASKS).out =
      .raised .out_of_range ∧
    (Controller.init.reschedule_now "x" .GET_TASKS).out = .raised (.UnknownHostException "x") := by
  decide

/-! ## C10: the post-execution callback for a missing host or slot -/

/-- Claim C10, as the code has it: the post-execution callback tolerates a missing slot,
not a missing host. For a host without entry in the scheduler tables
`handle_post_execution(host, job)` raises `std::out_of_range` (from `tasks_.at(host)`)
and leaves the scheduler state as it was; for a host with an entry none of whose slots is
of the kind of the job it returns normally and leaves the scheduler state as it was. -/
theorem handle_post_execution_missing (ctx : PeriodicTasksSchedulerContext) (host : String)
    (job : PeriodicJob) (now : Int) :
    (HostMap.find ctx.tasks_ host = none →
      PeriodicTasksScheduler.handle_post_execution ctx host job now =
        { out := .raised .out_of_range, st := ctx, calls := [] }) ∧
    (∀ tasks, HostMap.find ctx.tasks_ host = some tasks →
      PeriodicTasksScheduler.has_task job.task tasks = false →
      PeriodicTasksScheduler.handle_post_execution ctx host job now =
        { out := .returned, st := ctx, calls := [] }) := by
  constructor
  · intro hn
    unfold PeriodicTasksScheduler.handle_post_execution
    rw [hn]
    rfl
  · intro tasks ht hk
    unfold PeriodicTasksScheduler.handle_post_execution
    rw [ht]
    simp only [hk, Bool.false_eq_true, if_false]
    rfl

/-- The witness of C10: the callback for the host "h" after its removal from the
scheduler tables; and the callback for a kind of which the host "h" has no slot. -/
theorem handle_post_execution_missing_witness :
    PeriodicTasksScheduler.handle_post_execution
        ((Controller.init.add_host "h" "u" 1).st.periodic_tasks_scheduler_context_.remove_host "h")
        "h" { task := .GET_TASKS, payload := Payload.new } 5 =
      { out := .raised .out_of_range
        st := (Controller.init.add_host "h" "u" 1).st.periodic_tasks_scheduler_context_.remove_host "h"
        calls := [] } ∧
    PeriodicTasksScheduler.handle_post_execution
        { tasks_ := [("h", [Task.new .GET_MESSAGES])], host_controllers_ := [("h", "h")],
          states_ := [("h", State.new)], shutdown_triggered_ := false }
        "h" { task := .GET_TASKS, payload := Payload.new } 5 =
      { out := .returned
        st := { tasks_ := [("h", [Task.new .GET_MESSAGES])], host_controllers_ := [("h", "h")],
                states_ := [("h", State.new)], shutdown_triggered_ := false }
        calls := [] } :=
  ⟨(handle_post_execution_missing
      ((Controller.init.add_host "h" "u" 1).st.periodic_tasks_scheduler_context_.remove_host "h")
      "h" { task := .GET_TASKS, payload := Payload.new } 5).1 (by decide),
    (handle_post_execution_missing
      { tasks_ := [("h", [Task.new .GET_MESSAGES])], host_controllers_ := [("h", "h")],
        states_ := [("h", State.new)], shutdown_triggered_ := false }
      "h" { task := .GET_TASKS, payload := Payload.new } 5).2 [Task.new .GET_MESSAGES]
      (by decide) (by decide)⟩

/-- The counterexample to C10 as stated: after the scheduler's `remove_host("h")` (the
first step of the removal of a host) the callback of a periodic job of "h" does not
return normally, it raises `std::out_of_range`. -/
theorem handle_post_execution_missing_counterexample :
    (PeriodicTasksScheduler.handle_post_execution
      ((Controller.init.add_host "h" "u" 1).st.periodic_tasks_scheduler_context_.remove_host "h")
      "h" { task := .GET_TASKS, payload := Payload.new } 5).out = .raised .out_of_range := by
  decide

end Woinc

namespace Woinc

/-! ## The exact effect of a scheduler pass -/

theorem PeriodicTasksScheduler.payload_ok (c : Controller) (host : String) (k : PeriodicTask)
    (s : State) (row : HostConfiguration)
    (hs : HostMap.find c.periodic_tasks_scheduler_context_.states_ host = some s)
    (hrow : HostMap.find c.configuration_.host_configurations_ host = some row) :
    payload_ c host k = .ok (Spec.payload s row.active_only_tasks k) := by
  unfold payload_ Configuration.active_only_tasks
  rw [hs, hrow]
  cases k <;> rfl

theorem PeriodicTasksScheduler.schedule_ok (c : Controller) (host : String) (task : Task)
    (s : State) (row : HostConfiguration) (w : HostController)
    (hr : HostMap.find c.periodic_tasks_scheduler_context_.host_controllers_ host = some host)
    (hs : HostMap.find c.periodic_tasks_scheduler_context_.states_ host = some s)
    (hrow : HostMap.find c.configuration_.host_configurations_ host = some row)
    (hw : HostMap.find c.host_controllers_ host = some w) :
    schedule_ c host task =
      { exn := none
        val := { task with pending := true }
        st := { c with host_controllers_ :=
                  (HostMap.assign c.host_controllers_ host
                    (w.schedule (.periodic
                      { task := task.type, payload := Spec.payload s row.active_only_tasks task.type }))) }
        calls := [.worker_schedule host (.periodic
          { task := task.type, payload := Spec.payload s row.active_only_tasks task.type })] } := by
  unfold schedule_
  rw [payload_ok c host task.type s row hs hrow]
  simp only [hr, hw]

/-- The inner loop of a pass, exactly: no lookup fails, each slot that is due is marked
pending and one job per such slot is appended, in the order of the slots, to the queue of
the host. -/
theorem PeriodicTasksScheduler.schedule_tasks_exact (intervals : Intervals) (now : Int)
    (host : String) (s : State) (row : HostConfiguration) :
    ∀ (tasks : List Task) (c : Controller) (w : HostController),
    HostMap.find c.periodic_tasks_scheduler_context_.host_controllers_ host = some host →
    HostMap.find c.periodic_tasks_scheduler_context_.states_ host = some s →
    HostMap.find c.configuration_.host_configurations_ host = some row →
    HostMap.find c.host_controllers_ host = some w →
    (schedule_tasks intervals now host tasks c).exn = none ∧
    (schedule_tasks intervals now host tasks c).val = Spec.pass_slots (due_ intervals now) tasks ∧
    (schedule_tasks intervals now host tasks c).calls =
      (Spec.pass_jobs (due_ intervals now) s row.active_only_tasks tasks).map
        (Call.worker_schedule host) ∧
    (schedule_tasks intervals now host tasks c).st =
      { c with host_controllers_ := (schedule_tasks intervals now host tasks c).st.host_controllers_ } ∧
    ∀ h, HostMap.find (schedule_tasks intervals now host tasks c).st.host_controllers_ h =
      if host = h then
        some { queue := w.queue ++ Spec.pass_jobs (due_ intervals now) s row.active_only_tasks tasks }
      else HostMap.find c.host_controllers_ h := by
  intro tasks
  induction tasks with
  | nil =>
    intro c w _ _ _ hw
    refine ⟨rfl, rfl, rfl, rfl, ?_⟩
    intro h
    by_cases hh : host = h
    · subst hh
      simp [schedule_tasks, Spec.pass_jobs, hw]
    · simp [schedule_tasks, hh]
  | cons t rest ih =>
    intro c w hr hs hrow hw
    by_cases hd : due_ intervals now t = true
    · have hcond : (!t.pending && should_be_scheduled_ t intervals now) = true := hd
      have hw1 : HostMap.find
          (HostMap.assign c.host_controllers_ host
            (w.schedule (.periodic
              { task := t.type, payload := Spec.payload s row.active_only_tasks t.type }))) host =
          some (w.schedule (.periodic
              { task := t.type, payload := Spec.payload s row.active_only_tasks t.type })) := by
        rw [HostMap.find_assign_of_find _ _ _ _ hw]; simp
      obtain ⟨i1, i2, i3, i4, i5⟩ := ih
        { c with host_controllers_ :=
            (HostMap.assign c.host_controllers_ host
              (w.schedule (.periodic
                { task := t.type, payload := Spec.payload s row.active_only_tasks t.type }))) }
        (w.schedule (.periodic
          { task := t.type, payload := Spec.payload s row.active_only_tasks t.type }))
        hr hs hrow hw1
      unfold schedule_tasks
      rw [if_pos hcond, schedule_ok c host t s row w hr hs hrow hw]
      simp only
      refine ⟨i1, ?_, ?_, ?_, ?_⟩
      · rw [i2]
        simp [Spec.pass_slots, hd]
      · rw [i3]
        simp [Spec.pass_jobs, List.filter_cons, hd]
      · rw [i4]
      · intro h
        rw [i5 h]
        by_cases hh : host = h
        · subst hh
          simp [Spec.pass_jobs, List.filter_cons, hd, HostController.schedule]
        · simp only [hh, if_false]
          rw [HostMap.find_assign_of_find _ _ _ _ hw]
          simp [hh]
    · have hcond : ¬ (!t.pending && should_be_scheduled_ t intervals now) = true := hd
      obtain ⟨i1, i2, i3, i4, i5⟩ := ih c w hr hs hrow hw
      unfold schedule_tasks
      rw [if_neg hcond]
      simp only
      refine ⟨i1, ?_, ?_, i4, ?_⟩
      · rw [i2]
        simp [Spec.pass_slots, hd]
      · rw [i3]
        simp [Spec.pass_jobs, List.filter_cons, hd]
      · intro h
        rw [i5 h]
        simp [Spec.pass_jobs, List.filter_cons, hd]

end Woinc

namespace Woinc

/-- The outer loop of a pass, exactly: no lookup fails, the slots of every enabled host
are swept, and the queue of every host gains the jobs of its slots that are due. -/
theorem PeriodicTasksScheduler.schedule_hosts_exact (intervals : Intervals) (now : Int) :
    ∀ (m : HostMap (List Task)) (c : Controller), (HostMap.keys m).Nodup →
    (∀ h ts, (h, ts) ∈ m →
      HostMap.find c.periodic_tasks_scheduler_context_.host_controllers_ h = some h ∧
      (HostMap.find c.periodic_tasks_scheduler_context_.states_ h).isSome = true ∧
      (HostMap.find c.configuration_.host_configurations_ h).isSome = true ∧
      (HostMap.find c.host_controllers_ h).isSome = true) →
    (schedule_hosts intervals now m c).exn = none ∧
    (schedule_hosts intervals now m c).val =
      m.map (fun e => (e.1, Spec.host_slots (due_ intervals now) c.configuration_ e.1 e.2)) ∧
    (schedule_hosts intervals now m c).st =
      { c with host_controllers_ := (schedule_hosts intervals now m c).st.host_controllers_ } ∧
    ∀ h, HostMap.find (schedule_hosts intervals now m c).st.host_controllers_ h =
      (HostMap.find c.host_controllers_ h).map fun w =>
        { queue := w.queue ++ Spec.added_jobs (due_ intervals now)
            c.periodic_tasks_scheduler_context_.states_ c.configuration_ m h } := by
  intro m
  induction m with
  | nil =>
    intro c _ _
    refine ⟨rfl, rfl, rfl, ?_⟩
    intro h
    cases hf : HostMap.find c.host_controllers_ h <;>
      simp [schedule_hosts, Spec.added_jobs, HostMap.find_nil, hf]
  | cons e rest ih =>
    obtain ⟨h0, ts0⟩ := e
    intro c hnd hyp
    have hnd' : h0 ∉ HostMap.keys rest ∧ (HostMap.keys rest).Nodup := by
      simpa [HostMap.keys] using hnd
    have hrest0 : HostMap.find rest h0 = none := (HostMap.find_eq_none_iff rest h0).mpr hnd'.1
    obtain ⟨hr0, hs0, hc0, hw0⟩ := hyp h0 ts0 (List.mem_cons_self _ _)
    obtain ⟨s0, hs0⟩ := Option.isSome_iff_exists.mp hs0
    obtain ⟨row0, hrow0⟩ := Option.isSome_iff_exists.mp hc0
    obtain ⟨w0, hw0⟩ := Option.isSome_iff_exists.mp hw0
    have hcfg : c.configuration_.schedule_periodic_tasks h0 = .ok row0.schedule_periodic_tasks := by
      unfold Configuration.schedule_periodic_tasks
      rw [hrow0]
    unfold schedule_hosts
    rw [hcfg]
    cases hen : row0.schedule_periodic_tasks with
    | false =>
      simp only
      obtain ⟨j1, j2, j3, j4⟩ := ih c hnd'.2 (fun h ts hm => hyp h ts (List.mem_cons_of_mem _ hm))
      refine ⟨j1, ?_, j3, ?_⟩
      · rw [j2]
        simp [Spec.host_slots, hrow0, hen]
      · intro h
        rw [j4 h]
        by_cases hh : h0 = h
        · subst hh
          simp [Spec.added_jobs, HostMap.find_cons, hrest0, Spec.host_jobs, hs0, hrow0, hen]
        · simp [Spec.added_jobs, HostMap.find_cons, hh]
    | true =>
      simp only
      obtain ⟨e1, e2, -, e4, e5⟩ := schedule_tasks_exact intervals now h0 s0 row0 ts0 c w0
        hr0 hs0 hrow0 hw0
      generalize schedule_tasks intervals now h0 ts0 c = r1 at e1 e2 e4 e5
      have fctx : r1.st.periodic_tasks_scheduler_context_ = c.periodic_tasks_scheduler_context_ := by
        rw [e4]
      have fcfg : r1.st.configuration_ = c.configuration_ := by rw [e4]
      rw [e1]
      simp only
      have hyp1 : ∀ h ts, (h, ts) ∈ rest →
          HostMap.find r1.st.periodic_tasks_scheduler_context_.host_controllers_ h = some h ∧
          (HostMap.find r1.st.periodic_tasks_scheduler_context_.states_ h).isSome = true ∧
          (HostMap.find r1.st.configuration_.host_configurations_ h).isSome = true ∧
          (HostMap.find r1.st.host_controllers_ h).isSome = true := by
        intro h ts hm
        obtain ⟨a1, a2, a3, a4⟩ := hyp h ts (List.mem_cons_of_mem _ hm)
        rw [fctx, fcfg, e5 h]
        refine ⟨a1, a2, a3, ?_⟩
        by_cases hh : h0 = h
        · simp [hh]
        · simp [hh, a4]
      obtain ⟨j1, j2, j3, j4⟩ := ih r1.st hnd'.2 hyp1
      refine ⟨j1, ?_, ?_, ?_⟩
      · rw [j2, e2, fcfg]
        simp [Spec.host_slots, hrow0, hen]
      · rw [j3]
        rw [e4]
      · intro h
        rw [j4 h, e5 h, fctx, fcfg]
        by_cases hh : h0 = h
        · subst hh
          simp [Spec.added_jobs, HostMap.find_cons, hrest0, Spec.host_jobs, hs0, hrow0, hen, hw0]
        · simp [Spec.added_jobs, HostMap.find_cons, hh]

theorem HostMap.find_map_values {α β : Type} (f : String → α → β) (m : HostMap α) (h : String) :
    find (m.map fun e => (e.1, f e.1 e.2)) h = (find m h).map (f h) := by
  induction m with
  | nil => rfl
  | cons e rest ih =>
    obtain ⟨k, v⟩ := e
    simp only [List.map, find_cons]
    by_cases hh : k = h
    · subst hh; simp
    · simp [hh, ih]

theorem HostMap.keys_map_values {α β : Type} (f : String → α → β) (m : HostMap α) :
    keys (m.map fun e => (e.1, f e.1 e.2)) = keys m := by
  simp [keys, List.map_map, Function.comp_def]

theorem HostMap.mem_of_isSome_find {α : Type} (m : HostMap α) (h : String)
    (hs : (find m h).isSome = true) : ∃ v, (h, v) ∈ m := by
  obtain ⟨v, hv⟩ := Option.isSome_iff_exists.mp hs
  exact ⟨v, mem_of_find m h v hv⟩

/-- A pass of the scheduler on a state that has what the pass looks up, exactly: the pass
returns, the slots of every enabled host are swept, the queue of every host gains the
jobs of its slots that are due, and nothing else changes. -/
theorem PeriodicTasksScheduler.pass_exact (intervals : Intervals) (now : Int) (c : Controller)
    (hp : PassReady c) :
    (pass intervals now c).out = .returned ∧
    (∀ h, HostMap.find (pass intervals now c).st.periodic_tasks_scheduler_context_.tasks_ h =
      (HostMap.find c.periodic_tasks_scheduler_context_.tasks_ h).map
        (Spec.host_slots (due_ intervals now) c.configuration_ h)) ∧
    (∀ h, HostMap.find (pass intervals now c).st.host_controllers_ h =
      (HostMap.find c.host_controllers_ h).map fun w =>
        { queue := w.queue ++ Spec.added_jobs (due_ intervals now)
            c.periodic_tasks_scheduler_context_.states_ c.configuration_
            c.periodic_tasks_scheduler_context_.tasks_ h }) ∧
    (pass intervals now c).st.periodic_tasks_scheduler_context_.states_ =
      c.periodic_tasks_scheduler_context_.states_ ∧
    (pass intervals now c).st.periodic_tasks_scheduler_context_.host_controllers_ =
      c.periodic_tasks_scheduler_context_.host_controllers_ ∧
    (pass intervals now c).st.periodic_tasks_scheduler_context_.shutdown_triggered_ =
      c.periodic_tasks_scheduler_context_.shutdown_triggered_ ∧
    (pass intervals now c).st.configuration_ = c.configuration_ ∧
    (pass intervals now c).st.handler_registry_ = c.handler_registry_ ∧
    (pass intervals now c).st.shutdown_ = c.shutdown_ ∧
    HostMap.keys (pass intervals now c).st.periodic_tasks_scheduler_context_.tasks_ =
      HostMap.keys c.periodic_tasks_scheduler_context_.tasks_ := by
  have hyp : ∀ h ts, (h, ts) ∈ c.periodic_tasks_scheduler_context_.tasks_ →
      HostMap.find c.periodic_tasks_scheduler_context_.host_controllers_ h = some h ∧
      (HostMap.find c.periodic_tasks_scheduler_context_.states_ h).isSome = true ∧
      (HostMap.find c.configuration_.host_configurations_ h).isSome = true ∧
      (HostMap.find c.host_controllers_ h).isSome = true := by
    intro h ts hm
    apply hp.2 h
    rw [HostMap.find_of_mem _ h ts hp.1 hm]
    rfl
  obtain ⟨j1, j2, j3, j4⟩ := schedule_hosts_exact intervals now
    c.periodic_tasks_scheduler_context_.tasks_ c hp.1 hyp
  unfold pass
  generalize schedule_hosts intervals now c.periodic_tasks_scheduler_context_.tasks_ c = r at j1 j2 j3 j4
  refine ⟨?_, ?_, ?_, rfl, rfl, rfl, ?_, ?_, ?_, ?_⟩
  · simp only [j1]
  · intro h
    show HostMap.find r.val h = _
    rw [j2]
    exact HostMap.find_map_values _ _ h
  · exact j4
  · show r.st.configuration_ = _
    rw [j3]
  · show r.st.handler_registry_ = _
    rw [j3]
  · show r.st.shutdown_ = _
    rw [j3]
  · show HostMap.keys r.val = _
    rw [j2]
    exact HostMap.keys_map_values _ _

theorem Inv.pass_ready {c : Controller} (hc : Inv c) : PassReady c := by
  refine ⟨hc.tasks_nodup, ?_⟩
  intro h hs
  rw [hc.tasks_dom h] at hs
  obtain ⟨w, hw⟩ := Option.isSome_iff_exists.mp hs
  obtain ⟨-, a2, ⟨s, a3⟩, ⟨row, a4⟩⟩ := hc.present h w hw
  exact ⟨a2, by rw [a3]; rfl, by rw [a4]; rfl, by rw [hw]; rfl⟩

end Woinc

namespace Woinc

/-! ## The slot updates in the words of the spec -/

theorem List.map_eq_self_of {α : Type} (f : α → α) (l : List α) (h : ∀ x ∈ l, f x = x) :
    l.map f = l := by
  induction l with
  | nil => rfl
  | cons a rest ih =>
    simp only [List.map, List.cons.injEq]
    exact ⟨h a (List.mem_cons_self _ _), ih fun x hx => h x (List.mem_cons_of_mem _ hx)⟩

theorem PeriodicTasksSchedulerContext.reschedule_tasks_map (k : PeriodicTask) (tasks : List Task)
    (hn : (tasks.map Task.type).Nodup) : reschedule_tasks k tasks = tasks.map (Spec.nudge k) := by
  induction tasks with
  | nil => rfl
  | cons t rest ih =>
    simp only [List.map, List.nodup_cons] at hn
    unfold reschedule_tasks
    by_cases hk : t.type = k
    · rw [if_pos hk]
      have hrest : rest.map (Spec.nudge k) = rest := by
        apply List.map_eq_self_of
        intro x hx
        have : x.type ≠ k := by
          intro e
          apply hn.1
          rw [hk, ← e]
          exact List.mem_map.mpr ⟨x, hx, rfl⟩
        simp [Spec.nudge, this]
      simp only [List.map, hrest]
      simp [Spec.nudge, hk]
    · rw [if_neg hk, ih hn.2]
      simp [Spec.nudge, hk]

theorem PeriodicTasksScheduler.complete_tasks_map (k : PeriodicTask) (now : Int)
    (tasks : List Task) (hn : (tasks.map Task.type).Nodup) :
    complete_tasks k now tasks = tasks.map (Spec.complete k now) := by
  induction tasks with
  | nil => rfl
  | cons t rest ih =>
    simp only [List.map, List.nodup_cons] at hn
    unfold complete_tasks
    by_cases hk : t.type = k
    · rw [if_pos hk]
      have hrest : rest.map (Spec.complete k now) = rest := by
        apply List.map_eq_self_of
        intro x hx
        have : x.type ≠ k := by
          intro e
          apply hn.1
          rw [hk, ← e]
          exact List.mem_map.mpr ⟨x, hx, rfl⟩
        simp [Spec.complete, this]
      simp only [List.map, hrest]
      simp [Spec.complete, hk]
    · rw [if_neg hk, ih hn.2]
      simp [Spec.complete, hk]

theorem HostMap.assign_assign {α : Type} (m : HostMap α) (k : String) (x y : α) :
    assign (assign m k x) k y = assign m k y := by
  unfold assign
  rw [List.map_map]
  apply List.map_congr_left
  intro e _
  by_cases h : e.1 = k <;> simp [h]

/-- The lookup of the slots after a write to the slots of `host`. -/
theorem HostMap.find_assign_map {α : Type} (m : HostMap α) (host : String) (v : α) (f : α → α)
    (hv : find m host = some v) (h : String) :
    find (assign m host (f v)) h = (find m h).map fun x => if h = host then f x else x := by
  rw [find_assign_of_find m host (f v) v hv]
  by_cases hh : host = h
  · subst hh; simp [hv]
  · have : ¬ h = host := fun e => hh e.symm
    cases find m h <;> simp [hh, this]

/-- The callback on a host that has its slots and its poll state, in closed form. -/
theorem PeriodicTasksScheduler.handle_post_execution_ok (ctx : PeriodicTasksSchedulerContext)
    (host : String) (k : PeriodicTask) (payload : Payload) (now : Int) (tasks : List Task)
    (s : State) (ht : HostMap.find ctx.tasks_ host = some tasks)
    (hk : has_task k tasks = true) (hs : HostMap.find ctx.states_ host = some s) :
    handle_post_execution ctx host { task := k, payload := payload } now =
      { out := .returned
        st := { ctx with
          tasks_ := HostMap.assign ctx.tasks_ host (complete_tasks k now tasks)
          states_ :=
            if k = .GET_MESSAGES then
              HostMap.assign ctx.states_ host { s with messages_seqno := payload.seqno }
            else if k = .GET_NOTICES then
              HostMap.assign ctx.states_ host { s with notices_seqno := payload.seqno }
            else ctx.states_ }
        calls := [] } := by
  unfold handle_post_execution
  simp only [ht, hk, if_true, hs]
  by_cases h1 : k = .GET_MESSAGES
  · simp [h1, Ran.ret]
  · by_cases h2 : k = .GET_NOTICES
    · simp [h2, Ran.ret]
    · simp [h1, h2, Ran.ret]

theorem PeriodicTasksSchedulerContext.reschedule_now_ok (ctx : PeriodicTasksSchedulerContext)
    (host : String) (k : PeriodicTask) (tasks : List Task)
    (ht : HostMap.find ctx.tasks_ host = some tasks) :
    ctx.reschedule_now host k =
      { out := .returned
        st := { ctx with tasks_ := HostMap.assign ctx.tasks_ host (reschedule_tasks k tasks) }
        calls := [.scheduler_reschedule_now host k] } := by
  unfold reschedule_now
  rw [ht]
  rfl

/-- The slot of kind `k` after an update of the slots that keeps the kinds. -/
theorem List.find?_type_map (f : Task → Task) (hf : ∀ t, (f t).type = t.type) (k : PeriodicTask)
    (tasks : List Task) :
    (tasks.map f).find? (fun t => decide (t.type = k)) =
      (tasks.find? fun t => decide (t.type = k)).map f := by
  induction tasks with
  | nil => rfl
  | cons t rest ih =>
    simp only [List.map, List.find?_cons, hf]
    by_cases hk : t.type = k
    · simp [hk]
    · simp [hk, ih]

theorem wrap64_of_range (x : Int) (h1 : -(2 ^ 63) ≤ x) (h2 : x < 2 ^ 63) : wrap64 x = x := by
  unfold wrap64
  have h3 : (x + 2 ^ 63) % 2 ^ 64 = x + 2 ^ 63 := by
    apply Int.emod_eq_of_lt
    · omega
    · omega
  rw [h3]
  omega

theorem PeriodicTasksScheduler.due_eq_fires (intervals : Intervals) (now : Int) (t : Task)
    (h : Spec.in_range intervals t) : due_ intervals now t = Spec.fires intervals now t := by
  obtain ⟨h1, h2, h3, h4⟩ := h
  unfold due_ should_be_scheduled_ Spec.fires
  rw [wrap64_of_range _ h1 h2, wrap64_of_range _ h3 h4]

theorem Spec.nudge_type (k : PeriodicTask) (t : Task) : (Spec.nudge k t).type = t.type := by
  unfold Spec.nudge
  split <;> rfl

theorem Spec.complete_type (k : PeriodicTask) (now : Int) (t : Task) :
    (Spec.complete k now t).type = t.type := by
  unfold Spec.complete
  split <;> rfl

theorem PeriodicTasksScheduler.has_task_all (k : PeriodicTask) (tasks : List Task)
    (h : tasks.map Task.type = PeriodicTask.all) : has_task k tasks = true := by
  rw [has_task_iff]
  have hk : k ∈ tasks.map Task.type := by rw [h]; exact PeriodicTask.mem_all k
  obtain ⟨t, ht, e⟩ := List.mem_map.mp hk
  exact ⟨t, ht, e⟩

/-- What the invariant gives for a registered host: its worker, its slots, one per kind,
its poll state and its configuration row. -/
theorem Inv.registered {c : Controller} (hc : Inv c) (host : String)
    (hreg : c.has_host_ host = true) :
    ∃ w tasks s row,
      HostMap.find c.host_controllers_ host = some w ∧
      HostMap.find c.periodic_tasks_scheduler_context_.tasks_ host = some tasks ∧
      HostMap.find c.periodic_tasks_scheduler_context_.states_ host = some s ∧
      HostMap.find c.configuration_.host_configurations_ host = some row ∧
      HostMap.find c.periodic_tasks_scheduler_context_.host_controllers_ host = some host ∧
      tasks.map Task.type = PeriodicTask.all ∧ (tasks.map Task.type).Nodup ∧
      Bounded w.queue tasks := by
  unfold Controller.has_host_ at hreg
  obtain ⟨w, hw⟩ := Option.isSome_iff_exists.mp hreg
  obtain ⟨⟨tasks, ht⟩, hr, ⟨s, hs⟩, ⟨row, hrow⟩⟩ := hc.present host w hw
  have hk := hc.kinds host tasks ht
  exact ⟨w, tasks, s, row, hw, ht, hs, hrow, hr, hk, by rw [hk]; exact PeriodicTask.all_nodup,
    hc.bounded host w tasks hw ht⟩

end Woinc

namespace Woinc

/-! ## C11: the background removal of a host that is gone -/

/-- Claim C11, evaluated on the code: on a fresh controller (not shut down, no host) the
background removal `async_remove_host_("h")` does not complete: after the scheduler's
`remove_host`, `host_controllers_.at("h")` raises `std::out_of_range` on the detached
thread. The state is as before and no `on_host_removed` is broadcast. The synchronous
`remove_host` guards the same call of `remove_host_` with `verify_known_host_`. -/
theorem async_remove_host_gone :
    Controller.init.async_remove_host_ "h" =
      { out := .raised .out_of_range
        st := Controller.init
        calls := [.scheduler_remove_host "h"] } ∧
    (Controller.init.remove_host "h").out = .raised (.UnknownHostException "h") := by
  constructor
  · rfl
  · decide

/-! ## C12: the sequence numbers are echoed -/

/-- Claim C12: for a registered host h of a reachable controller, after the
post-execution callback of a periodic job of kind k whose payload carries `seqno = n`, the
poll state of h has `messages_seqno = n` when k is `GET_MESSAGES` and `notices_seqno = n`
when k is `GET_NOTICES`, the other sequence number and, for the seven other kinds, both
being as before, and the poll states of the other hosts unchanged; the next `GET_MESSAGES`
job that `schedule_` builds for h carries the `messages_seqno` so stored, the next
`GET_NOTICES` job the `notices_seqno`. -/
theorem seqno_echoed (c : Controller) (hr : Reachable c) (host : String)
    (hreg : c.has_host_ host = true) (k : PeriodicTask) (payload : Payload) (now : Int) :
    ∃ s, HostMap.find c.periodic_tasks_scheduler_context_.states_ host = some s ∧
      (PeriodicTasksScheduler.handle_post_execution c.periodic_tasks_scheduler_context_ host
        { task := k, payload := payload } now).out = .returned ∧
      HostMap.find (PeriodicTasksScheduler.handle_post_execution
          c.periodic_tasks_scheduler_context_ host { task := k, payload := payload } now).st.states_
          host =
        some { messages_seqno := if k = .GET_MESSAGES then payload.seqno else s.messages_seqno
               notices_seqno := if k = .GET_NOTICES then payload.seqno else s.notices_seqno } ∧
      (∀ h, h ≠ host →
        HostMap.find (PeriodicTasksScheduler.handle_post_execution
          c.periodic_tasks_scheduler_context_ host { task := k, payload := payload } now).st.states_ h =
        HostMap.find c.periodic_tasks_scheduler_context_.states_ h) ∧
      (∀ task : Task, task.type = .GET_MESSAGES →
        (PeriodicTasksScheduler.schedule_
          { c with periodic_tasks_scheduler_context_ :=
              (PeriodicTasksScheduler.handle_post_execution c.periodic_tasks_scheduler_context_ host
                { task := k, payload := payload } now).st } host task).calls =
          [.worker_schedule host (.periodic
            { task := .GET_MESSAGES
              payload :=
                { seqno := if k = .GET_MESSAGES then payload.seqno else s.messages_seqno
                  active_only := false } })]) ∧
      (∀ task : Task, task.type = .GET_NOTICES →
        (PeriodicTasksScheduler.schedule_
          { c with periodic_tasks_scheduler_context_ :=
              (PeriodicTasksScheduler.handle_post_execution c.periodic_tasks_scheduler_context_ host
                { task := k, payload := payload } now).st } host task).calls =
          [.worker_schedule host (.periodic
            { task := .GET_NOTICES
              payload :=
                { seqno := if k = .GET_NOTICES then payload.seqno else s.notices_seqno
                  active_only := false } })]) := by
  obtain ⟨w, tasks, s, row, hw, ht, hs, hrow, href, hk, -, -⟩ := hr.inv.registered host hreg
  have hok := PeriodicTasksScheduler.handle_post_execution_ok c.periodic_tasks_scheduler_context_
    host k payload now tasks s ht (PeriodicTasksScheduler.has_task_all k tasks hk) hs
  have hst : HostMap.find (PeriodicTasksScheduler.handle_post_execution
      c.periodic_tasks_scheduler_context_ host { task := k, payload := payload } now).st.states_ host =
      some { messages_seqno := if k = .GET_MESSAGES then payload.seqno else s.messages_seqno
             notices_seqno := if k = .GET_NOTICES then payload.seqno else s.notices_seqno } := by
    rw [hok]
    by_cases h1 : k = .GET_MESSAGES
    · simp [h1, HostMap.find_assign_of_find _ _ _ _ hs]
    · by_cases h2 : k = .GET_NOTICES
      · simp [h2, HostMap.find_assign_of_find _ _ _ _ hs]
      · simp [h1, h2, hs]
  have hjob : ∀ task : Task,
      (PeriodicTasksScheduler.schedule_
        { c with periodic_tasks_scheduler_context_ :=
            (PeriodicTasksScheduler.handle_post_execution c.periodic_tasks_scheduler_context_ host
              { task := k, payload := payload } now).st } host task).calls =
        [.worker_schedule host (.periodic
          { task := task.type
            payload := Spec.payload
              { messages_seqno := if k = .GET_MESSAGES then payload.seqno else s.messages_seqno
                notices_seqno := if k = .GET_NOTICES then payload.seqno else s.notices_seqno }
              row.active_only_tasks task.type })] := by
    intro task
    have href1 : HostMap.find (PeriodicTasksScheduler.handle_post_execution
        c.periodic_tasks_scheduler_context_ host { task := k, payload := payload }
        now).st.host_controllers_ host = some host := by
      rw [hok]; exact href
    rw [PeriodicTasksScheduler.schedule_ok
      { c with periodic_tasks_scheduler_context_ :=
          (PeriodicTasksScheduler.handle_post_execution c.periodic_tasks_scheduler_context_ host
            { task := k, payload := payload } now).st }
      host task
      { messages_seqno := if k = .GET_MESSAGES then payload.seqno else s.messages_seqno
        notices_seqno := if k = .GET_NOTICES then payload.seqno else s.notices_seqno }
      row w href1 hst hrow hw]
  refine ⟨s, hs, by rw [hok], hst, ?_, ?_, ?_⟩
  · intro h hne
    have hn : ¬ host = h := fun e => hne e.symm
    rw [hok]
    by_cases h1 : k = .GET_MESSAGES
    · simp [h1, HostMap.find_assign, hn]
    · by_cases h2 : k = .GET_NOTICES
      · simp [h2, HostMap.find_assign, hn]
      · simp [h1, h2]
  · intro task hty
    rw [hjob task, hty]
    rfl
  · intro task hty
    rw [hjob task, hty]
    rfl

/-- The witness of C12: the callback of a `GET_MESSAGES` job with `seqno = 42` on the
host "h". -/
theorem seqno_echoed_witness :
    ∃ s, HostMap.find (Controller.init.add_host "h" "u" 1).st.periodic_tasks_scheduler_context_.states_
        "h" = some s ∧
      (PeriodicTasksScheduler.handle_post_execution
        (Controller.init.add_host "h" "u" 1).st.periodic_tasks_scheduler_context_ "h"
        { task := .GET_MESSAGES, payload := { seqno := 42, active_only := false } } 5).out =
        .returned ∧
      HostMap.find (PeriodicTasksScheduler.handle_post_execution
          (Controller.init.add_host "h" "u" 1).st.periodic_tasks_scheduler_context_ "h"
          { task := .GET_MESSAGES, payload := { seqno := 42, active_only := false } } 5).st.states_
          "h" =
        some { messages_seqno :=
                 if PeriodicTask.GET_MESSAGES = .GET_MESSAGES then
                   ({ seqno := 42, active_only := false } : Payload).seqno
                 else s.messages_seqno
               notices_seqno :=
                 if PeriodicTask.GET_MESSAGES = .GET_NOTICES then
                   ({ seqno := 42, active_only := false } : Payload).seqno
                 else s.notices_seqno } :=
  (seqno_echoed _ (Reachable.add_host "h" "u" 1 Reachable.init) "h" (by decide) .GET_MESSAGES
    { seqno := 42, active_only := false } 5).imp fun _ hx => ⟨hx.1, hx.2.1, hx.2.2.1⟩

end Woinc

namespace Woinc

/-! ## C13: a slot at `time_point::min()` fires at the next pass -/

theorem Reachable.not_shutdown_of_host {c : Controller} (hr : Reachable c) (host : String)
    (hreg : c.has_host_ host = true) : c.shutdown_ = false := by
  by_contra hn
  rw [Bool.not_eq_false] at hn
  have := hr.no_host_after_shutdown hn
  unfold Controller.has_host_ at hreg
  rw [this] at hreg
  simp [HostMap.find_nil] at hreg

theorem Controller.reschedule_now_closed (c : Controller) (host : String) (k : PeriodicTask)
    (tasks : List Task) (hh : host ≠ "") (hsd : c.shutdown_ = false)
    (hreg : c.has_host_ host = true)
    (ht : HostMap.find c.periodic_tasks_scheduler_context_.tasks_ host = some tasks) :
    c.reschedule_now host k =
      { out := .returned
        st := { c with periodic_tasks_scheduler_context_ :=
          { c.periodic_tasks_scheduler_context_ with
            tasks_ := HostMap.assign c.periodic_tasks_scheduler_context_.tasks_ host
              (PeriodicTasksSchedulerContext.reschedule_tasks k tasks) } }
        calls := [.scheduler_reschedule_now host k] } := by
  have hne : ¬ HostMap.find c.host_controllers_ host = none := by
    unfold Controller.has_host_ at hreg
    intro e
    rw [e] at hreg
    simp at hreg
  unfold Controller.reschedule_now
  rw [check_not_empty_host_name_bind, if_neg hh, Controller.verify_not_shutdown_bind,
    if_neg (by simp [hsd]), Controller.verify_known_host_bind, if_neg hne,
    PeriodicTasksSchedulerContext.reschedule_now_ok _ host k tasks ht]
  rfl

theorem PeriodicTasksSchedulerContext.slot_eq (ctx : PeriodicTasksSchedulerContext) (host : String)
    (k : PeriodicTask) (tasks : List Task) (ht : HostMap.find ctx.tasks_ host = some tasks) :
    ctx.slot host k = tasks.find? fun t => decide (t.type = k) := by
  unfold slot
  rw [ht]

theorem PeriodicTasksSchedulerContext.slot_some (ctx : PeriodicTasksSchedulerContext)
    (host : String) (k : PeriodicTask) (t : Task) (h : ctx.slot host k = some t) :
    ∃ tasks, HostMap.find ctx.tasks_ host = some tasks ∧
      tasks.find? (fun t => decide (t.type = k)) = some t ∧ t ∈ tasks ∧ t.type = k := by
  unfold slot at h
  cases ht : HostMap.find ctx.tasks_ host with
  | none => rw [ht] at h; simp at h
  | some tasks =>
    rw [ht] at h
    exact ⟨tasks, rfl, h, List.mem_of_find?_eq_some h, by simpa using List.find?_some h⟩

/-- A slot at `time_point::min()` is due at every time from 0 on, for every interval of
the range of `int`: the sum does not wrap. -/
theorem PeriodicTasksScheduler.should_be_scheduled_min (intervals : Intervals) (now : Int)
    (t0 : Task) (h0 : t0.last_execution = time_point_min)
    (hi : 0 < intervals.at t0.type ∧ intervals.at t0.type < 2 ^ 31) (hnow : 0 ≤ now) :
    wrap64 (t0.last_execution + wrap64 (intervals.at t0.type * ticks_per_second)) =
      t0.last_execution + intervals.at t0.type * ticks_per_second ∧
    should_be_scheduled_ t0 intervals now = true := by
  obtain ⟨hi1, hi2⟩ := hi
  have e31 : (2 : Int) ^ 31 = 2147483648 := by norm_num
  have e63 : (2 : Int) ^ 63 = 9223372036854775808 := by norm_num
  rw [e31] at hi2
  have r1 : -(2 ^ 63) ≤ intervals.at t0.type * ticks_per_second := by
    rw [e63]; unfold ticks_per_second; omega
  have r2 : intervals.at t0.type * ticks_per_second < 2 ^ 63 := by
    rw [e63]; unfold ticks_per_second; omega
  have r3 : -(2 ^ 63) ≤ t0.last_execution + intervals.at t0.type * ticks_per_second := by
    rw [h0, e63]; unfold time_point_min ticks_per_second; rw [e63]; omega
  have r4 : t0.last_execution + intervals.at t0.type * ticks_per_second < 2 ^ 63 := by
    rw [h0, e63]; unfold time_point_min ticks_per_second; rw [e63]; omega
  have w1 := wrap64_of_range _ r1 r2
  have w2 := wrap64_of_range _ r3 r4
  refine ⟨by rw [w1, w2], ?_⟩
  unfold should_be_scheduled_
  rw [w1, w2, h0]
  unfold time_point_min ticks_per_second
  rw [e63]
  simp only [ge_iff_le, decide_eq_true_eq]
  omega

/-- A pass over a state that satisfies the invariant, in which the slot (host, k) is not
pending and at `time_point::min()` and the host is enabled: the pass returns, the queue of
the host held no job of kind k and holds exactly one afterwards, and the slot is pending. -/
theorem PeriodicTasksScheduler.pass_fires_min (c : Controller) (hc : Inv c) (host : String)
    (k : PeriodicTask) (t : Task) (intervals : Intervals) (now : Int)
    (hint : ∀ k', 0 < intervals.at k' ∧ intervals.at k' < 2 ^ 31) (hnow : 0 ≤ now)
    (hslot : c.periodic_tasks_scheduler_context_.slot host k = some t)
    (hnp : t.pending = false) (hmin : t.last_execution = time_point_min)
    (hen : c.configuration_.schedule_periodic_tasks host = .ok true) :
    (pass intervals now c).out = .returned ∧
    ∃ w w', HostMap.find c.host_controllers_ host = some w ∧
      HostMap.find (pass intervals now c).st.host_controllers_ host = some w' ∧
      periodic_count k w.queue = 0 ∧ periodic_count k w'.queue = 1 ∧
      (pass intervals now c).st.periodic_tasks_scheduler_context_.slot host k =
        some { t with pending := true } := by
  obtain ⟨tasks, ht, hfind, hmem, hty⟩ :=
    PeriodicTasksSchedulerContext.slot_some _ host k t hslot
  have hreg : c.has_host_ host = true := by
    unfold Controller.has_host_
    rw [← hc.tasks_dom, ht]; rfl
  obtain ⟨w, tasks', s, row, hw, ht', hs, hrow, -, -, -, hb⟩ := hc.registered host hreg
  rw [ht] at ht'
  simp only [Option.some.injEq] at ht'
  subst ht'
  have hrowen : row.schedule_periodic_tasks = true := by
    unfold Configuration.schedule_periodic_tasks at hen
    rw [hrow] at hen
    simpa using hen
  have hdue : due_ intervals now t = true := by
    unfold due_
    rw [hnp, (should_be_scheduled_min intervals now t hmin (hint _) hnow).2]
    rfl
  obtain ⟨p1, p2, p3, -⟩ := pass_exact intervals now c hc.pass_ready
  have hjobs : Spec.added_jobs (due_ intervals now) c.periodic_tasks_scheduler_context_.states_
      c.configuration_ c.periodic_tasks_scheduler_context_.tasks_ host =
      Spec.pass_jobs (due_ intervals now) s row.active_only_tasks tasks := by
    simp [Spec.added_jobs, Spec.host_jobs, ht, hs, hrow, hrowen]
  have hw' : HostMap.find (pass intervals now c).st.host_controllers_ host =
      some { queue := w.queue ++ Spec.pass_jobs (due_ intervals now) s row.active_only_tasks tasks } := by
    rw [p3 host, hw, hjobs]; rfl
  have ht2 : HostMap.find (pass intervals now c).st.periodic_tasks_scheduler_context_.tasks_ host =
      some (Spec.pass_slots (due_ intervals now) tasks) := by
    rw [p2 host, ht]
    simp [Spec.host_slots, hrow, hrowen]
  have hslot2 : (pass intervals now c).st.periodic_tasks_scheduler_context_.slot host k =
      some { t with pending := true } := by
    rw [PeriodicTasksSchedulerContext.slot_eq _ host k _ ht2]
    unfold Spec.pass_slots
    rw [List.find?_type_map _ (by intro x; split <;> rfl) k tasks, hfind]
    simp [hdue]
  have h0 : periodic_count k w.queue = 0 := by
    have := hb t hmem
    rw [hty, hnp] at this
    simpa using this
  have hge : 1 ≤ periodic_count k (Spec.pass_jobs (due_ intervals now) s row.active_only_tasks tasks) := by
    unfold periodic_count
    apply List.countP_pos_iff.mpr
    refine ⟨.periodic { task := t.type, payload := Spec.payload s row.active_only_tasks t.type }, ?_, ?_⟩
    · unfold Spec.pass_jobs
      exact List.mem_map.mpr ⟨t, List.mem_filter.mpr ⟨hmem, hdue⟩, rfl⟩
    · simp [hty]
  have hle : periodic_count k
      (w.queue ++ Spec.pass_jobs (due_ intervals now) s row.active_only_tasks tasks) ≤ 1 := by
    obtain ⟨t2, -, hm2, hty2⟩ := PeriodicTasksSchedulerContext.slot_some _ host k _ hslot2
    have hb2 := (hc.pass intervals now).bounded host _ _ hw' ht2 _
      (List.mem_of_find?_eq_some (by
        rw [← PeriodicTasksSchedulerContext.slot_eq _ host k _ ht2]; exact hslot2))
    simp only [hty] at hb2
    refine le_trans hb2 ?_
    split <;> simp
  refine ⟨p1, w, _, hw, hw', h0, ?_, hslot2⟩
  rw [periodic_count_append, h0] at hle ⊢
  omega

end Woinc

namespace Woinc

/-- Claim C13: for every time `now ≥ 0` of the steady clock and every table of positive
intervals of the range of `int`, `should_be_scheduled_` on a slot with
`last_execution = time_point::min()` computes `last_execution + interval` without wrapping
and returns true; so, on a registered host of a reachable controller with
`schedule_enabled = true`, a slot that is not pending and at `time_point::min()` (a fresh
slot), or one that is not pending and has just been nudged by `reschedule_now`, whatever
its last execution time was, has no job in the queue before the next pass and exactly one
after it, the pass returning and leaving the slot pending. -/
theorem min_slot_fires (c : Controller) (hr : Reachable c) (host : String) (hh : host ≠ "")
    (k : PeriodicTask) (t : Task) (intervals : Intervals) (now : Int)
    (hint : ∀ k', 0 < intervals.at k' ∧ intervals.at k' < 2 ^ 31) (hnow : 0 ≤ now)
    (hslot : c.periodic_tasks_scheduler_context_.slot host k = some t) (hnp : t.pending = false)
    (hen : c.configuration_.schedule_periodic_tasks host = .ok true) :
    (∀ t0 : Task, t0.last_execution = time_point_min →
      wrap64 (t0.last_execution + wrap64 (intervals.at t0.type * ticks_per_second)) =
        t0.last_execution + intervals.at t0.type * ticks_per_second ∧
      PeriodicTasksScheduler.should_be_scheduled_ t0 intervals now = true) ∧
    (t.last_execution = time_point_min →
      (PeriodicTasksScheduler.pass intervals now c).out = .returned ∧
      ∃ w w', HostMap.find c.host_controllers_ host = some w ∧
        HostMap.find (PeriodicTasksScheduler.pass intervals now c).st.host_controllers_ host =
          some w' ∧
        periodic_count k w.queue = 0 ∧ periodic_count k w'.queue = 1 ∧
        (PeriodicTasksScheduler.pass intervals now c).st.periodic_tasks_scheduler_context_.slot
          host k = some { t with pending := true }) ∧
    ((PeriodicTasksScheduler.pass intervals now (c.reschedule_now host k).st).out = .returned ∧
      ∃ w w', HostMap.find (c.reschedule_now host k).st.host_controllers_ host = some w ∧
        HostMap.find (PeriodicTasksScheduler.pass intervals now
          (c.reschedule_now host k).st).st.host_controllers_ host = some w' ∧
        periodic_count k w.queue = 0 ∧ periodic_count k w'.queue = 1 ∧
        (PeriodicTasksScheduler.pass intervals now
          (c.reschedule_now host k).st).st.periodic_tasks_scheduler_context_.slot host k =
          some { t with last_execution := time_point_min, pending := true }) := by
  have hc := hr.inv
  refine ⟨fun t0 h0 => PeriodicTasksScheduler.should_be_scheduled_min intervals now t0 h0 (hint _) hnow,
    fun hmin => PeriodicTasksScheduler.pass_fires_min c hc host k t intervals now hint hnow hslot hnp
      hmin hen, ?_⟩
  obtain ⟨tasks, ht, hfind, hmem, hty⟩ :=
    PeriodicTasksSchedulerContext.slot_some _ host k t hslot
  have hreg : c.has_host_ host = true := by
    unfold Controller.has_host_
    rw [← hc.tasks_dom, ht]; rfl
  obtain ⟨w, tasks', s, row, hw, ht', hs, hrow, -, -, hnd, hb⟩ := hc.registered host hreg
  rw [ht] at ht'
  simp only [Option.some.injEq] at ht'
  subst ht'
  have hok := Controller.reschedule_now_closed c host k tasks hh (hr.not_shutdown_of_host host hreg)
    hreg ht
  have hc2 : Inv (c.reschedule_now host k).st := hc.reschedule_now host k
  have hslot2 : (c.reschedule_now host k).st.periodic_tasks_scheduler_context_.slot host k =
      some { t with last_execution := time_point_min } := by
    have ht2 : HostMap.find (c.reschedule_now host k).st.periodic_tasks_scheduler_context_.tasks_ host =
        some (tasks.map (Spec.nudge k)) := by
      rw [hok]
      show HostMap.find (HostMap.assign _ _ _) host = _
      rw [HostMap.find_assign_of_find _ _ _ _ ht,
        PeriodicTasksSchedulerContext.reschedule_tasks_map k tasks hnd]
      simp
    rw [PeriodicTasksSchedulerContext.slot_eq _ host k _ ht2,
      List.find?_type_map _ (Spec.nudge_type k) k tasks, hfind]
    simp [Spec.nudge, hty]
  have hen2 : (c.reschedule_now host k).st.configuration_.schedule_periodic_tasks host = .ok true := by
    rw [hok]; exact hen
  exact PeriodicTasksScheduler.pass_fires_min _ hc2 host k
    { t with last_execution := time_point_min } intervals now hint hnow hslot2 hnp rfl hen2

/-- The witness of C13: the slot `GET_TASKS` of the enabled host "h", fresh and nudged, at
time 0 with the default intervals. -/
theorem min_slot_fires_witness :
    PeriodicTasksScheduler.should_be_scheduled_ (Task.new .GET_TASKS) Intervals.default 0 = true ∧
    (PeriodicTasksScheduler.pass Intervals.default 0
      ((Controller.init.add_host "h" "u" 1).st.schedule_periodic_tasks "h" true).st).out =
      .returned ∧
    (PeriodicTasksScheduler.pass Intervals.default 0
      (Controller.reschedule_now
        ((Controller.init.add_host "h" "u" 1).st.schedule_periodic_tasks "h" true).st
        "h" .GET_TASKS).st).out = .returned :=
  ⟨((min_slot_fires _
      (Reachable.schedule_periodic_tasks "h" true (Reachable.add_host "h" "u" 1 Reachable.init))
      "h" (by decide) .GET_TASKS (Task.new .GET_TASKS) Intervals.default 0
      (by intro k'; cases k' <;> decide) (by decide) (by decide) rfl rfl).1
      (Task.new .GET_TASKS) rfl).2,
   ((min_slot_fires _
      (Reachable.schedule_periodic_tasks "h" true (Reachable.add_host "h" "u" 1 Reachable.init))
      "h" (by decide) .GET_TASKS (Task.new .GET_TASKS) Intervals.default 0
      (by intro k'; cases k' <;> decide) (by decide) (by decide) rfl rfl).2.1 rfl).1,
   (min_slot_fires _
      (Reachable.schedule_periodic_tasks "h" true (Reachable.add_host "h" "u" 1 Reachable.init))
      "h" (by decide) .GET_TASKS (Task.new .GET_TASKS) Intervals.default 0
      (by intro k'; cases k' <;> decide) (by decide) (by decide) rfl rfl).2.2.1⟩

end Woinc

namespace Woinc

/-! ## C14: a nudge on a pending slot -/

/-- A pass over a state that satisfies the invariant, in which the slot (host, k) is
pending: the pass returns, the queue of the host gains no job of kind k, and the slot is
as before. -/
theorem PeriodicTasksScheduler.pass_pending (c : Controller) (hc : Inv c) (host : String)
    (k : PeriodicTask) (t : Task) (w : HostController) (intervals : Intervals) (now : Int)
    (hslot : c.periodic_tasks_scheduler_context_.slot host k = some t)
    (hp : t.pending = true) (hw : HostMap.find c.host_controllers_ host = some w) :
    (pass intervals now c).out = .returned ∧
    ∃ w', HostMap.find (pass intervals now c).st.host_controllers_ host = some w' ∧
      periodic_count k w'.queue = periodic_count k w.queue ∧
      (pass intervals now c).st.periodic_tasks_scheduler_context_.slot host k = some t := by
  obtain ⟨tasks, ht, hfind, hmem, hty⟩ :=
    PeriodicTasksSchedulerContext.slot_some _ host k t hslot
  have hreg : c.has_host_ host = true := by
    unfold Controller.has_host_
    rw [hw]; rfl
  obtain ⟨w0, tasks', s, row, hw0, ht', hs, hrow, -, -, hnd, -⟩ := hc.registered host hreg
  rw [ht] at ht'
  simp only [Option.some.injEq] at ht'
  subst ht'
  rw [hw] at hw0
  simp only [Option.some.injEq] at hw0
  subst hw0
  have hdue : due_ intervals now t = false := by
    unfold due_
    rw [hp]; rfl
  obtain ⟨p1, p2, p3, -⟩ := pass_exact intervals now c hc.pass_ready
  have hcount : periodic_count k (Spec.added_jobs (due_ intervals now)
      c.periodic_tasks_scheduler_context_.states_ c.configuration_
      c.periodic_tasks_scheduler_context_.tasks_ host) = 0 := by
    unfold Spec.added_jobs Spec.host_jobs
    rw [ht, hs, hrow]
    simp only
    split
    · unfold periodic_count Spec.pass_jobs
      rw [List.countP_eq_zero]
      intro job hj
      obtain ⟨t', ht'm, rfl⟩ := List.mem_map.mp hj
      obtain ⟨hm', hd'⟩ := List.mem_filter.mp ht'm
      simp only [decide_eq_true_eq]
      intro e
      have : t' = t := List.inj_on_of_nodup_map hnd hm' hmem (by rw [e, hty])
      rw [this, hdue] at hd'
      exact Bool.noConfusion hd'
    · rfl
  refine ⟨p1, ⟨w.queue ++ Spec.added_jobs (due_ intervals now)
      c.periodic_tasks_scheduler_context_.states_ c.configuration_
      c.periodic_tasks_scheduler_context_.tasks_ host⟩, ?_, ?_, ?_⟩
  · rw [p3 host, hw]; rfl
  · show periodic_count k (w.queue ++ _) = _
    rw [periodic_count_append, hcount]; rfl
  · have ht2 : HostMap.find (pass intervals now c).st.periodic_tasks_scheduler_context_.tasks_ host =
        some (Spec.host_slots (due_ intervals now) c.configuration_ host tasks) := by
      rw [p2 host, ht]; rfl
    rw [PeriodicTasksSchedulerContext.slot_eq _ host k _ ht2]
    unfold Spec.host_slots
    rw [hrow]
    simp only
    split
    · unfold Spec.pass_slots
      rw [List.find?_type_map _ (by intro x; split <;> rfl) k tasks, hfind]
      simp [hdue]
    · exact hfind

/-- The loop of the scheduler, run for any number of iterations over a state in which the
slot (host, k) is pending, adds no job of kind k to the queue of the host and leaves the
slot as it is. -/
theorem PeriodicTasksScheduler.run_pending (host : String) (k : PeriodicTask) (t : Task)
    (hp : t.pending = true) :
    ∀ (nows : List Int) (loc : SchedulerLocals) (c : Controller) (w : HostController), Inv c →
      c.periodic_tasks_scheduler_context_.slot host k = some t →
      HostMap.find c.host_controllers_ host = some w →
      ∃ w', HostMap.find (run loc nows c).host_controllers_ host = some w' ∧
        periodic_count k w'.queue = periodic_count k w.queue ∧
        (run loc nows c).periodic_tasks_scheduler_context_.slot host k = some t := by
  intro nows
  induction nows with
  | nil =>
    intro loc c w _ hs hw
    exact ⟨w, hw, rfl, hs⟩
  | cons now rest ih =>
    intro loc c w hc hs hw
    have key : (iteration loc now c).out = .returned ∧
        ∃ w1, HostMap.find (iteration loc now c).st.host_controllers_ host = some w1 ∧
          periodic_count k w1.queue = periodic_count k w.queue ∧
          (iteration loc now c).st.periodic_tasks_scheduler_context_.slot host k = some t := by
      unfold iteration
      split
      · exact ⟨rfl, w, hw, rfl, hs⟩
      · exact pass_pending c hc host k t w _ now hs hp hw
    obtain ⟨ho, w1, hw1, hc1, hs1⟩ := key
    obtain ⟨w', a, b, d⟩ := ih (refresh loc c) _ w1 (hc.iteration loc now) hs1 hw1
    have hrun : run loc (now :: rest) c = run (refresh loc c) rest (iteration loc now c).st := by
      rw [run, ho]
    rw [hrun]
    exact ⟨w', a, b.trans hc1, d⟩

theorem Spec.complete_nudge (k : PeriodicTask) (now : Int) (t : Task) :
    Spec.complete k now (Spec.nudge k t) = Spec.complete k now t := by
  unfold Spec.complete Spec.nudge
  by_cases h : t.type = k <;> simp [h]

/-- Claim C14: on a reachable controller in which the slot (h, k) of a host with non-empty
id is pending, `reschedule_now(h, k)` returns, calls nothing but the scheduler's
`reschedule_now`, leaves every queue as it is and the slot pending; the scheduler loop, run
for any number of iterations on the state after the nudge, adds no job of kind k to the
queue of h (at most one is there) and leaves the slot pending; the post-execution callback
for a job of kind k of h at time `now` does on the state after the nudge exactly what it
does on the state without the nudge, and leaves the slot with `last_execution = now` and
`pending = false`; and such a slot, its sum within the 64 bit ticks, is due at `now2`
exactly when `now + interval(k) ≤ now2`. -/
theorem nudge_while_pending (c : Controller) (hr : Reachable c) (host : String) (hh : host ≠ "")
    (k : PeriodicTask) (t : Task)
    (hslot : c.periodic_tasks_scheduler_context_.slot host k = some t) (hp : t.pending = true) :
    ((c.reschedule_now host k).out = .returned ∧
      (c.reschedule_now host k).calls = [.scheduler_reschedule_now host k] ∧
      (c.reschedule_now host k).st.host_controllers_ = c.host_controllers_ ∧
      (c.reschedule_now host k).st.periodic_tasks_scheduler_context_.slot host k =
        some { t with last_execution := time_point_min, pending := true }) ∧
    (∃ w, HostMap.find c.host_controllers_ host = some w ∧ periodic_count k w.queue ≤ 1 ∧
      ∀ loc nows, ∃ w',
        HostMap.find (PeriodicTasksScheduler.run loc nows
          (c.reschedule_now host k).st).host_controllers_ host = some w' ∧
        periodic_count k w'.queue = periodic_count k w.queue ∧
        (PeriodicTasksScheduler.run loc nows
          (c.reschedule_now host k).st).periodic_tasks_scheduler_context_.slot host k =
          some { t with last_execution := time_point_min, pending := true }) ∧
    (∀ payload now,
      PeriodicTasksScheduler.handle_post_execution
          (c.reschedule_now host k).st.periodic_tasks_scheduler_context_ host
          { task := k, payload := payload } now =
        PeriodicTasksScheduler.handle_post_execution c.periodic_tasks_scheduler_context_ host
          { task := k, payload := payload } now ∧
      (PeriodicTasksScheduler.handle_post_execution
          (c.reschedule_now host k).st.periodic_tasks_scheduler_context_ host
          { task := k, payload := payload } now).out = .returned ∧
      (PeriodicTasksScheduler.handle_post_execution
          (c.reschedule_now host k).st.periodic_tasks_scheduler_context_ host
          { task := k, payload := payload } now).st.slot host k =
        some { t with last_execution := now, pending := false }) ∧
    (∀ intervals now now2,
      Spec.in_range intervals { t with last_execution := now, pending := false } →
      (PeriodicTasksScheduler.due_ intervals now2
          { t with last_execution := now, pending := false } = true ↔
        now + intervals.at k * ticks_per_second ≤ now2)) := by
  have hc := hr.inv
  obtain ⟨tasks, ht, hfind, hmem, hty⟩ :=
    PeriodicTasksSchedulerContext.slot_some _ host k t hslot
  have hreg : c.has_host_ host = true := by
    unfold Controller.has_host_
    rw [← hc.tasks_dom, ht]; rfl
  obtain ⟨w, tasks', s, row, hw, ht', hs, hrow, -, hall, hnd, hb⟩ := hc.registered host hreg
  rw [ht] at ht'
  simp only [Option.some.injEq] at ht'
  subst ht'
  have hok := Controller.reschedule_now_closed c host k tasks hh (hr.not_shutdown_of_host host hreg)
    hreg ht
  have hc2 : Inv (c.reschedule_now host k).st := hc.reschedule_now host k
  have hteq : ({ t with last_execution := time_point_min, pending := true } : Task) =
      { t with last_execution := time_point_min } := by
    rw [← hp]
  have ht2 : HostMap.find (c.reschedule_now host k).st.periodic_tasks_scheduler_context_.tasks_ host =
      some (tasks.map (Spec.nudge k)) := by
    rw [hok]
    show HostMap.find (HostMap.assign _ _ _) host = _
    rw [HostMap.find_assign_of_find _ _ _ _ ht,
      PeriodicTasksSchedulerContext.reschedule_tasks_map k tasks hnd]
    simp
  have hslot2 : (c.reschedule_now host k).st.periodic_tasks_scheduler_context_.slot host k =
      some { t with last_execution := time_point_min, pending := true } := by
    rw [PeriodicTasksSchedulerContext.slot_eq _ host k _ ht2,
      List.find?_type_map _ (Spec.nudge_type k) k tasks, hfind, hteq]
    simp [Spec.nudge, hty]
  have hw2 : HostMap.find (c.reschedule_now host k).st.host_controllers_ host = some w := by
    rw [hok]; exact hw
  have hle : periodic_count k w.queue ≤ 1 := by
    have := hb t hmem
    rw [hty, hp] at this
    simpa using this
  refine ⟨⟨by rw [hok], by rw [hok], by rw [hok], hslot2⟩, ⟨w, hw, hle, ?_⟩, ?_, ?_⟩
  · intro loc nows
    exact PeriodicTasksScheduler.run_pending host k _ rfl nows loc _ w hc2 hslot2 hw2
  · intro payload now
    have hs2 : HostMap.find (c.reschedule_now host k).st.periodic_tasks_scheduler_context_.states_ host =
        some s := by
      rw [hok]; exact hs
    have hnd2 : ((tasks.map (Spec.nudge k)).map Task.type).Nodup := by
      rw [List.map_map]
      have : (Task.type ∘ Spec.nudge k) = Task.type := by
        funext x; exact Spec.nudge_type k x
      rw [this]; exact hnd
    have hall2 : (tasks.map (Spec.nudge k)).map Task.type = PeriodicTask.all := by
      rw [List.map_map]
      have : (Task.type ∘ Spec.nudge k) = Task.type := by
        funext x; exact Spec.nudge_type k x
      rw [this]; exact hall
    have e1 := PeriodicTasksScheduler.handle_post_execution_ok
      (c.reschedule_now host k).st.periodic_tasks_scheduler_context_ host k payload now _ s ht2
      (PeriodicTasksScheduler.has_task_all k _ hall2) hs2
    have e0 := PeriodicTasksScheduler.handle_post_execution_ok
      c.periodic_tasks_scheduler_context_ host k payload now _ s ht
      (PeriodicTasksScheduler.has_task_all k _ hall) hs
    have hcomp : PeriodicTasksScheduler.complete_tasks k now (tasks.map (Spec.nudge k)) =
        PeriodicTasksScheduler.complete_tasks k now tasks := by
      rw [PeriodicTasksScheduler.complete_tasks_map k now _ hnd2,
        PeriodicTasksScheduler.complete_tasks_map k now _ hnd, List.map_map]
      apply List.map_congr_left
      intro x _
      exact Spec.complete_nudge k now x
    have hst : (c.reschedule_now host k).st.periodic_tasks_scheduler_context_ =
        { c.periodic_tasks_scheduler_context_ with
          tasks_ := HostMap.assign c.periodic_tasks_scheduler_context_.tasks_ host
            (PeriodicTasksSchedulerContext.reschedule_tasks k tasks) } := by
      rw [hok]
    have eq : PeriodicTasksScheduler.handle_post_execution
          (c.reschedule_now host k).st.periodic_tasks_scheduler_context_ host
          { task := k, payload := payload } now =
        PeriodicTasksScheduler.handle_post_execution c.periodic_tasks_scheduler_context_ host
          { task := k, payload := payload } now := by
      rw [e1, e0, hcomp, hst]
      simp only [HostMap.assign_assign]
    refine ⟨eq, by rw [e1], ?_⟩
    rw [eq, e0]
    have ht3 : HostMap.find (HostMap.assign c.periodic_tasks_scheduler_context_.tasks_ host
        (PeriodicTasksScheduler.complete_tasks k now tasks)) host =
        some (tasks.map (Spec.complete k now)) := by
      rw [HostMap.find_assign_of_find _ _ _ _ ht,
        PeriodicTasksScheduler.complete_tasks_map k now tasks hnd]
      simp
    rw [PeriodicTasksSchedulerContext.slot_eq _ host k _ ht3,
      List.find?_type_map _ (Spec.complete_type k now) k tasks, hfind]
    simp [Spec.complete, hty]
  · intro intervals now now2 hrange
    rw [PeriodicTasksScheduler.due_eq_fires intervals now2 _ hrange]
    unfold Spec.fires
    simp [hty]

/-- The witness of C14: the slot `GET_TASKS` of the enabled host "h", pending after one
iteration of the scheduler loop, is nudged. -/
theorem nudge_while_pending_witness :
    (Controller.reschedule_now
      (PeriodicTasksScheduler.iteration { cache_counter := 0, intervals := Intervals.default } 0
        ((Controller.init.add_host "h" "u" 1).st.schedule_periodic_tasks "h" true).st).st
      "h" .GET_TASKS).out = .returned ∧
    (Controller.reschedule_now
      (PeriodicTasksScheduler.iteration { cache_counter := 0, intervals := Intervals.default } 0
        ((Controller.init.add_host "h" "u" 1).st.schedule_periodic_tasks "h" true).st).st
      "h" .GET_TASKS).st.periodic_tasks_scheduler_context_.slot "h" .GET_TASKS =
      some { type := .GET_TASKS, last_execution := time_point_min, pending := true } :=
  ⟨(nudge_while_pending _
      (Reachable.iteration { cache_counter := 0, intervals := Intervals.default } 0
        (Reachable.schedule_periodic_tasks "h" true (Reachable.add_host "h" "u" 1 Reachable.init)))
      "h" (by decide) .GET_TASKS
      { type := .GET_TASKS, last_execution := time_point_min, pending := true }
      (by decide) rfl).1.1,
   (nudge_while_pending _
      (Reachable.iteration { cache_counter := 0, intervals := Intervals.default } 0
        (Reachable.schedule_periodic_tasks "h" true (Reachable.add_host "h" "u" 1 Reachable.init)))
      "h" (by decide) .GET_TASKS
      { type := .GET_TASKS, last_execution := time_point_min, pending := true }
      (by decide) rfl).1.2.2.2⟩

end Woinc

namespace Woinc

/-! ## C15: the nudges of the command operations -/

theorem Controller.schedule_now_ok (c : Controller) (host : String) (job : Job)
    (w : HostController) (hsd : c.shutdown_ = false)
    (hw : HostMap.find c.host_controllers_ host = some w) :
    c.schedule_now_ host job =
      { out := .returned
        st := { c with host_controllers_ := HostMap.assign c.host_controllers_ host (w.schedule job) }
        calls := [.worker_schedule_now host job] } := by
  unfold Controller.schedule_now_
  rw [if_neg (by simp [hsd]), hw]
  rfl

/-- The locked block of a command operation that nudges the slot of kind `k`, in closed
form, on a registered host of a controller that is not shut down. -/
theorem Controller.nudging_ok (c : Controller) (host : String) (job : Job) (k : PeriodicTask)
    (w : HostController) (tasks : List Task) (hsd : c.shutdown_ = false)
    (hw : HostMap.find c.host_controllers_ host = some w)
    (ht : HostMap.find c.periodic_tasks_scheduler_context_.tasks_ host = some tasks) :
    ((c.schedule_now_ host job).bind fun c =>
      c.on_scheduler (c.periodic_tasks_scheduler_context_.reschedule_now host k)).with_future =
      { out := .returned_future .pending
        st := { c with
          host_controllers_ := HostMap.assign c.host_controllers_ host (w.schedule job)
          periodic_tasks_scheduler_context_ :=
            { c.periodic_tasks_scheduler_context_ with
              tasks_ := HostMap.assign c.periodic_tasks_scheduler_context_.tasks_ host
                (PeriodicTasksSchedulerContext.reschedule_tasks k tasks) } }
        calls := [.worker_schedule_now host job, .scheduler_reschedule_now host k] } := by
  have e := PeriodicTasksSchedulerContext.reschedule_now_ok c.periodic_tasks_scheduler_context_
    host k tasks ht
  rw [Controller.schedule_now_ok c host job w hsd hw, Ran.bind_mk_returned]
  simp only [Controller.on_scheduler, e]
  rfl

/-- The command operations that only submit their job, in closed form, on a registered
host of a controller that is not shut down. -/
theorem Controller.submit_ok (c : Controller) (host : String) (cmd : Command)
    (w : HostController) (hh : host ≠ "") (hsd : c.shutdown_ = false)
    (hw : HostMap.find c.host_controllers_ host = some w) :
    ((check_not_empty_host_name__ host c).bind fun c =>
      (c.schedule_now_ host (.promised cmd)).with_future) =
      { out := .returned_future .pending
        st := { c with
          host_controllers_ := HostMap.assign c.host_controllers_ host (w.schedule (.promised cmd)) }
        calls := [.worker_schedule_now host (.promised cmd)] } := by
  rw [check_not_empty_host_name_bind, if_neg hh, Controller.schedule_now_ok c host _ w hsd hw]
  rfl

/-- The lookups of the slots after the scheduler's `reschedule_now(host, k)`. -/
theorem HostMap.find_nudged (m : HostMap (List Task)) (host : String) (k : PeriodicTask)
    (tasks : List Task) (ht : find m host = some tasks) (hnd : (tasks.map Task.type).Nodup)
    (h : String) :
    find (assign m host (PeriodicTasksSchedulerContext.reschedule_tasks k tasks)) h =
      (find m h).map fun ts => if h = host then ts.map (Spec.nudge k) else ts := by
  rw [PeriodicTasksSchedulerContext.reschedule_tasks_map k tasks hnd]
  exact find_assign_map m host tasks (fun ts => ts.map (Spec.nudge k)) ht h

/-- The member `active_only_tasks(host, value)`, in closed form, on a registered host of a
controller that is not shut down. -/
theorem Controller.active_only_tasks_ok (c : Controller) (host : String) (value : Bool)
    (w : HostController) (tasks : List Task) (row : HostConfiguration) (hh : host ≠ "")
    (hsd : c.shutdown_ = false) (hw : HostMap.find c.host_controllers_ host = some w)
    (ht : HostMap.find c.periodic_tasks_scheduler_context_.tasks_ host = some tasks)
    (hrow : HostMap.find c.configuration_.host_configurations_ host = some row) :
    c.active_only_tasks host value =
      { out := .returned
        st := { c with
          configuration_ := { c.configuration_ with host_configurations_ :=
            (HostMap.assign c.configuration_.host_configurations_ host
              { row with active_only_tasks := value }) }
          periodic_tasks_scheduler_context_ :=
            { c.periodic_tasks_scheduler_context_ with
              tasks_ := HostMap.assign c.periodic_tasks_scheduler_context_.tasks_ host
                (PeriodicTasksSchedulerContext.reschedule_tasks .GET_TASKS tasks) } }
        calls := [.config_active_only_tasks host value,
          .scheduler_reschedule_now host .GET_TASKS] } := by
  have e := PeriodicTasksSchedulerContext.reschedule_now_ok c.periodic_tasks_scheduler_context_
    host .GET_TASKS tasks ht
  have hne : ¬ HostMap.find c.host_controllers_ host = none := by rw [hw]; simp
  have ec : c.configuration_.set_active_only_tasks host value =
      { out := .returned
        st := { c.configuration_ with host_configurations_ :=
          (HostMap.assign c.configuration_.host_configurations_ host
            { row with active_only_tasks := value }) }
        calls := [.config_active_only_tasks host value] } := by
    unfold Configuration.set_active_only_tasks
    rw [hrow]
    rfl
  unfold Controller.active_only_tasks
  rw [check_not_empty_host_name_bind, if_neg hh, Controller.verify_not_shutdown_bind,
    if_neg (by simp [hsd]), Controller.verify_known_host_bind, if_neg hne, ec]
  simp only [Controller.on_configuration, Ran.bind_mk_returned, Controller.on_scheduler, e]
  rfl

/-- Claim C15: on a reachable controller, for a registered host with non-empty id and
non-empty arguments, `file_transfer_op`, `project_op` and `task_op` return their future and
`active_only_tasks` returns with the flag stored; after each, the slots of every host are
the slots before the call, but for the slots of that host, which are nudged as the spec
words it for `GET_FILE_TRANSFERS`, `GET_PROJECT_STATUS`, `GET_TASKS` and `GET_TASKS`: the
slot of the kind has `last_execution = time_point::min()`, every other slot, every kind and
every pending flag is as before. The six other command operations return their future and
leave the whole scheduler context, so every slot, as it is. -/
theorem command_ops_nudge (c : Controller) (hr : Reachable c) (host : String) (hh : host ≠ "")
    (hreg : c.has_host_ host = true) (op mode prefs mask : Nat)
    (master_url filename task_name : String) (hm : master_url ≠ "") (hf : filename ≠ "")
    (hn : task_name ≠ "") (value : Bool) :
    ((c.file_transfer_op host op master_url filename).out = .returned_future .pending ∧
      ∀ h, HostMap.find (c.file_transfer_op host op master_url
          filename).st.periodic_tasks_scheduler_context_.tasks_ h =
        (HostMap.find c.periodic_tasks_scheduler_context_.tasks_ h).map fun ts =>
          if h = host then ts.map (Spec.nudge .GET_FILE_TRANSFERS) else ts) ∧
    ((c.project_op host op master_url).out = .returned_future .pending ∧
      ∀ h, HostMap.find (c.project_op host op
          master_url).st.periodic_tasks_scheduler_context_.tasks_ h =
        (HostMap.find c.periodic_tasks_scheduler_context_.tasks_ h).map fun ts =>
          if h = host then ts.map (Spec.nudge .GET_PROJECT_STATUS) else ts) ∧
    ((c.task_op host op master_url task_name).out = .returned_future .pending ∧
      ∀ h, HostMap.find (c.task_op host op master_url
          task_name).st.periodic_tasks_scheduler_context_.tasks_ h =
        (HostMap.find c.periodic_tasks_scheduler_context_.tasks_ h).map fun ts =>
          if h = host then ts.map (Spec.nudge .GET_TASKS) else ts) ∧
    ((c.active_only_tasks host value).out = .returned ∧
      (c.active_only_tasks host value).st.configuration_.active_only_tasks host = .ok value ∧
      ∀ h, HostMap.find (c.active_only_tasks host
          value).st.periodic_tasks_scheduler_context_.tasks_ h =
        (HostMap.find c.periodic_tasks_scheduler_context_.tasks_ h).map fun ts =>
          if h = host then ts.map (Spec.nudge .GET_TASKS) else ts) ∧
    ((c.load_global_preferences host mode).out = .returned_future .pending ∧
      (c.load_global_preferences host mode).st.periodic_tasks_scheduler_context_ =
        c.periodic_tasks_scheduler_context_) ∧
    ((c.save_global_preferences host prefs mask).out = .returned_future .pending ∧
      (c.save_global_preferences host prefs mask).st.periodic_tasks_scheduler_context_ =
        c.periodic_tasks_scheduler_context_) ∧
    ((c.read_global_prefs_override host).out = .returned_future .pending ∧
      (c.read_global_prefs_override host).st.periodic_tasks_scheduler_context_ =
        c.periodic_tasks_scheduler_context_) ∧
    ((c.run_mode host mode).out = .returned_future .pending ∧
      (c.run_mode host mode).st.periodic_tasks_scheduler_context_ =
        c.periodic_tasks_scheduler_context_) ∧
    ((c.gpu_mode host mode).out = .returned_future .pending ∧
      (c.gpu_mode host mode).st.periodic_tasks_scheduler_context_ =
        c.periodic_tasks_scheduler_context_) ∧
    ((c.network_mode host mode).out = .returned_future .pending ∧
      (c.network_mode host mode).st.periodic_tasks_scheduler_context_ =
        c.periodic_tasks_scheduler_context_) ∧
    ∀ (k : PeriodicTask) (t : Task),
      (Spec.nudge k t).type = t.type ∧ (Spec.nudge k t).pending = t.pending ∧
      (t.type = k → (Spec.nudge k t).last_execution = time_point_min) ∧
      (t.type ≠ k → Spec.nudge k t = t) := by
  have hc := hr.inv
  have hsd := hr.not_shutdown_of_host host hreg
  obtain ⟨w, tasks, s, row, hw, ht, hs, hrow, -, -, hnd, -⟩ := hc.registered host hreg
  refine ⟨?_, ?_, ?_, ?_, ?_, ?_, ?_, ?_, ?_, ?_, ?_⟩
  · unfold Controller.file_transfer_op
    rw [check_not_empty_host_name_bind, if_neg hh, check_not_empty_bind, if_neg hm,
      check_not_empty_bind, if_neg hf, Controller.nudging_ok c host _ _ w tasks hsd hw ht]
    exact ⟨rfl, HostMap.find_nudged _ host _ tasks ht hnd⟩
  · unfold Controller.project_op
    rw [check_not_empty_host_name_bind, if_neg hh, check_not_empty_bind, if_neg hm,
      Controller.nudging_ok c host _ _ w tasks hsd hw ht]
    exact ⟨rfl, HostMap.find_nudged _ host _ tasks ht hnd⟩
  · unfold Controller.task_op
    rw [check_not_empty_host_name_bind, if_neg hh, check_not_empty_bind, if_neg hm,
      check_not_empty_bind, if_neg hn, Controller.nudging_ok c host _ _ w tasks hsd hw ht]
    exact ⟨rfl, HostMap.find_nudged _ host _ tasks ht hnd⟩
  · rw [Controller.active_only_tasks_ok c host value w tasks row hh hsd hw ht hrow]
    refine ⟨rfl, ?_, HostMap.find_nudged _ host _ tasks ht hnd⟩
    simp [Configuration.active_only_tasks, HostMap.find_assign_of_find _ _ _ _ hrow]
  · unfold Controller.load_global_preferences
    rw [Controller.submit_ok c host _ w hh hsd hw]
    exact ⟨rfl, rfl⟩
  · unfold Controller.save_global_preferences
    rw [Controller.submit_ok c host _ w hh hsd hw]
    exact ⟨rfl, rfl⟩
  · unfold Controller.read_global_prefs_override
    rw [Controller.submit_ok c host _ w hh hsd hw]
    exact ⟨rfl, rfl⟩
  · unfold Controller.run_mode
    rw [Controller.submit_ok c host _ w hh hsd hw]
    exact ⟨rfl, rfl⟩
  · unfold Controller.gpu_mode
    rw [Controller.submit_ok c host _ w hh hsd hw]
    exact ⟨rfl, rfl⟩
  · unfold Controller.network_mode
    rw [Controller.submit_ok c host _ w hh hsd hw]
    exact ⟨rfl, rfl⟩
  · intro k t
    unfold Spec.nudge
    by_cases e : t.type = k <;> simp [e]

/-- The witness of C15: `task_op` on the registered host "h" of a fresh controller nudges
the slot `GET_TASKS` of "h", whose lookup is the nudged list of the nine fresh slots. -/
theorem command_ops_nudge_witness :
    ((Controller.init.add_host "h" "u" 1).st.task_op "h" 0 "m" "t").out =
      .returned_future .pending ∧
    HostMap.find ((Controller.init.add_host "h" "u" 1).st.task_op "h" 0 "m"
        "t").st.periodic_tasks_scheduler_context_.tasks_ "h" =
      (HostMap.find (Controller.init.add_host "h" "u" 1).st.periodic_tasks_scheduler_context_.tasks_
        "h").map fun ts => if "h" = "h" then ts.map (Spec.nudge .GET_TASKS) else ts :=
  ⟨(command_ops_nudge (Controller.init.add_host "h" "u" 1).st
      (Reachable.add_host "h" "u" 1 Reachable.init) "h" (by decide) (by decide) 0 0 0 0
      "m" "f" "t" (by decide) (by decide) (by decide) true).2.2.1.1,
   (command_ops_nudge (Controller.init.add_host "h" "u" 1).st
      (Reachable.add_host "h" "u" 1 Reachable.init) "h" (by decide) (by decide) 0 0 0 0
      "m" "f" "t" (by decide) (by decide) (by decide) true).2.2.1.2 "h"⟩

end Woinc

namespace Woinc

/-! ## C16: one pass of the scheduler -/

theorem Spec.pass_slots_congr (f g : Task → Bool) (tasks : List Task)
    (h : ∀ t ∈ tasks, f t = g t) : Spec.pass_slots f tasks = Spec.pass_slots g tasks := by
  unfold Spec.pass_slots
  apply List.map_congr_left
  intro t ht
  rw [h t ht]

theorem Spec.pass_jobs_congr (f g : Task → Bool) (s : State) (b : Bool) (tasks : List Task)
    (h : ∀ t ∈ tasks, f t = g t) : Spec.pass_jobs f s b tasks = Spec.pass_jobs g s b tasks := by
  unfold Spec.pass_jobs
  rw [List.filter_congr h]

theorem Spec.host_slots_congr (f g : Task → Bool) (cfg : Configuration) (host : String)
    (tasks : List Task) (h : ∀ t ∈ tasks, f t = g t) :
    Spec.host_slots f cfg host tasks = Spec.host_slots g cfg host tasks := by
  unfold Spec.host_slots
  rw [Spec.pass_slots_congr f g tasks h]

theorem Spec.host_jobs_congr (f g : Task → Bool) (states : HostMap State) (cfg : Configuration)
    (host : String) (tasks : List Task) (h : ∀ t ∈ tasks, f t = g t) :
    Spec.host_jobs f states cfg host tasks = Spec.host_jobs g states cfg host tasks := by
  unfold Spec.host_jobs
  cases HostMap.find states host with
  | none => rfl
  | some s =>
    cases HostMap.find cfg.host_configurations_ host with
    | none => rfl
    | some row =>
      simp only
      rw [Spec.pass_jobs_congr f g s _ tasks h]

theorem Spec.added_jobs_congr (f g : Task → Bool) (states : HostMap State) (cfg : Configuration)
    (m : HostMap (List Task)) (host : String) (h : ∀ e ∈ m, ∀ t ∈ e.2, f t = g t) :
    Spec.added_jobs f states cfg m host = Spec.added_jobs g states cfg m host := by
  unfold Spec.added_jobs
  cases hf : HostMap.find m host with
  | none => rfl
  | some ts =>
    simp only
    exact Spec.host_jobs_congr f g states cfg host ts (h _ (HostMap.mem_of_find m host ts hf))

theorem Spec.pass_slots_last_execution (f : Task → Bool) (tasks : List Task) :
    (Spec.pass_slots f tasks).map Task.last_execution = tasks.map Task.last_execution ∧
    (Spec.pass_slots f tasks).map Task.type = tasks.map Task.type := by
  unfold Spec.pass_slots
  rw [List.map_map, List.map_map]
  constructor <;>
  · apply List.map_congr_left
    intro t _
    simp only [Function.comp]
    split <;> rfl

/-- Claim C16: one pass at time `now` over a reachable state in which the sums
`last_execution + interval(kind)` are within the 64 bit ticks returns and does exactly what
the spec words: the slots of a host with `schedule_enabled = true` that are not pending and
have `now ≥ last_execution + interval(kind)` are marked pending, and the queue of the host
gains one periodic job per such slot, in the order of the slots, with the payload
`seqno = messages_seqno` for `GET_MESSAGES`, `seqno = notices_seqno` for `GET_NOTICES` and
`active_only` = the flag of the host for `GET_TASKS`; every other slot and every other
queue is as before; the poll states, the worker references, the configuration, the handlers
and the flags are as before; no `last_execution` and no kind of a slot changes; and a host
with `schedule_enabled = false` keeps its queue and its slots. -/
theorem pass_spec (c : Controller) (hr : Reachable c) (intervals : Intervals) (now : Int)
    (hrange : ∀ e ∈ c.periodic_tasks_scheduler_context_.tasks_, ∀ t ∈ e.2,
      Spec.in_range intervals t) :
    (PeriodicTasksScheduler.pass intervals now c).out = .returned ∧
    (∀ h, HostMap.find
        (PeriodicTasksScheduler.pass intervals now c).st.periodic_tasks_scheduler_context_.tasks_ h =
      (HostMap.find c.periodic_tasks_scheduler_context_.tasks_ h).map
        (Spec.host_slots (Spec.fires intervals now) c.configuration_ h)) ∧
    (∀ h, HostMap.find (PeriodicTasksScheduler.pass intervals now c).st.host_controllers_ h =
      (HostMap.find c.host_controllers_ h).map fun w =>
        { queue := w.queue ++ Spec.added_jobs (Spec.fires intervals now)
            c.periodic_tasks_scheduler_context_.states_ c.configuration_
            c.periodic_tasks_scheduler_context_.tasks_ h }) ∧
    (PeriodicTasksScheduler.pass intervals now c).st.periodic_tasks_scheduler_context_.states_ =
      c.periodic_tasks_scheduler_context_.states_ ∧
    (PeriodicTasksScheduler.pass intervals now
        c).st.periodic_tasks_scheduler_context_.host_controllers_ =
      c.periodic_tasks_scheduler_context_.host_controllers_ ∧
    (PeriodicTasksScheduler.pass intervals now c).st.configuration_ = c.configuration_ ∧
    (PeriodicTasksScheduler.pass intervals now c).st.handler_registry_ = c.handler_registry_ ∧
    (PeriodicTasksScheduler.pass intervals now c).st.shutdown_ = c.shutdown_ ∧
    (∀ h ts ts', HostMap.find c.periodic_tasks_scheduler_context_.tasks_ h = some ts →
      HostMap.find
        (PeriodicTasksScheduler.pass intervals now c).st.periodic_tasks_scheduler_context_.tasks_ h =
          some ts' →
      ts'.map Task.last_execution = ts.map Task.last_execution ∧
      ts'.map Task.type = ts.map Task.type) ∧
    (∀ h, c.configuration_.schedule_periodic_tasks h = .ok false →
      HostMap.find (PeriodicTasksScheduler.pass intervals now c).st.host_controllers_ h =
        HostMap.find c.host_controllers_ h ∧
      HostMap.find
        (PeriodicTasksScheduler.pass intervals now c).st.periodic_tasks_scheduler_context_.tasks_ h =
        HostMap.find c.periodic_tasks_scheduler_context_.tasks_ h) := by
  have hc := hr.inv
  obtain ⟨p1, p2, p3, p4, p5, -, p7, p8, p9, -⟩ :=
    PeriodicTasksScheduler.pass_exact intervals now c hc.pass_ready
  have hfg : ∀ e ∈ c.periodic_tasks_scheduler_context_.tasks_, ∀ t ∈ e.2,
      PeriodicTasksScheduler.due_ intervals now t = Spec.fires intervals now t :=
    fun e he t ht => PeriodicTasksScheduler.due_eq_fires intervals now t (hrange e he t ht)
  have q2 : ∀ h, HostMap.find
        (PeriodicTasksScheduler.pass intervals now c).st.periodic_tasks_scheduler_context_.tasks_ h =
      (HostMap.find c.periodic_tasks_scheduler_context_.tasks_ h).map
        (Spec.host_slots (Spec.fires intervals now) c.configuration_ h) := by
    intro h
    rw [p2 h]
    cases hf : HostMap.find c.periodic_tasks_scheduler_context_.tasks_ h with
    | none => rfl
    | some ts =>
      simp only [Option.map]
      rw [Spec.host_slots_congr _ _ c.configuration_ h ts
        (hfg _ (HostMap.mem_of_find _ h ts hf))]
  have q3 : ∀ h, HostMap.find (PeriodicTasksScheduler.pass intervals now c).st.host_controllers_ h =
      (HostMap.find c.host_controllers_ h).map fun w =>
        { queue := w.queue ++ Spec.added_jobs (Spec.fires intervals now)
            c.periodic_tasks_scheduler_context_.states_ c.configuration_
            c.periodic_tasks_scheduler_context_.tasks_ h } := by
    intro h
    rw [p3 h, Spec.added_jobs_congr _ _ _ _ _ h hfg]
  refine ⟨p1, q2, q3, p4, p5, p7, p8, p9, ?_, ?_⟩
  · intro h ts ts' hts hts'
    rw [q2 h, hts] at hts'
    simp only [Option.map, Option.some.injEq] at hts'
    subst hts'
    unfold Spec.host_slots
    cases HostMap.find c.configuration_.host_configurations_ h with
    | none => exact ⟨rfl, rfl⟩
    | some row =>
      simp only
      split
      · exact Spec.pass_slots_last_execution _ ts
      · exact ⟨rfl, rfl⟩
  · intro h hoff
    have hrow : ∃ row, HostMap.find c.configuration_.host_configurations_ h = some row ∧
        row.schedule_periodic_tasks = false := by
      unfold Configuration.schedule_periodic_tasks at hoff
      cases hf : HostMap.find c.configuration_.host_configurations_ h with
      | none => rw [hf] at hoff; simp at hoff
      | some row =>
        rw [hf] at hoff
        exact ⟨row, rfl, by simpa using hoff⟩
    obtain ⟨row, hrow, hflag⟩ := hrow
    constructor
    · rw [q3 h]
      have : Spec.added_jobs (Spec.fires intervals now)
          c.periodic_tasks_scheduler_context_.states_ c.configuration_
          c.periodic_tasks_scheduler_context_.tasks_ h = [] := by
        unfold Spec.added_jobs Spec.host_jobs
        rw [hrow]
        cases HostMap.find c.periodic_tasks_scheduler_context_.tasks_ h with
        | none => rfl
        | some ts =>
          cases HostMap.find c.periodic_tasks_scheduler_context_.states_ h with
          | none => rfl
          | some s => simp [hflag]
      rw [this]
      cases HostMap.find c.host_controllers_ h <;> simp
    · rw [q2 h]
      cases HostMap.find c.periodic_tasks_scheduler_context_.tasks_ h with
      | none => rfl
      | some ts => simp [Spec.host_slots, hrow, hflag]

/-- The witness of C16: a pass at time 0 with the default intervals over the enabled host
"h" of a fresh controller returns, and the queue of "h" holds its nine periodic jobs. -/
theorem pass_spec_witness :
    (PeriodicTasksScheduler.pass Intervals.default 0
      ((Controller.init.add_host "h" "u" 1).st.schedule_periodic_tasks "h" true).st).out =
      .returned ∧
    HostMap.find (PeriodicTasksScheduler.pass Intervals.default 0
      ((Controller.init.add_host "h" "u" 1).st.schedule_periodic_tasks "h"
        true).st).st.host_controllers_ "h" =
      some { queue := PeriodicTask.all.map fun k =>
        Job.periodic { task := k, payload := Payload.new } } :=
  ⟨(pass_spec _
      (Reachable.schedule_periodic_tasks "h" true (Reachable.add_host "h" "u" 1 Reachable.init))
      Intervals.default 0 (by decide)).1,
   ((pass_spec _
      (Reachable.schedule_periodic_tasks "h" true (Reachable.add_host "h" "u" 1 Reachable.init))
      Intervals.default 0 (by decide)).2.2.1 "h").trans (by decide)⟩

end Woinc

namespace Woinc

/-! ## C17: the post-execution callback -/

/-- Claim C17: on a reachable controller, for every registered host h, every kind k, every
payload the completed job carries and every time `now`, `handle_post_execution`, which has
no parameter for the status of the job, returns without a call; the slots of every other
host are as before and the slots of h are completed as the spec words it: the slot (h, k),
which exists, has `last_execution = now` and `pending = false` and its kind, every other
slot of h is as before; the poll states of the other hosts, the worker references and the
shutdown flag are as before; and the completed slot, its sum within the 64 bit ticks, is
due at `now2` exactly when `now + interval(k) ≤ now2`. -/
theorem post_execution_spec (c : Controller) (hr : Reachable c) (host : String)
    (hreg : c.has_host_ host = true) (k : PeriodicTask) (payload : Payload) (now : Int) :
    (PeriodicTasksScheduler.handle_post_execution c.periodic_tasks_scheduler_context_ host
      { task := k, payload := payload } now).out = .returned ∧
    (PeriodicTasksScheduler.handle_post_execution c.periodic_tasks_scheduler_context_ host
      { task := k, payload := payload } now).calls = [] ∧
    (∀ h, HostMap.find (PeriodicTasksScheduler.handle_post_execution
        c.periodic_tasks_scheduler_context_ host { task := k, payload := payload } now).st.tasks_ h =
      (HostMap.find c.periodic_tasks_scheduler_context_.tasks_ h).map fun ts =>
        if h = host then ts.map (Spec.complete k now) else ts) ∧
    (∃ t, c.periodic_tasks_scheduler_context_.slot host k = some t ∧
      (PeriodicTasksScheduler.handle_post_execution c.periodic_tasks_scheduler_context_ host
        { task := k, payload := payload } now).st.slot host k =
        some { type := k, last_execution := now, pending := false } ∧
      ∀ intervals now2,
        Spec.in_range intervals { type := k, last_execution := now, pending := false } →
        (PeriodicTasksScheduler.due_ intervals now2
            { type := k, last_execution := now, pending := false } = true ↔
          now + intervals.at k * ticks_per_second ≤ now2)) ∧
    (∀ h, h ≠ host → HostMap.find (PeriodicTasksScheduler.handle_post_execution
        c.periodic_tasks_scheduler_context_ host { task := k, payload := payload } now).st.states_ h =
      HostMap.find c.periodic_tasks_scheduler_context_.states_ h) ∧
    (PeriodicTasksScheduler.handle_post_execution c.periodic_tasks_scheduler_context_ host
      { task := k, payload := payload } now).st.host_controllers_ =
      c.periodic_tasks_scheduler_context_.host_controllers_ ∧
    (PeriodicTasksScheduler.handle_post_execution c.periodic_tasks_scheduler_context_ host
      { task := k, payload := payload } now).st.shutdown_triggered_ =
      c.periodic_tasks_scheduler_context_.shutdown_triggered_ ∧
    ∀ (t : Task),
      (Spec.complete k now t).type = t.type ∧
      (t.type = k → Spec.complete k now t = { t with last_execution := now, pending := false }) ∧
      (t.type ≠ k → Spec.complete k now t = t) := by
  have hc := hr.inv
  obtain ⟨w, tasks, s, row, hw, ht, hs, hrow, -, hall, hnd, -⟩ := hc.registered host hreg
  have hk := PeriodicTasksScheduler.has_task_all k tasks hall
  have e := PeriodicTasksScheduler.handle_post_execution_ok c.periodic_tasks_scheduler_context_
    host k payload now tasks s ht hk hs
  rw [e]
  have hlook : ∀ h, HostMap.find (HostMap.assign c.periodic_tasks_scheduler_context_.tasks_ host
        (PeriodicTasksScheduler.complete_tasks k now tasks)) h =
      (HostMap.find c.periodic_tasks_scheduler_context_.tasks_ h).map fun ts =>
        if h = host then ts.map (Spec.complete k now) else ts := by
    intro h
    rw [PeriodicTasksScheduler.complete_tasks_map k now tasks hnd]
    exact HostMap.find_assign_map _ host tasks (fun ts => ts.map (Spec.complete k now)) ht h
  obtain ⟨t, hmem, hty⟩ := (PeriodicTasksScheduler.has_task_iff k tasks).mp hk
  have hfind : ∃ t, tasks.find? (fun t => decide (t.type = k)) = some t ∧ t.type = k := by
    cases hf : tasks.find? (fun t => decide (t.type = k)) with
    | none =>
      have := List.find?_eq_none.mp hf t hmem
      simp [hty] at this
    | some t' => exact ⟨t', rfl, by simpa using List.find?_some hf⟩
  obtain ⟨t1, hf1, hty1⟩ := hfind
  refine ⟨rfl, rfl, hlook, ⟨t1, ?_, ?_, ?_⟩, ?_, rfl, rfl, ?_⟩
  · rw [PeriodicTasksSchedulerContext.slot_eq _ host k _ ht, hf1]
  · have ht3 : HostMap.find (HostMap.assign c.periodic_tasks_scheduler_context_.tasks_ host
        (PeriodicTasksScheduler.complete_tasks k now tasks)) host =
        some (tasks.map (Spec.complete k now)) := by
      rw [hlook host, ht]
      simp
    rw [PeriodicTasksSchedulerContext.slot_eq _ host k _ ht3,
      List.find?_type_map _ (Spec.complete_type k now) k tasks, hf1]
    simp [Spec.complete, hty1]
  · intro intervals now2 hrange
    rw [PeriodicTasksScheduler.due_eq_fires intervals now2 _ hrange]
    unfold Spec.fires
    simp
  · intro h hne
    have hne2 : ¬ host = h := fun e => hne e.symm
    show HostMap.find (if k = .GET_MESSAGES then _ else if k = .GET_NOTICES then _ else _) h = _
    split
    · rw [HostMap.find_assign_of_find _ _ _ _ hs, if_neg hne2]
    · split
      · rw [HostMap.find_assign_of_find _ _ _ _ hs, if_neg hne2]
      · rfl
  · intro t
    unfold Spec.complete
    by_cases e : t.type = k <;> simp [e]

/-- The witness of C17: the callback for a job of kind `GET_TASKS` of the registered host
"h" at time 5 leaves the slot completed at 5. -/
theorem post_execution_spec_witness :
    (PeriodicTasksScheduler.handle_post_execution
      (Controller.init.add_host "h" "u" 1).st.periodic_tasks_scheduler_context_ "h"
      { task := .GET_TASKS, payload := Payload.new } 5).out = .returned ∧
    (PeriodicTasksScheduler.handle_post_execution
      (Controller.init.add_host "h" "u" 1).st.periodic_tasks_scheduler_context_ "h"
      { task := .GET_TASKS, payload := Payload.new } 5).calls = [] :=
  ⟨(post_execution_spec (Controller.init.add_host "h" "u" 1).st
      (Reachable.add_host "h" "u" 1 Reachable.init) "h" (by decide) .GET_TASKS Payload.new 5).1,
   (post_execution_spec (Controller.init.add_host "h" "u" 1).st
      (Reachable.add_host "h" "u" 1 Reachable.init) "h" (by decide) .GET_TASKS Payload.new 5).2.1⟩

end Woinc

namespace Woinc

/-! ## C18: the tables hold the same hosts -/

/-- A host of one of the scheduler tables of a state that satisfies the invariant has a
host record. -/
theorem Inv.scheduler_host {c : Controller} (hc : Inv c) (h : String)
    (hpre : (HostMap.find c.periodic_tasks_scheduler_context_.tasks_ h).isSome = true ∨
      (HostMap.find c.periodic_tasks_scheduler_context_.host_controllers_ h).isSome = true ∨
      (HostMap.find c.periodic_tasks_scheduler_context_.states_ h).isSome = true) :
    (HostMap.find c.host_controllers_ h).isSome = true := by
  rcases hpre with h1 | h1 | h1
  · rw [← hc.tasks_dom h]; exact h1
  · rw [hc.refs h] at h1
    simpa using h1
  · rw [← hc.states_dom h]; exact h1

/-- A state `p` that differs from a state `c` satisfying the invariant only at `host`, and
is covered at `host`, has what a pass of the scheduler looks up. -/
theorem Inv.ready_of {c : Controller} (hc : Inv c) (p : Controller) (host : String)
    (hnd : (HostMap.keys p.periodic_tasks_scheduler_context_.tasks_).Nodup)
    (hother : ∀ h, h ≠ host →
      HostMap.find p.periodic_tasks_scheduler_context_.tasks_ h =
        HostMap.find c.periodic_tasks_scheduler_context_.tasks_ h ∧
      HostMap.find p.periodic_tasks_scheduler_context_.host_controllers_ h =
        HostMap.find c.periodic_tasks_scheduler_context_.host_controllers_ h ∧
      HostMap.find p.periodic_tasks_scheduler_context_.states_ h =
        HostMap.find c.periodic_tasks_scheduler_context_.states_ h ∧
      HostMap.find p.configuration_.host_configurations_ h =
        HostMap.find c.configuration_.host_configurations_ h ∧
      HostMap.find p.host_controllers_ h = HostMap.find c.host_controllers_ h)
    (hhost : ((HostMap.find p.periodic_tasks_scheduler_context_.tasks_ host).isSome = true ∨
        (HostMap.find p.periodic_tasks_scheduler_context_.host_controllers_ host).isSome = true ∨
        (HostMap.find p.periodic_tasks_scheduler_context_.states_ host).isSome = true) →
      HostMap.find p.periodic_tasks_scheduler_context_.host_controllers_ host = some host ∧
      (HostMap.find p.periodic_tasks_scheduler_context_.states_ host).isSome = true ∧
      (HostMap.find p.configuration_.host_configurations_ host).isSome = true ∧
      (HostMap.find p.host_controllers_ host).isSome = true) :
    SchedulerCovered p ∧ PassReady p := by
  have key : ∀ h, ((HostMap.find p.periodic_tasks_scheduler_context_.tasks_ h).isSome = true ∨
        (HostMap.find p.periodic_tasks_scheduler_context_.host_controllers_ h).isSome = true ∨
        (HostMap.find p.periodic_tasks_scheduler_context_.states_ h).isSome = true) →
      HostMap.find p.periodic_tasks_scheduler_context_.host_controllers_ h = some h ∧
      (HostMap.find p.periodic_tasks_scheduler_context_.states_ h).isSome = true ∧
      (HostMap.find p.configuration_.host_configurations_ h).isSome = true ∧
      (HostMap.find p.host_controllers_ h).isSome = true := by
    intro h hpre
    by_cases hh : h = host
    · subst hh; exact hhost hpre
    · obtain ⟨e1, e2, e3, e4, e5⟩ := hother h hh
      rw [e1, e2, e3] at hpre
      have hw := hc.scheduler_host h hpre
      obtain ⟨w, hw'⟩ := Option.isSome_iff_exists.mp hw
      rw [e2, e3, e4, e5, hc.refs h, hc.states_dom h, hc.config_dom h, hw']
      exact ⟨rfl, rfl, rfl, rfl⟩
  exact ⟨fun h hpre => ⟨(key h hpre).2.2.1, (key h hpre).2.2.2⟩,
    hnd, fun h hpre => key h (Or.inl hpre)⟩

/-- Claim C18: in every reachable state the host map of the facade, the three tables of
the scheduler (slots, worker references, poll states) and the rows of the configuration
hold the same host ids, a worker reference being the key of a host record; in the states
between the statements of `add_host(host, …)` and of `remove_host_(host)`, run by
`remove_host` and by the thread of `async_remove_host`, every host of a scheduler table has
a configuration row and a host record; and in the reachable state and in each of these
states a pass of the scheduler has all it looks up and returns. A successful `add_host` and
a successful `remove_host_` end in the last of their intermediate states. -/
theorem tables_agree (c : Controller) (hr : Reachable c) (host : String)
    (intervals : Intervals) (now : Int) :
    (∀ h,
      (HostMap.find c.periodic_tasks_scheduler_context_.tasks_ h).isSome =
        (HostMap.find c.host_controllers_ h).isSome ∧
      (HostMap.find c.periodic_tasks_scheduler_context_.host_controllers_ h).isSome =
        (HostMap.find c.host_controllers_ h).isSome ∧
      (HostMap.find c.periodic_tasks_scheduler_context_.states_ h).isSome =
        (HostMap.find c.host_controllers_ h).isSome ∧
      (HostMap.find c.configuration_.host_configurations_ h).isSome =
        (HostMap.find c.host_controllers_ h).isSome ∧
      HostMap.find c.periodic_tasks_scheduler_context_.host_controllers_ h =
        (HostMap.find c.host_controllers_ h).map fun _ => h) ∧
    (SchedulerCovered c ∧ PassReady c ∧
      (PeriodicTasksScheduler.pass intervals now c).out = .returned) ∧
    (∀ p ∈ c.add_host_points host ++ c.remove_host_points host,
      SchedulerCovered p ∧ PassReady p ∧
      (PeriodicTasksScheduler.pass intervals now p).out = .returned) ∧
    (∀ url port, host ≠ "" → url ≠ "" → c.shutdown_ = false → c.has_host_ host = false →
      (c.add_host host url port).out = .returned ∧
      (c.add_host host url port).st ∈ c.add_host_points host) ∧
    (c.has_host_ host = true →
      (c.remove_host_ host).out = .returned ∧
      (c.remove_host_ host).st ∈ c.remove_host_points host) := by
  have hc := hr.inv
  have hrefs : ∀ h, (HostMap.find c.periodic_tasks_scheduler_context_.host_controllers_ h).isSome =
      (HostMap.find c.host_controllers_ h).isSome := by
    intro h
    rw [hc.refs h]
    cases HostMap.find c.host_controllers_ h <;> rfl
  have hpoints : ∀ p ∈ c.add_host_points host ++ c.remove_host_points host,
      SchedulerCovered p ∧ PassReady p := by
    intro p hp
    simp only [Controller.add_host_points, Controller.remove_host_points, List.cons_append,
      List.nil_append, List.mem_cons, List.mem_singleton, List.not_mem_nil, or_false] at hp
    have hself : ((HostMap.find c.periodic_tasks_scheduler_context_.tasks_ host).isSome = true ∨
        (HostMap.find c.periodic_tasks_scheduler_context_.host_controllers_ host).isSome = true ∨
        (HostMap.find c.periodic_tasks_scheduler_context_.states_ host).isSome = true) →
        HostMap.find c.periodic_tasks_scheduler_context_.host_controllers_ host = some host ∧
        (HostMap.find c.periodic_tasks_scheduler_context_.states_ host).isSome = true ∧
        (HostMap.find c.configuration_.host_configurations_ host).isSome = true ∧
        (HostMap.find c.host_controllers_ host).isSome = true := by
      intro hpre
      have hw := hc.scheduler_host host hpre
      obtain ⟨w, hw'⟩ := Option.isSome_iff_exists.mp hw
      rw [hc.refs host, hc.states_dom host, hc.config_dom host, hw']
      exact ⟨rfl, rfl, rfl, rfl⟩
    rcases hp with rfl | rfl | rfl | rfl | rfl | rfl
    · refine hc.ready_of _ host hc.tasks_nodup ?_ ?_
      · intro h hh
        have hh2 : ¬ host = h := fun e => hh e.symm
        simp [Configuration.add_host, HostMap.find_emplace, hh2]
      · intro hpre
        obtain ⟨a, b, -, d⟩ := hself hpre
        refine ⟨a, b, ?_, d⟩
        simp [Configuration.add_host, HostMap.find_emplace]
    · refine hc.ready_of _ host hc.tasks_nodup ?_ ?_
      · intro h hh
        have hh2 : ¬ host = h := fun e => hh e.symm
        simp [Configuration.add_host, HostMap.find_emplace, hh2]
      · intro hpre
        obtain ⟨a, b, -, -⟩ := hself hpre
        refine ⟨a, b, ?_, ?_⟩
        · simp [Configuration.add_host, HostMap.find_emplace]
        · simp [HostMap.find_emplace]
    · refine hc.ready_of _ host ?_ ?_ ?_
      · exact HostMap.nodup_keys_emplace _ _ _ hc.tasks_nodup
      · intro h hh
        have hh2 : ¬ host = h := fun e => hh e.symm
        simp [Configuration.add_host, PeriodicTasksSchedulerContext.add_host,
          HostMap.find_emplace, hh2]
      · intro _
        refine ⟨?_, ?_, ?_, ?_⟩
        · show HostMap.find (HostMap.emplace _ _ _) host = _
          rw [HostMap.find_emplace, if_pos rfl, hc.refs host]
          cases HostMap.find c.host_controllers_ host <;> rfl
        · simp [PeriodicTasksSchedulerContext.add_host, HostMap.find_emplace]
        · simp [Configuration.add_host, HostMap.find_emplace]
        · simp [HostMap.find_emplace]
    · refine hc.ready_of _ host ?_ ?_ ?_
      · exact HostMap.nodup_keys_erase _ _ hc.tasks_nodup
      · intro h hh
        have hh2 : ¬ host = h := fun e => hh e.symm
        simp [PeriodicTasksSchedulerContext.remove_host, HostMap.find_erase, hh2]
      · intro hpre
        simp [PeriodicTasksSchedulerContext.remove_host, HostMap.find_erase] at hpre
    · refine hc.ready_of _ host ?_ ?_ ?_
      · exact HostMap.nodup_keys_erase _ _ hc.tasks_nodup
      · intro h hh
        have hh2 : ¬ host = h := fun e => hh e.symm
        simp [PeriodicTasksSchedulerContext.remove_host, HostMap.find_erase, hh2]
      · intro hpre
        simp [PeriodicTasksSchedulerContext.remove_host, HostMap.find_erase] at hpre
    · refine hc.ready_of _ host ?_ ?_ ?_
      · exact HostMap.nodup_keys_erase _ _ hc.tasks_nodup
      · intro h hh
        have hh2 : ¬ host = h := fun e => hh e.symm
        simp [PeriodicTasksSchedulerContext.remove_host, Configuration.remove_host,
          HostMap.find_erase, hh2]
      · intro hpre
        simp [PeriodicTasksSchedulerContext.remove_host, HostMap.find_erase] at hpre
  have hself : SchedulerCovered c := by
    intro h hpre
    have hw := hc.scheduler_host h hpre
    rw [hc.config_dom h]
    exact ⟨hw, hw⟩
  refine ⟨fun h => ⟨hc.tasks_dom h, hrefs h, hc.states_dom h, hc.config_dom h, hc.refs h⟩,
    ⟨hself, hc.pass_ready, (PeriodicTasksScheduler.pass_exact intervals now c hc.pass_ready).1⟩,
    fun p hp => ⟨(hpoints p hp).1, (hpoints p hp).2,
      (PeriodicTasksScheduler.pass_exact intervals now p (hpoints p hp).2).1⟩, ?_, ?_⟩
  · intro url port h1 h2 h3 h4
    have h5 : HostMap.find c.host_controllers_ host = none := by
      unfold Controller.has_host_ at h4
      exact Option.not_isSome_iff_eq_none.mp (by simp [h4])
    rw [Controller.add_host_ok c host url port h1 h2 h3 h5]
    refine ⟨rfl, ?_⟩
    simp [Controller.add_host_points]
  · intro hreg
    unfold Controller.has_host_ at hreg
    obtain ⟨w, hw⟩ := Option.isSome_iff_exists.mp hreg
    rw [Controller.remove_host_ok c host w hw]
    refine ⟨rfl, ?_⟩
    simp [Controller.remove_host_points]

/-- The witness of C18: the state after `add_host("h", …)` on a fresh controller, a pass
over which returns. -/
theorem tables_agree_witness :
    (PeriodicTasksScheduler.pass Intervals.default 0
      (Controller.init.add_host "h" "u" 1).st).out = .returned ∧
    SchedulerCovered (Controller.init.add_host "h" "u" 1).st :=
  ⟨(tables_agree (Controller.init.add_host "h" "u" 1).st
      (Reachable.add_host "h" "u" 1 Reachable.init) "g" Intervals.default 0).2.1.2.2,
   (tables_agree (Controller.init.add_host "h" "u" 1).st
      (Reachable.add_host "h" "u" 1 Reachable.init) "g" Intervals.default 0).2.1.1⟩

end Woinc
